import Mathlib

/-!
Bowling-Alley: the scoring engine of `src/js/scoring-system.js`.

A shallow embedding of the class `ScoringSystem`: frames, games and the series are
records, every method is a function on the state, and a JavaScript `TypeError`
(reading a property of `undefined`) is the result `none`.  Pin counts are integers.
-/

set_option autoImplicit false

/-! ## Data model -/

/-- One frame object as pushed by `initNewGame` (scoring-system.js, lines 21-28);
`score = none` stands for the JavaScript `null`. -/
structure Frame where
  frameNumber : Nat
  throws : List Int
  score : Option Int
  isStrike : Bool
  isSpare : Bool
  isComplete : Bool
deriving DecidableEq, Repr

/-- One game object (scoring-system.js, lines 13-17). -/
structure Game where
  frames : List Frame
  totalScore : Int
  isComplete : Bool
deriving DecidableEq, Repr

/-- The fields of a `ScoringSystem` instance (scoring-system.js, lines 5-10). -/
structure ScoringSystem where
  games : List Game
  currentGameIndex : Nat
  maxGames : Nat
deriving DecidableEq, Repr

/-! ## Frame-level operations -/

/-- The frame literal pushed for loop index `i` in `initNewGame`. -/
def newFrame (i : Nat) : Frame :=
  { frameNumber := i + 1, throws := [], score := none,
    isStrike := false, isSpare := false, isComplete := false }

/-- The game object built by `initNewGame`: ten empty frames, total 0, not complete. -/
def newGame : Game :=
  { frames := (List.range 10).map newFrame, totalScore := 0, isComplete := false }

/-- The reduction `throws.reduce((sum, pins) => sum + pins, 0)`. -/
def sumPins (throws : List Int) : Int :=
  throws.foldl (fun sum pins => sum + pins) 0

/-- The read `throws[i] || 0` of `handle10thFrame`; the same total read is used for
`throws[i]` where the source guards the index by a length test. -/
def pinAt (throws : List Int) (i : Nat) : Int :=
  throws.getD i 0

/-- The method `handleRegularFrame(frame)` (scoring-system.js, lines 67-86). -/
def handleRegularFrame (frame : Frame) : Frame :=
  let totalPins := sumPins frame.throws
  if frame.throws.length = 1 then
    if frame.throws[0]? = some 10 then
      { frame with isStrike := true, isComplete := true }
    else frame
  else if frame.throws.length = 2 then
    let frame1 := if totalPins = 10 then { frame with isSpare := true } else frame
    { frame1 with isComplete := true }
  else frame

/-- The method `handle10thFrame(frame)` (scoring-system.js, lines 88-111). -/
def handle10thFrame (frame : Frame) : Frame :=
  let firstThrow := pinAt frame.throws 0
  let secondThrow := pinAt frame.throws 1
  if firstThrow = 10 then
    let frame1 := { frame with isStrike := true }
    if frame1.throws.length ≥ 3 then { frame1 with isComplete := true } else frame1
  else if firstThrow + secondThrow = 10 then
    let frame1 := { frame with isSpare := true }
    if frame1.throws.length ≥ 3 then { frame1 with isComplete := true } else frame1
  else if frame.throws.length ≥ 2 then
    { frame with isComplete := true }
  else frame

/-- The value assigned to `frame.score` for loop index `i` of `calculateScores`
(scoring-system.js, lines 118-151): `some none` when no branch assigns, `none` when a
frame that is read does not exist. -/
def assignedScore (frames : List Frame) (i : Nat) (frame : Frame) : Option (Option Int) :=
  if i < 9 then
    if frame.isStrike then
      match frames[i + 1]? with
      | none => none
      | some nextFrame =>
        if nextFrame.throws.length ≥ 2 then
          some (some (10 + pinAt nextFrame.throws 0 + pinAt nextFrame.throws 1))
        else if nextFrame.throws.length = 1 then
          if nextFrame.isStrike && decide (i < 8) then
            match frames[i + 2]? with
            | none => none
            | some frameAfterNext =>
              if frameAfterNext.throws.length ≥ 1 then
                some (some (10 + 10 + pinAt frameAfterNext.throws 0))
              else some none
          else some none
        else some none
    else if frame.isSpare then
      match frames[i + 1]? with
      | none => none
      | some nextFrame =>
        if nextFrame.throws.length ≥ 1 then
          some (some (10 + pinAt nextFrame.throws 0))
        else some none
    else if frame.isComplete then
      some (some (sumPins frame.throws))
    else some none
  else
    if frame.isComplete then some (some (sumPins frame.throws)) else some none

/-- One iteration of the `for` loop of `calculateScores` on the pair
(frames, cumulativeScore) (scoring-system.js, lines 117-157). -/
def scoreStep (st : List Frame × Int) (i : Nat) : Option (List Frame × Int) :=
  match st.1[i]? with
  | none => none
  | some frame =>
    match assignedScore st.1 i frame with
    | none => none
    | some assigned =>
      let frame1 :=
        match assigned with
        | some v => { frame with score := some v }
        | none => frame
      let cumulativeScore :=
        match frame1.score with
        | some v => st.2 + v
        | none => st.2
      some (st.1.set i frame1, cumulativeScore)

/-- The body of `calculateScores` on the current game (scoring-system.js, lines 115-164). -/
def calculateGame (game : Game) : Option Game :=
  match (List.range 10).foldlM scoreStep (game.frames, 0) with
  | none => none
  | some (frames, cumulativeScore) =>
    match frames[9]? with
    | none => none
    | some frame10 =>
      some { frames := frames, totalScore := cumulativeScore,
             isComplete := if frame10.isComplete then true else game.isComplete }

/-- The index in `game.frames` of the frame that
`game.frames.find(f => !f.isComplete) || game.frames[9]` returns, `none` for `undefined`. -/
def currentFrameIndex (game : Game) : Option Nat :=
  match game.frames.findIdx? (fun f => !f.isComplete) with
  | some i => some i
  | none => if 9 < game.frames.length then some 9 else none

namespace ScoringSystem

/-- The method `initNewGame()` (scoring-system.js, lines 12-33). -/
def initNewGame (s : ScoringSystem) : ScoringSystem :=
  { s with games := s.games ++ [newGame] }

/-- The constructor `new ScoringSystem()` (scoring-system.js, lines 5-10). -/
def new : ScoringSystem :=
  initNewGame { games := [], currentGameIndex := 0, maxGames := 3 }

/-- The method `getCurrentGame()`; `none` is `undefined`. -/
def getCurrentGame (s : ScoringSystem) : Option Game :=
  s.games[s.currentGameIndex]?

/-- Write back the (mutated in place) current game object. -/
def setCurrentGame (s : ScoringSystem) (game : Game) : ScoringSystem :=
  { s with games := s.games.set s.currentGameIndex game }

/-- The method `getCurrentFrame()` (scoring-system.js, lines 39-42): the outer `none` is
the `TypeError` on a missing game, the inner `none` is `undefined`. -/
def getCurrentFrame (s : ScoringSystem) : Option (Option Frame) :=
  match s.getCurrentGame with
  | none => none
  | some game =>
    match currentFrameIndex game with
    | none => some none
    | some i => some game.frames[i]?

/-- The method `calculateScores()` (scoring-system.js, lines 113-165). -/
def calculateScores (s : ScoringSystem) : Option ScoringSystem :=
  match s.getCurrentGame with
  | none => none
  | some game =>
    match calculateGame game with
    | none => none
    | some game1 => some (s.setCurrentGame game1)

/-- The method `recordThrow(pinsKnockedDown)` (scoring-system.js, lines 44-65): the
returned boolean and the state after the call. -/
def recordThrow (s : ScoringSystem) (pinsKnockedDown : Int) : Option (Bool × ScoringSystem) :=
  match s.getCurrentGame with
  | none => none
  | some game =>
    match currentFrameIndex game with
    | none => some (false, s)
    | some idx =>
      match game.frames[idx]? with
      | none => some (false, s)
      | some currentFrame =>
        if game.isComplete then some (false, s)
        else
          let pushed := { currentFrame with throws := currentFrame.throws ++ [pinsKnockedDown] }
          let handled :=
            if pushed.frameNumber = 10 then handle10thFrame pushed else handleRegularFrame pushed
          let s1 := s.setCurrentGame { game with frames := game.frames.set idx handled }
          match s1.calculateScores with
          | none => none
          | some s2 => some (true, s2)

/-- The method `startNextGame()` (scoring-system.js, lines 206-213). -/
def startNextGame (s : ScoringSystem) : Bool × ScoringSystem :=
  if s.currentGameIndex < s.maxGames - 1 then
    (true, initNewGame { s with currentGameIndex := s.currentGameIndex + 1 })
  else (false, s)

/-- The method `reset()` (scoring-system.js, lines 215-219). -/
def reset (s : ScoringSystem) : ScoringSystem :=
  initNewGame { s with games := [], currentGameIndex := 0 }

/-- The method `getGameScore()` (scoring-system.js, lines 193-195). -/
def getGameScore (s : ScoringSystem) : Option Int :=
  s.getCurrentGame.map (fun g => g.totalScore)

/-- Record a list of throws in order, keeping the state after the last call. -/
def recordThrows (s : ScoringSystem) : List Int → Option ScoringSystem
  | [] => some s
  | pins :: rest =>
    match s.recordThrow pins with
    | none => none
    | some r => recordThrows r.2 rest

end ScoringSystem

/-! ## Closed forms used by the proofs -/

/-- The frame written by one loop iteration of `calculateScores`. -/
def rescore (frames : List Frame) (i : Nat) (frame : Frame) : Frame :=
  match assignedScore frames i frame with
  | some (some v) => { frame with score := some v }
  | _ => frame

/-- What a frame adds to `cumulativeScore`: its score when that is not `null`. -/
def scoreValue (f : Frame) : Int :=
  match f.score with
  | some v => v
  | none => 0

/-- The throws of the frame at index `i` (empty when the list has no such frame). -/
def throwsAt (frames : List Frame) (i : Nat) : List Int :=
  match frames[i]? with
  | some f => f.throws
  | none => []

/-- The flag `isStrike` as a function of the throws of a frame. -/
def strikeOf (t : List Int) : Bool :=
  decide (pinAt t 0 = 10)

/-- The flag `isSpare` as a function of the throws of a frame. -/
def spareOf (t : List Int) : Bool :=
  decide (pinAt t 0 ≠ 10) && decide (pinAt t 0 + pinAt t 1 = 10)

/-- The flag `isComplete` of the frame at index `i` as a function of its throws. -/
def completeOf (i : Nat) (t : List Int) : Bool :=
  if i < 9 then decide (t.length = 2) || decide (t = [10])
  else decide (3 ≤ t.length) ||
    (decide (t.length = 2) && decide (pinAt t 0 ≠ 10) && decide (pinAt t 0 + pinAt t 1 ≠ 10))

/-- The throw lists a frame at index `i` can hold. -/
def shapeOf (i : Nat) (t : List Int) : Prop :=
  if i < 9 then t.length ≤ 2 ∧ (t.length = 2 → pinAt t 0 ≠ 10)
  else t.length ≤ 3 ∧ (t.length = 3 → pinAt t 0 = 10 ∨ pinAt t 0 + pinAt t 1 = 10)

/-- The score of the frame at index `i` as a function of the throws of the frames. -/
def scoreFn (T : Nat → List Int) (i : Nat) : Option Int :=
  if i < 9 then
    if strikeOf (T i) then
      if 2 ≤ (T (i + 1)).length then some (10 + pinAt (T (i + 1)) 0 + pinAt (T (i + 1)) 1)
      else if (T (i + 1)).length = 1 ∧ strikeOf (T (i + 1)) = true ∧ i < 8 ∧
          1 ≤ (T (i + 2)).length then
        some (10 + 10 + pinAt (T (i + 2)) 0)
      else none
    else if spareOf (T i) then
      if 1 ≤ (T (i + 1)).length then some (10 + pinAt (T (i + 1)) 0) else none
    else if completeOf i (T i) then some (sumPins (T i))
    else none
  else if completeOf i (T i) then some (sumPins (T i))
  else none

/-- The number and flags of the frame at index `i` are the closed forms of its throws. -/
def FlagsCanon (i : Nat) (f : Frame) : Prop :=
  f.frameNumber = i + 1 ∧ f.isStrike = strikeOf f.throws ∧ f.isSpare = spareOf f.throws ∧
    f.isComplete = completeOf i f.throws ∧ shapeOf i f.throws

/-- The flags, number and score of the frame at index `i` are the closed forms of the throws. -/
def FrameCanon (frames : List Frame) (i : Nat) (f : Frame) : Prop :=
  FlagsCanon i f ∧ f.score = scoreFn (throwsAt frames) i

/-- The invariant of a game object: ten frames, each in closed form, filled in order. -/
structure Canon (g : Game) : Prop where
  len : g.frames.length = 10
  frame : ∀ i f, g.frames[i]? = some f → FrameCanon g.frames i f
  seq : ∀ i, i < 9 → throwsAt g.frames (i + 1) ≠ [] → completeOf i (throwsAt g.frames i) = true
  total : g.totalScore = (g.frames.map scoreValue).sum
  complete : g.isComplete = completeOf 9 (throwsAt g.frames 9)

/-- The effect of `recordThrow` on the current game object alone. -/
def recordGame (game : Game) (pinsKnockedDown : Int) : Option (Bool × Game) :=
  match currentFrameIndex game with
  | none => some (false, game)
  | some idx =>
    match game.frames[idx]? with
    | none => some (false, game)
    | some currentFrame =>
      if game.isComplete then some (false, game)
      else
        let pushed := { currentFrame with throws := currentFrame.throws ++ [pinsKnockedDown] }
        let handled :=
          if pushed.frameNumber = 10 then handle10thFrame pushed else handleRegularFrame pushed
        match calculateGame { game with frames := game.frames.set idx handled } with
        | none => none
        | some game2 => some (true, game2)

/-- The throws per frame after appending `p` to the throws of frame `k`. -/
def pushAt (T : Nat → List Int) (k : Nat) (p : Int) : Nat → List Int :=
  fun j => if j = k then T k ++ [p] else T j

/-- The invariant of a scoring system: the cursor points at the last game of the series
and every game is in closed form. -/
structure SysCanon (s : ScoringSystem) : Prop where
  cursor : s.currentGameIndex + 1 = s.games.length
  games : ∀ g, g ∈ s.games → Canon g

/-- The states of a `ScoringSystem` that its constructor and its mutating methods produce. -/
inductive Reachable : ScoringSystem → Prop
  | new : Reachable ScoringSystem.new
  | recordThrow (s : ScoringSystem) (pins : Int) (r : Bool × ScoringSystem) :
      Reachable s → s.recordThrow pins = some r → Reachable r.2
  | startNextGame (s : ScoringSystem) : Reachable s → Reachable s.startNextGame.2
  | reset (s : ScoringSystem) : Reachable s → Reachable s.reset

/-! ## The official ten-pin score, as the specification words it -/

/-- A pin count that one throw can have. -/
def pinsInRange (a : Int) : Bool :=
  decide (0 ≤ a) && decide (a ≤ 10)

/-- The flat list of throws of a legal complete game that still has `n` frames to play
before the tenth: every throw is in [0,10], in a frame before the tenth a strike is one
throw and any other frame is two throws that sum to at most 10, and the tenth frame has
three throws after a strike or a spare and two throws otherwise. -/
def legalGame : Nat → List Int → Bool
  | 0, [a, b, c] =>
    pinsInRange a && pinsInRange b && pinsInRange c && (decide (a = 10) || decide (a + b = 10))
  | 0, [a, b] => pinsInRange a && pinsInRange b && decide (a ≠ 10) && decide (a + b ≠ 10)
  | 0, _ => false
  | n + 1, a :: rest =>
    if a = 10 then legalGame n rest
    else
      match rest with
      | b :: rest2 => pinsInRange a && pinsInRange b && decide (a + b ≤ 10) && legalGame n rest2
      | [] => false
  | _ + 1, [] => false

/-- The official ten-pin score of `n` frames over the flat list of throws: a strike scores
10 plus the next two throws, a spare 10 plus the next throw, an open frame its pins. -/
def officialScore : Nat → List Int → Int
  | 0, _ => 0
  | n + 1, a :: rest =>
    if a = 10 then 10 + pinAt rest 0 + pinAt rest 1 + officialScore n rest
    else
      match rest with
      | b :: rest2 =>
        if a + b = 10 then 10 + pinAt rest2 0 + officialScore n rest2
        else a + b + officialScore n rest2
      | [] => a
  | _ + 1, [] => 0

/-- The throws of the frames `j`, ..., `j + n - 1`, in order. -/
def flatFrom (T : Nat → List Int) : Nat → Nat → List Int
  | _, 0 => []
  | j, n + 1 => T j ++ flatFrom T (j + 1) n

/-- The sum of the scores of the frames `j`, ..., `j + n - 1` that are scored. -/
def sumFrom (T : Nat → List Int) : Nat → Nat → Int
  | _, 0 => 0
  | j, n + 1 => (scoreFn T j).getD 0 + sumFrom T (j + 1) n

/-! ## The series average -/

/-- The call `Math.round(num / den)` for an integer `num` and a positive count `den`: the
integer nearest to the quotient, a half rounded up. -/
def mathRound (num : Int) (den : Nat) : Int :=
  (2 * num + den) / (2 * den)

namespace ScoringSystem

/-- The method `get3GameAverage()` (scoring-system.js, lines 197-204). -/
def get3GameAverage (s : ScoringSystem) : Int :=
  if s.games.length = 0 then 0
  else
    let completedGames := s.games.filter (fun g => g.isComplete)
    if completedGames.length = 0 then 0
    else
      let total := completedGames.foldl (fun sum game => sum + game.totalScore) 0
      mathRound total completedGames.length

/-- The method `isSeriesComplete()` (scoring-system.js, lines 221-224). -/
def isSeriesComplete (s : ScoringSystem) : Bool :=
  decide (s.games.length ≥ s.maxGames) && s.games.all (fun g => g.isComplete)

end ScoringSystem

/-! ## The multi-player scorekeeper -/

/-- The modes of `MultiPlayerScoring` (scoring-system.js, line 239). -/
inductive Mode where
  | singles
  | doubles
  | team
deriving DecidableEq, Repr

/-- One entry of `players` (scoring-system.js, lines 255-258). -/
structure Player where
  name : String
  scoringSystem : ScoringSystem
deriving DecidableEq, Repr

/-- The fields of a `MultiPlayerScoring` instance (scoring-system.js, lines 238-243). -/
structure MultiPlayerScoring where
  mode : Mode
  players : List Player
  currentPlayerIndex : Nat
deriving DecidableEq, Repr

namespace MultiPlayerScoring

/-- The table `playerCounts` of `initPlayers` (scoring-system.js, lines 246-252). -/
def playerCount : Mode → Nat
  | Mode.singles => 1
  | Mode.doubles => 2
  | Mode.team => 4

/-- The method `getPlayerName(index)` (scoring-system.js, lines 262-270). -/
def getPlayerName (mode : Mode) (index : Nat) : String :=
  match mode with
  | Mode.singles => "Player 1"
  | Mode.doubles => if index = 0 then "Athlete" else "Partner"
  | Mode.team =>
    if index < 2 then "Athlete " ++ toString (index + 1) else "Partner " ++ toString (index - 1)

/-- The method `initPlayers()` (scoring-system.js, lines 245-260). -/
def initPlayers (m : MultiPlayerScoring) : MultiPlayerScoring :=
  let created : List Player := (List.range (playerCount m.mode)).map
    (fun i => Player.mk (getPlayerName m.mode i) ScoringSystem.new)
  { m with players := m.players ++ created }

/-- The constructor `new MultiPlayerScoring(mode)` (scoring-system.js, lines 238-243). -/
def new (mode : Mode) : MultiPlayerScoring :=
  initPlayers { mode := mode, players := [], currentPlayerIndex := 0 }

/-- The method `getCurrentPlayer()`; `none` is `undefined`. -/
def getCurrentPlayer (m : MultiPlayerScoring) : Option Player :=
  m.players[m.currentPlayerIndex]?

/-- Write back the (mutated in place) scoring system of the player at index `i`. -/
def setScoringSystem (m : MultiPlayerScoring) (i : Nat) (s : ScoringSystem) :
    MultiPlayerScoring :=
  { m with players := m.players.modify (fun p => { p with scoringSystem := s }) i }

/-- The method `moveToNextPlayer()` (scoring-system.js, lines 291-299); `none` is a
`TypeError`. -/
def moveToNextPlayer (m : MultiPlayerScoring) : Option MultiPlayerScoring :=
  match m.getCurrentPlayer with
  | none => none
  | some currentPlayer =>
    match currentPlayer.scoringSystem.getCurrentFrame with
    | none => none
    | some none => none
    | some (some currentFrame) =>
      if currentFrame.isComplete then
        some { m with currentPlayerIndex := (m.currentPlayerIndex + 1) % m.players.length }
      else some m

/-- The method `recordThrow(pinsKnockedDown)` (scoring-system.js, lines 276-289): the
returned boolean and the state after the call; `none` is a `TypeError`. -/
def recordThrow (m : MultiPlayerScoring) (pinsKnockedDown : Int) :
    Option (Bool × MultiPlayerScoring) :=
  match m.getCurrentPlayer with
  | none => none
  | some player =>
    match player.scoringSystem.recordThrow pinsKnockedDown with
    | none => none
    | some (recorded, s1) =>
      let m1 := m.setScoringSystem m.currentPlayerIndex s1
      if recorded then
        match s1.getCurrentFrame with
        | none => none
        | some none => none
        | some (some currentFrame) =>
          if currentFrame.isComplete then
            match m1.moveToNextPlayer with
            | none => none
            | some m2 => some (recorded, m2)
          else some (recorded, m1)
      else some (recorded, m1)

/-- The method `getCombinedScore()` (scoring-system.js, lines 301-305); `none` is a
`TypeError` on a player without a current game. -/
def getCombinedScore (m : MultiPlayerScoring) : Option Int :=
  m.players.foldlM (fun total player =>
    match player.scoringSystem.getGameScore with
    | none => none
    | some score => some (total + score)) 0

/-- The method `getCombined3GameAverage()` (scoring-system.js, lines 307-312). -/
def getCombined3GameAverage (m : MultiPlayerScoring) : Int :=
  let total := m.players.foldl (fun sum player => sum + player.scoringSystem.get3GameAverage) 0
  mathRound total 1

/-- The method `isGameComplete()` (scoring-system.js, lines 322-326); `none` is a
`TypeError` on a player without a current game. -/
def isGameComplete (m : MultiPlayerScoring) : Option Bool :=
  m.players.foldlM (fun all player =>
    match player.scoringSystem.getCurrentGame with
    | none => none
    | some game => some (all && game.isComplete)) true

/-- The method `startNextGame()` (scoring-system.js, lines 328-333). -/
def startNextGame (m : MultiPlayerScoring) : MultiPlayerScoring :=
  { m with
    players := m.players.map (fun p => { p with scoringSystem := p.scoringSystem.startNextGame.2 }),
    currentPlayerIndex := 0 }

/-- The method `reset()` (scoring-system.js, lines 335-339). -/
def reset (m : MultiPlayerScoring) : MultiPlayerScoring :=
  initPlayers { m with players := [], currentPlayerIndex := 0 }

/-- Record a list of throws in order, keeping the state after the last call. -/
def recordThrows (m : MultiPlayerScoring) : List Int → Option MultiPlayerScoring
  | [] => some m
  | pins :: rest =>
    match m.recordThrow pins with
    | none => none
    | some r => recordThrows r.2 rest

end MultiPlayerScoring

/-! ## The game controller

The class `GameController` of `src/js/game-controller.js`.  The bodies of the physics
engine are handles: their motion reaches the controller through the sensors of one tick
(`Tick`).  A callback given to `setTimeout` is an entry of `timers` until it fires. -/

/-- The handle of the ball body made by `physics.createBall`. -/
inductive BallBody where
  | body
deriving DecidableEq, Repr

/-- The handle of a pin body made by `physics.createPin` for the pin of that number. -/
structure PinBody where
  pinNumber : Nat
deriving DecidableEq, Repr

/-- A pin mesh of `gameObjects.objects.pins`; `createPins` numbers the pins from 1. -/
structure PinMesh where
  pinNumber : Nat
deriving DecidableEq, Repr

/-- The callbacks that the controller hands to `setTimeout`. -/
inductive Callback where
  /-- `() => this.handleThrowComplete()` (game-controller.js, line 180). -/
  | handleThrowComplete
  /-- `() => this.resetFrame()` (game-controller.js, lines 300, 379, 385, 400). -/
  | resetFrame
  /-- `() => this.resetForSecondBall()` (game-controller.js, lines 304, 389). -/
  | resetForSecondBall
  /-- The callback of lines 367-373: `handleGameComplete()` when the game of every player
  is complete, `resetFrame()` otherwise. -/
  | tenthFrameComplete
deriving DecidableEq, Repr

/-- A pending `setTimeout(callback, delay)`. -/
structure Timer where
  delay : Nat
  callback : Callback
deriving DecidableEq, Repr

/-- The object `this.state` (game-controller.js, lines 13-20). -/
structure ControllerState where
  isPlaying : Bool
  isThrowing : Bool
  ballInMotion : Bool
  waitingForReset : Bool
  currentBall : Nat
  pinsRemaining : Nat
deriving DecidableEq, Repr

/-- The fields of a `GameController` instance (game-controller.js, lines 5-30), with the
pin meshes of `gameObjects.objects.pins` and the pending timers. -/
structure GameController where
  scoring : MultiPlayerScoring
  state : ControllerState
  ballBody : Option BallBody
  pinBodies : List PinBody
  pins : List PinMesh
  knockedPins : List Nat
  throwStartTime : Int
  ballStoppedTime : Int
  settleTime : Int
  isResetting : Bool
  timers : List Timer
deriving DecidableEq, Repr

/-- What the physics engine and the clock report during one call of `update`. -/
structure Tick where
  /-- `Date.now()`. -/
  now : Int
  /-- The position test of lines 146-149 on the ball body. -/
  ballExited : Bool
  /-- `physics.isBallStopped(ballBody)`. -/
  ballStopped : Bool
  /-- `physics.isPinKnockedDown(pinBody)`. -/
  isPinKnockedDown : PinBody → Bool
  /-- `physics.isPinMoving(pinBody)`. -/
  isPinMoving : PinBody → Bool

/-- The pin meshes made by `gameObjects.createPins()` (game-objects.js, lines 134-186): the
ten pins of `calculatePinPositions`, numbered from 1. -/
def createPins : List PinMesh :=
  (List.range 10).map (fun index => { pinNumber := index + 1 })

namespace GameController

/-- The constructor (game-controller.js, lines 5-30). -/
def new (multiPlayerScoring : MultiPlayerScoring) : GameController :=
  { scoring := multiPlayerScoring,
    state := { isPlaying := false, isThrowing := false, ballInMotion := false,
               waitingForReset := false, currentBall := 1, pinsRemaining := 10 },
    ballBody := none, pinBodies := [], pins := [], knockedPins := [],
    throwStartTime := 0, ballStoppedTime := 0, settleTime := 800, isResetting := false,
    timers := [] }

/-- The call `setTimeout(callback, delay)`. -/
def setTimeout (c : GameController) (callback : Callback) (delay : Nat) : GameController :=
  { c with timers := c.timers ++ [{ delay := delay, callback := callback }] }

/-- The method `resetBall()` (game-controller.js, lines 79-86). -/
def resetBall (c : GameController) : GameController :=
  { c with ballBody := some BallBody.body, state := { c.state with isThrowing := false } }

/-- The method `resetFrame()` (game-controller.js, lines 41-77). -/
def resetFrame (c : GameController) : GameController :=
  let pinMeshes := createPins
  let c1 : GameController :=
    { c with
      pins := pinMeshes,
      pinBodies := pinMeshes.map (fun pinMesh => { pinNumber := pinMesh.pinNumber }),
      knockedPins := [],
      state := { c.state with pinsRemaining := 10, ballInMotion := false,
                              waitingForReset := false, currentBall := 1 },
      isResetting := false }
  c1.resetBall

/-- The method `startGame()` (game-controller.js, lines 32-39). -/
def startGame (c : GameController) : GameController :=
  resetFrame { c with state := { c.state with isPlaying := true } }

/-- The method `throwBall(direction, power)` (game-controller.js, lines 88-115) at the
time `now`: the returned boolean and the state after the call.  The impulse that
`physics.throwBall` gives the ball stays inside the physics engine. -/
def throwBall (c : GameController) (now : Int) : Bool × GameController :=
  if c.state.isThrowing || c.state.ballInMotion || c.state.waitingForReset || c.isResetting then
    (false, c)
  else
    match c.ballBody with
    | none => (false, c)
    | some _ =>
      (true, { c with state := { c.state with isThrowing := true, ballInMotion := true },
                      throwStartTime := now, ballStoppedTime := 0 })

/-- The method `checkKnockedPins()` (game-controller.js, lines 228-238) with the sensor
`isPinKnockedDown` of the tick. -/
def checkKnockedPins (c : GameController) (isPinKnockedDown : PinBody → Bool) : GameController :=
  if c.pinBodies.length = 0 then c
  else
    let knocked : List Nat := List.foldl
      (fun knockedPins entry =>
        if !knockedPins.contains entry.1 && isPinKnockedDown entry.2 then
          knockedPins ++ [entry.1]
        else knockedPins)
      c.knockedPins c.pinBodies.enum
    { c with knockedPins := knocked }

/-- The method `checkPinsStillMoving()` (game-controller.js, lines 240-256) with the
sensor `isPinMoving` of the tick. -/
def checkPinsStillMoving (c : GameController) (isPinMoving : PinBody → Bool) : Bool :=
  if c.pinBodies.length = 0 then false
  else
    let movingPins := c.pinBodies.foldl
      (fun movingPins pinBody => if isPinMoving pinBody then movingPins + 1 else movingPins) 0
    decide (movingPins > 1)

/-- The method `handle10thFrameReset(frame)` (game-controller.js, lines 361-393). -/
def handle10thFrameReset (c : GameController) (frame : Frame) : GameController :=
  let throwCount := frame.throws.length
  if frame.isComplete then
    setTimeout { c with state := { c.state with currentBall := 1 } }
      Callback.tenthFrameComplete 1500
  else if throwCount = 1 ∧ frame.throws[0]? = some 10 then
    setTimeout { c with state := { c.state with currentBall := 2 } } Callback.resetFrame 1500
  else if throwCount = 2 then
    let total := pinAt frame.throws 0 + pinAt frame.throws 1
    if total = 10 then
      setTimeout { c with state := { c.state with currentBall := 3 } } Callback.resetFrame 1500
    else if frame.throws[0]? = some 10 then
      setTimeout { c with state := { c.state with currentBall := 3 } }
        Callback.resetForSecondBall 1500
    else c
  else c

/-- The method `handleThrowComplete()` (game-controller.js, lines 258-326): the state
after the call; `none` is a `TypeError`. -/
def handleThrowComplete (c : GameController) : Option GameController :=
  if c.isResetting || c.state.waitingForReset then some c
  else
    let c1 : GameController :=
      { c with state := { c.state with ballInMotion := false, waitingForReset := true },
               isResetting := true }
    let pinsKnockedDown : Int := c1.knockedPins.length
    match c1.scoring.getCurrentPlayer with
    | none => none
    | some currentPlayer =>
      match currentPlayer.scoringSystem.getCurrentFrame with
      | none => none
      | some none => none
      | some (some frameBeforeThrow) =>
        let frameNumberBeforeThrow := frameBeforeThrow.frameNumber
        match c1.scoring.recordThrow pinsKnockedDown with
        | none => none
        | some (_, scoring1) =>
          let c2 : GameController := { c1 with scoring := scoring1 }
          match scoring1.players[c1.scoring.currentPlayerIndex]? with
          | none => none
          | some currentPlayer1 =>
            match currentPlayer1.scoringSystem.getCurrentGame with
            | none => none
            | some game =>
              if frameNumberBeforeThrow = 0 then none
              else
                match game.frames[frameNumberBeforeThrow - 1]? with
                | none => none
                | some frameJustThrown =>
                  if frameJustThrown.frameNumber < 10 then
                    if frameJustThrown.isStrike || frameJustThrown.isComplete then
                      some (setTimeout { c2 with state := { c2.state with currentBall := 1 } }
                        Callback.resetFrame 1500)
                    else
                      some (setTimeout { c2 with state := { c2.state with currentBall := 2 } }
                        Callback.resetForSecondBall 1500)
                  else some (c2.handle10thFrameReset frameJustThrown)

/-- Remove the element at `index`, as `splice(index, 1)` does, when there is one. -/
def spliceOne {α : Type} (xs : List α) (index : Nat) : List α :=
  xs.eraseIdx index

/-- The method `resetForSecondBall()` (game-controller.js, lines 328-359). -/
def resetForSecondBall (c : GameController) : GameController :=
  let pinsToRemove := c.knockedPins.insertionSort (fun a b => b ≤ a)
  let c1 : GameController := pinsToRemove.foldl
    (fun acc index =>
      { acc with pins := spliceOne acc.pins index, pinBodies := spliceOne acc.pinBodies index })
    c
  let c2 : GameController :=
    { c1 with knockedPins := [],
              state := { c1.state with pinsRemaining := c1.pinBodies.length } }
  let c3 := c2.resetBall
  { c3 with state := { c3.state with waitingForReset := false }, isResetting := false }

/-- The method `handleGameComplete()` (game-controller.js, lines 395-405); `none` is a
`TypeError`. -/
def handleGameComplete (c : GameController) : Option GameController :=
  match c.scoring.getCurrentPlayer with
  | none => none
  | some currentPlayer =>
    let r := currentPlayer.scoringSystem.startNextGame
    let c1 : GameController :=
      { c with scoring := c.scoring.setScoringSystem c.scoring.currentPlayerIndex r.2 }
    if r.1 then some (setTimeout c1 Callback.resetFrame 2000)
    else some { c1 with state := { c1.state with isPlaying := false } }

/-- The method `reset()` (game-controller.js, lines 426-434); `gameObjects.removePins()`
empties the list of pin meshes. -/
def reset (c : GameController) : GameController :=
  { c with state := { c.state with isPlaying := false, ballInMotion := false,
                                   waitingForReset := false, currentBall := 1 },
           pins := [] }

/-- The method `update(deltaTime)` (game-controller.js, lines 117-226) with the sensors
of the tick; `none` is a `TypeError`. -/
def update (c : GameController) (tick : Tick) : Option GameController :=
  if !c.state.isPlaying then some c
  else if c.state.ballInMotion && !c.isResetting then
    let c1 := c.checkKnockedPins tick.isPinKnockedDown
    let ballExited := c1.ballBody.isSome && tick.ballExited
    if ballExited then
      if !c1.state.waitingForReset then
        some (setTimeout
          { c1 with ballBody := none, state := { c1.state with ballInMotion := false } }
          Callback.handleThrowComplete 800)
      else some c1
    else if c1.ballBody.isSome && tick.ballStopped then
      let c2 : GameController :=
        if c1.ballStoppedTime = 0 then { c1 with ballStoppedTime := tick.now } else c1
      let timeSinceStopped := tick.now - c2.ballStoppedTime
      if timeSinceStopped > c2.settleTime ∧ c2.state.waitingForReset = false then
        if !c2.checkPinsStillMoving tick.isPinMoving then c2.handleThrowComplete
        else some c2
      else some c2
    else some { c1 with ballStoppedTime := 0 }
  else some c

/-- Run a callback of `setTimeout`; `none` is a `TypeError`. -/
def runCallback (c : GameController) : Callback → Option GameController
  | Callback.handleThrowComplete => c.handleThrowComplete
  | Callback.resetFrame => some c.resetFrame
  | Callback.resetForSecondBall => some c.resetForSecondBall
  | Callback.tenthFrameComplete =>
    match c.scoring.isGameComplete with
    | none => none
    | some true => c.handleGameComplete
    | some false => some c.resetFrame

/-- The pending timer at position `i` fires: it leaves the list of pending timers and its
callback runs.  `none` when there is no such timer or on a `TypeError`. -/
def fire (c : GameController) (i : Nat) : Option GameController :=
  match c.timers[i]? with
  | none => none
  | some timer => runCallback { c with timers := c.timers.eraseIdx i } timer.callback

end GameController

/-! ## Invariants of the series and of the scorekeeper -/

/-- Every pin count held by a game of the series satisfies `P`. -/
def PinsIn (P : Int → Prop) (s : ScoringSystem) : Prop :=
  ∀ g, g ∈ s.games → ∀ i x, x ∈ throwsAt g.frames i → P x

/-- The invariant of a scorekeeper: the cursor points at a player and the scoring system
of every player is in closed form and holds pin counts that satisfy `P`. -/
structure MultiCanon (P : Int → Prop) (m : MultiPlayerScoring) : Prop where
  cursor : m.currentPlayerIndex < m.players.length
  players : ∀ pl, pl ∈ m.players → SysCanon pl.scoringSystem ∧ PinsIn P pl.scoringSystem

/-! ## The frame display -/

/-- A cell of the scorecard as `getFrameDisplay` returns it. -/
inductive Mark where
  /-- The string `'X'`. -/
  | strike
  /-- The string `'/'`. -/
  | spare
  /-- A pin count. -/
  | pins (n : Int)
  /-- The string `'-'`. -/
  | dash
  /-- The empty string. -/
  | blank
deriving DecidableEq, Repr

/-- The expression `pins > 0 ? pins : '-'` (scoring-system.js, line 173). -/
def positiveOrDash (pins : Int) : Mark :=
  if pins > 0 then Mark.pins pins else Mark.dash

/-- The expression `pins || '-'` on a recorded throw (scoring-system.js, lines 184-189). -/
def truthyOrDash (pins : Int) : Mark :=
  if pins = 0 then Mark.dash else Mark.pins pins

/-- The mark of the throw `pins` at position `idx` of a tenth frame
(scoring-system.js, lines 170-174). -/
def tenthMark (throws : List Int) (idx : Nat) (pins : Int) : Mark :=
  if pins = 10 then Mark.strike
  else if idx > 0 ∧ (throws[idx - 1]?).map (fun previous => pins + previous) = some 10 then
    Mark.spare
  else positiveOrDash pins

namespace ScoringSystem

/-- The method `getFrameDisplay(frame)` (scoring-system.js, lines 167-191). -/
def getFrameDisplay (frame : Frame) : List Mark :=
  if frame.frameNumber = 10 then
    let displays := frame.throws.enum.map (fun entry => tenthMark frame.throws entry.1 entry.2)
    displays ++ List.replicate (3 - displays.length) Mark.blank
  else if frame.isStrike then [Mark.strike, Mark.blank]
  else if frame.isSpare then
    [match frame.throws[0]? with
      | some pins => truthyOrDash pins
      | none => Mark.dash,
     Mark.spare]
  else
    [match frame.throws[0]? with
      | some pins => truthyOrDash pins
      | none => Mark.blank,
     match frame.throws[1]? with
      | some pins => truthyOrDash pins
      | none => Mark.blank]

end ScoringSystem

/-! ## The reported game state and runs of the controller -/

/-- The object returned by `getGameState()` (game-controller.js, lines 412-423). -/
structure GameState where
  playerName : String
  gameNumber : Nat
  frameNumber : Nat
  ballNumber : Nat
  pinsRemaining : Nat
  currentScore : Int
  isGameComplete : Bool
  canThrow : Bool
  combinedScore : Int
  combinedAverage : Int
deriving DecidableEq, Repr

namespace GameController

/-- The method `getGameState()` (game-controller.js, lines 407-424); `none` is a
`TypeError`. -/
def getGameState (c : GameController) : Option GameState :=
  match c.scoring.getCurrentPlayer with
  | none => none
  | some currentPlayer =>
    match currentPlayer.scoringSystem.getCurrentFrame with
    | none => none
    | some none => none
    | some (some currentFrame) =>
      match currentPlayer.scoringSystem.getCurrentGame with
      | none => none
      | some currentGame =>
        match c.scoring.getCombinedScore with
        | none => none
        | some combinedScore =>
          some { playerName := currentPlayer.name,
                 gameNumber := currentPlayer.scoringSystem.currentGameIndex + 1,
                 frameNumber := currentFrame.frameNumber,
                 ballNumber := c.state.currentBall,
                 pinsRemaining := c.state.pinsRemaining,
                 currentScore := currentGame.totalScore,
                 isGameComplete := currentGame.isComplete,
                 canThrow := !c.state.ballInMotion && !c.state.waitingForReset,
                 combinedScore := combinedScore,
                 combinedAverage := c.scoring.getCombined3GameAverage }

/-- The sensors of a tick on which the first `n` pin bodies of the controller are down
and the ball has or has not left the lane. -/
def tickWithPinsDown (c : GameController) (n : Nat) (now : Int) (ballExited : Bool) : Tick :=
  { now := now, ballExited := ballExited, ballStopped := false,
    isPinKnockedDown := fun pinBody => (c.pinBodies.take n).contains pinBody,
    isPinMoving := fun _ => false }

/-- One throw played through the controller: the ball is thrown, on the next tick the
first `n` standing pins are down and the ball has left the lane, the settle callback fires
and then the callback that `handleThrowComplete` scheduled, when there is one. -/
def playThrow (c : GameController) (n : Nat) : Option GameController :=
  let c1 := (c.throwBall 0).2
  match c1.update (c1.tickWithPinsDown n 100 true) with
  | none => none
  | some c2 =>
    match c2.fire 0 with
    | none => none
    | some c3 => if c3.timers.length = 0 then some c3 else c3.fire 0

/-- Play a list of throws in order through the controller. -/
def playThrows (c : GameController) : List Nat → Option GameController
  | [] => some c
  | n :: rest =>
    match c.playThrow n with
    | none => none
    | some c1 => playThrows c1 rest

end GameController

/-- The method `startNewGame(mode)` of `UIManager` (ui-manager.js, lines 52-68), which the
start button calls at any moment, on the controller and the scorekeeper it shares with
the controller: the mode is set, the scorekeeper is reset and the controller starts the
game.  Pending callbacks stay pending. -/
def UIManager.startNewGame (c : GameController) (mode : Mode) : GameController :=
  GameController.startGame
    { c with scoring := MultiPlayerScoring.reset { c.scoring with mode := mode } }

namespace GameController

/-- The states of a controller in the application: a game is started on the scorekeeper
of `main.js`, then balls are thrown, ticks pass, pending callbacks fire and the start
button starts a new game, in any order. -/
inductive Run : GameController → Prop
  | start (mode : Mode) : Run (GameController.new (MultiPlayerScoring.new mode)).startGame
  | throwBall (c : GameController) (now : Int) : Run c → Run (c.throwBall now).2
  | update (c c1 : GameController) (tick : Tick) : Run c → c.update tick = some c1 → Run c1
  | fire (c c1 : GameController) (i : Nat) : Run c → c.fire i = some c1 → Run c1
  | restart (c : GameController) (mode : Mode) : Run c → Run (UIManager.startNewGame c mode)

/-- The runs in which the start button is pressed only while no callback is pending. -/
inductive CalmRun : GameController → Prop
  | start (mode : Mode) : CalmRun (GameController.new (MultiPlayerScoring.new mode)).startGame
  | throwBall (c : GameController) (now : Int) : CalmRun c → CalmRun (c.throwBall now).2
  | update (c c1 : GameController) (tick : Tick) :
      CalmRun c → c.update tick = some c1 → CalmRun c1
  | fire (c c1 : GameController) (i : Nat) : CalmRun c → c.fire i = some c1 → CalmRun c1
  | restart (c : GameController) (mode : Mode) :
      CalmRun c → c.timers = [] → CalmRun (UIManager.startNewGame c mode)

end GameController

/-! ## Closed form of the keep-standing reset -/

/-- The elements of `xs`, numbered from `n`, whose number is not in `knocked`, in the order
of `xs`. -/
def standingFrom {α : Type} (n : Nat) (xs : List α) (knocked : List Nat) : List α :=
  ((xs.enumFrom n).filter (fun entry => !knocked.contains entry.1)).map (fun entry => entry.2)

/-! ## Invariants of the controller -/

/-- No frame before the tenth is waiting for its second ball. -/
def NoHalf (g : Game) : Prop :=
  ∀ k a, k < 9 → throwsAt g.frames k = [a] → a = 10

/-- In every frame before the tenth that holds two throws, they sum to at most 10. -/
def SumsOk (g : Game) : Prop :=
  ∀ k a b, k < 9 → throwsAt g.frames k = [a, b] → a + b ≤ 10

/-- In every frame before the tenth that waits for its second ball, the first ball and
`n` more pins are at most 10. -/
def HalfBound (n : Int) (g : Game) : Prop :=
  ∀ k a, k < 9 → throwsAt g.frames k = [a] → a ≠ 10 → a + n ≤ 10

/-- Every game of every player satisfies `Q`. -/
def AllGames (Q : Game → Prop) (m : MultiPlayerScoring) : Prop :=
  ∀ pl, pl ∈ m.players → ∀ g, g ∈ pl.scoringSystem.games → Q g

/-- Only the current game of the current player can hold a frame that waits for its
second ball. -/
def Local (m : MultiPlayerScoring) : Prop :=
  ∀ i pl j g, m.players[i]? = some pl → pl.scoringSystem.games[j]? = some g →
    (i ≠ m.currentPlayerIndex ∨ j ≠ pl.scoringSystem.currentGameIndex) → NoHalf g

/-- What the pending callback, when there is one, tells about the state. -/
def PhaseOk (c : GameController) : Prop :=
  (c.timers = [] ∧ AllGames (HalfBound c.pinBodies.length) c.scoring) ∨
  (∃ d, c.timers = [{ delay := d, callback := Callback.handleThrowComplete }] ∧
    c.isResetting = false ∧ c.state.isThrowing = true ∧ c.state.ballInMotion = false ∧
    AllGames (HalfBound c.pinBodies.length) c.scoring) ∨
  (∃ d cb, c.timers = [{ delay := d, callback := cb }] ∧
    (cb = Callback.resetFrame ∨ cb = Callback.tenthFrameComplete) ∧
    c.isResetting = true ∧ c.state.ballInMotion = false ∧ AllGames NoHalf c.scoring) ∨
  (∃ d, c.timers = [{ delay := d, callback := Callback.resetForSecondBall }] ∧
    c.isResetting = true ∧ c.state.ballInMotion = false ∧
    AllGames (HalfBound ((c.pinBodies.length : Int) - c.knockedPins.length)) c.scoring)

/-- What holds of a controller in every run, whenever the game is restarted. -/
structure CtlBase (c : GameController) : Prop where
  canon : MultiCanon (fun x => 0 ≤ x ∧ x ≤ 10) c.scoring
  nodup : c.knockedPins.Nodup
  inRange : ∀ i, i ∈ c.knockedPins → i < c.pinBodies.length
  bodies : c.pinBodies.length ≤ 10
  remaining : c.state.pinsRemaining = c.pinBodies.length

/-- The invariant of a controller in a run that is restarted only while no callback is
pending. -/
structure CtlInv (c : GameController) : Prop where
  canon : MultiCanon (fun x => 0 ≤ x ∧ x ≤ 10) c.scoring
  loc : Local c.scoring
  sums : AllGames SumsOk c.scoring
  nodup : c.knockedPins.Nodup
  inRange : ∀ i, i ∈ c.knockedPins → i < c.pinBodies.length
  bodies : c.pinBodies.length ≤ 10
  remaining : c.state.pinsRemaining = c.pinBodies.length
  flags : c.state.waitingForReset = c.isResetting
  motion : c.state.ballInMotion = true → c.state.isThrowing = true ∧ c.isResetting = false
  phase : PhaseOk c

/-! ## The scoring loop in closed form -/

theorem length_ten {α : Type} (l : List α) (h : l.length = 10) :
    ∃ a0 a1 a2 a3 a4 a5 a6 a7 a8 a9, l = [a0, a1, a2, a3, a4, a5, a6, a7, a8, a9] := by
  match l, h with
  | [a0, a1, a2, a3, a4, a5, a6, a7, a8, a9], _ => exact ⟨a0, a1, a2, a3, a4, a5, a6, a7, a8, a9, rfl⟩

theorem assignedScore_congr (fs l : List Frame) (i : Nat) (f : Frame)
    (h1 : l[i + 1]? = fs[i + 1]?) (h2 : l[i + 2]? = fs[i + 2]?) :
    assignedScore l i f = assignedScore fs i f := by
  simp only [assignedScore, h1, h2]

theorem assignedScore_isSome (fs : List Frame) (i : Nat) (f : Frame)
    (h : fs.length = 10) (hi : i < 10) : ∃ v, assignedScore fs i f = some v := by
  have h1 : i < 9 → ∃ n, fs[i + 1]? = some n := fun hh =>
    ⟨fs[i + 1], List.getElem?_eq_getElem (by omega)⟩
  have h2 : i < 8 → ∃ n, fs[i + 2]? = some n := fun hh =>
    ⟨fs[i + 2], List.getElem?_eq_getElem (by omega)⟩
  unfold assignedScore
  by_cases h9 : i < 9
  · obtain ⟨n1, hn1⟩ := h1 h9
    by_cases h8 : i < 8
    · obtain ⟨n2, hn2⟩ := h2 h8
      simp only [h9, hn1, hn2, if_true]
      split_ifs <;> simp
    · simp only [h9, hn1, h8, if_true, decide_False, Bool.and_false]
      split_ifs <;> first | contradiction | simp
  · simp only [h9, if_false]
    split_ifs <;> simp

theorem scoreStep_some (fs l : List Frame) (c : Int) (i : Nat) (f : Frame)
    (hl : l[i]? = some f) (h1 : l[i + 1]? = fs[i + 1]?) (h2 : l[i + 2]? = fs[i + 2]?)
    (hs : ∃ v, assignedScore fs i f = some v) :
    scoreStep (l, c) i = some (l.set i (rescore fs i f), c + scoreValue (rescore fs i f)) := by
  obtain ⟨v, hv⟩ := hs
  have hc := assignedScore_congr fs l i f h1 h2
  simp only [scoreStep, hl, hc, hv, rescore, scoreValue]
  cases v with
  | none => 
    simp only
    cases f.score <;> simp
  | some w => simp

theorem calculateGame_ten (g : Game) (h : g.frames.length = 10) :
    ∃ fs2, calculateGame g = some
      { frames := fs2, totalScore := (fs2.map scoreValue).sum,
        isComplete := g.isComplete || (fs2.getD 9 (newFrame 0)).isComplete } ∧
      fs2.length = 10 ∧ ∀ i, i < 10 → fs2[i]? = (g.frames[i]?).map (rescore g.frames i) := by
  obtain ⟨f0, f1, f2, f3, f4, f5, f6, f7, f8, f9, hfs⟩ := length_ten _ h
  have hs := fun i f hi => assignedScore_isSome g.frames i f h hi
  refine ⟨[rescore g.frames 0 f0, rescore g.frames 1 f1, rescore g.frames 2 f2,
    rescore g.frames 3 f3, rescore g.frames 4 f4, rescore g.frames 5 f5, rescore g.frames 6 f6,
    rescore g.frames 7 f7, rescore g.frames 8 f8, rescore g.frames 9 f9], ?_, rfl, ?_⟩
  · have hr : List.range 10 = [0, 1, 2, 3, 4, 5, 6, 7, 8, 9] := rfl
    unfold calculateGame
    rw [hr]
    simp only [List.foldlM_cons, List.foldlM_nil]
    rw [scoreStep_some g.frames _ _ 0 f0 (by rw [hfs]; rfl) rfl rfl (hs _ _ (by omega))]
    simp only [Option.bind_eq_bind, Option.some_bind]
    rw [scoreStep_some g.frames _ _ 1 f1 (by rw [hfs]; rfl) (by rw [hfs]; rfl) (by rw [hfs]; rfl) (hs _ _ (by omega))]
    simp only [Option.bind_eq_bind, Option.some_bind]
    rw [scoreStep_some g.frames _ _ 2 f2 (by rw [hfs]; rfl) (by rw [hfs]; rfl) (by rw [hfs]; rfl) (hs _ _ (by omega))]
    simp only [Option.bind_eq_bind, Option.some_bind]
    rw [scoreStep_some g.frames _ _ 3 f3 (by rw [hfs]; rfl) (by rw [hfs]; rfl) (by rw [hfs]; rfl) (hs _ _ (by omega))]
    simp only [Option.bind_eq_bind, Option.some_bind]
    rw [scoreStep_some g.frames _ _ 4 f4 (by rw [hfs]; rfl) (by rw [hfs]; rfl) (by rw [hfs]; rfl) (hs _ _ (by omega))]
    simp only [Option.bind_eq_bind, Option.some_bind]
    rw [scoreStep_some g.frames _ _ 5 f5 (by rw [hfs]; rfl) (by rw [hfs]; rfl) (by rw [hfs]; rfl) (hs _ _ (by omega))]
    simp only [Option.bind_eq_bind, Option.some_bind]
    rw [scoreStep_some g.frames _ _ 6 f6 (by rw [hfs]; rfl) (by rw [hfs]; rfl) (by rw [hfs]; rfl) (hs _ _ (by omega))]
    simp only [Option.bind_eq_bind, Option.some_bind]
    rw [scoreStep_some g.frames _ _ 7 f7 (by rw [hfs]; rfl) (by rw [hfs]; rfl) (by rw [hfs]; rfl) (hs _ _ (by omega))]
    simp only [Option.bind_eq_bind, Option.some_bind]
    rw [scoreStep_some g.frames _ _ 8 f8 (by rw [hfs]; rfl) (by rw [hfs]; rfl) (by rw [hfs]; rfl) (hs _ _ (by omega))]
    simp only [Option.bind_eq_bind, Option.some_bind]
    rw [scoreStep_some g.frames _ _ 9 f9 (by rw [hfs]; rfl) (by rw [hfs]; rfl) (by rw [hfs]; rfl) (hs _ _ (by omega))]
    simp only [Option.bind_eq_bind, Option.some_bind]
    simp only [pure, hfs, List.set_cons_zero, List.set_cons_succ]
    simp only [List.getElem?_cons_succ, List.getElem?_cons_zero, List.getD_cons_succ, List.getD_cons_zero,
      List.map_cons, List.map_nil, List.sum_cons, List.sum_nil, Option.some.injEq, Game.mk.injEq, true_and]
    refine ⟨by ring, ?_⟩
    cases g.isComplete <;> cases (rescore [f0, f1, f2, f3, f4, f5, f6, f7, f8, f9] 9 f9).isComplete <;> rfl
  · intro i hi
    rw [hfs]
    interval_cases i <;> rfl

/-! ## Frame handlers on frames in closed form -/

theorem regular_open_cases (i : Nat) (t : List Int) (hi : i < 9) (hs : shapeOf i t)
    (hc : completeOf i t = false) : t = [] ∨ ∃ a, a ≠ 10 ∧ t = [a] := by
  simp only [shapeOf, hi, if_true] at hs
  simp only [completeOf, hi, if_true, Bool.or_eq_false_iff, decide_eq_false_iff_not] at hc
  match t, hs, hc with
  | [], _, _ => exact Or.inl rfl
  | [a], _, hc => exact Or.inr ⟨a, fun h => hc.2 (by rw [h]), rfl⟩
  | [a, b], _, hc => exact absurd rfl hc.1
  | a :: b :: c :: r, hs, _ => simp at hs

theorem tenth_open_cases (t : List Int) (hs : shapeOf 9 t) (hc : completeOf 9 t = false) :
    t = [] ∨ (∃ a, t = [a]) ∨ ∃ a b, (a = 10 ∨ a + b = 10) ∧ t = [a, b] := by
  simp only [shapeOf, lt_irrefl, if_false] at hs
  simp only [completeOf, lt_irrefl, if_false, Bool.or_eq_false_iff, decide_eq_false_iff_not,
    Bool.and_eq_false_iff] at hc
  match t, hs, hc with
  | [], _, _ => exact Or.inl rfl
  | [a], _, _ => exact Or.inr (Or.inl ⟨a, rfl⟩)
  | [a, b], _, hc =>
    refine Or.inr (Or.inr ⟨a, b, ?_, rfl⟩)
    simp [pinAt] at hc
    exact hc
  | a :: b :: c :: r, _, hc => simp at hc

theorem handleRegularFrame_canon (i n : Nat) (t : List Int) (sc : Option Int) (p : Int)
    (hi : i < 9) (hs : shapeOf i t) (hc : completeOf i t = false) :
    handleRegularFrame
        { frameNumber := n, throws := t ++ [p], score := sc, isStrike := strikeOf t,
          isSpare := spareOf t, isComplete := completeOf i t } =
      { frameNumber := n, throws := t ++ [p], score := sc, isStrike := strikeOf (t ++ [p]),
        isSpare := spareOf (t ++ [p]), isComplete := completeOf i (t ++ [p]) } ∧
    shapeOf i (t ++ [p]) := by
  rcases regular_open_cases i t hi hs hc with h | ⟨a, ha, h⟩
  · subst h
    by_cases hp : p = 10
    · subst hp
      simp [handleRegularFrame, strikeOf, spareOf, completeOf, shapeOf, pinAt, hi]
    · simp [handleRegularFrame, strikeOf, spareOf, completeOf, shapeOf, pinAt, hi, hp]
  · subst h
    by_cases hp : a + p = 10
    · simp [handleRegularFrame, strikeOf, spareOf, completeOf, shapeOf, pinAt, hi, hp, ha, sumPins]
    · simp [handleRegularFrame, strikeOf, spareOf, completeOf, shapeOf, pinAt, hi, hp, ha, sumPins]

theorem handle10thFrame_canon (n : Nat) (t : List Int) (sc : Option Int) (p : Int)
    (hs : shapeOf 9 t) (hc : completeOf 9 t = false) :
    handle10thFrame
        { frameNumber := n, throws := t ++ [p], score := sc, isStrike := strikeOf t,
          isSpare := spareOf t, isComplete := completeOf 9 t } =
      { frameNumber := n, throws := t ++ [p], score := sc, isStrike := strikeOf (t ++ [p]),
        isSpare := spareOf (t ++ [p]), isComplete := completeOf 9 (t ++ [p]) } ∧
    shapeOf 9 (t ++ [p]) := by
  rcases tenth_open_cases t hs hc with h | ⟨a, h⟩ | ⟨a, b, hab, h⟩
  · subst h
    by_cases hp : p = 10
    · subst hp
      simp [handle10thFrame, strikeOf, spareOf, completeOf, shapeOf, pinAt]
    · simp [handle10thFrame, strikeOf, spareOf, completeOf, shapeOf, pinAt, hp]
  · subst h
    by_cases ha : a = 10
    · subst ha
      simp [handle10thFrame, strikeOf, spareOf, completeOf, shapeOf, pinAt]
    · by_cases hp : a + p = 10
      · simp [handle10thFrame, strikeOf, spareOf, completeOf, shapeOf, pinAt, hp, ha]
      · simp [handle10thFrame, strikeOf, spareOf, completeOf, shapeOf, pinAt, hp, ha]
  · subst h
    by_cases ha : a = 10
    · subst ha
      simp [handle10thFrame, strikeOf, spareOf, completeOf, shapeOf, pinAt]
    · have hb : a + b = 10 := hab.resolve_left ha
      simp [handle10thFrame, strikeOf, spareOf, completeOf, shapeOf, pinAt, hb, ha]

/-! ## The score of a frame never changes once it is set -/

theorem pinAt_append_lt (t : List Int) (p : Int) (j : Nat) (h : j < t.length) :
    pinAt (t ++ [p]) j = pinAt t j := by
  unfold pinAt
  rw [List.getD_eq_getElem?_getD, List.getD_eq_getElem?_getD, List.getElem?_append_left h]

theorem scoreFn_open (T : Nat → List Int) (k : Nat) (hs : shapeOf k (T k))
    (hc : completeOf k (T k) = false) : scoreFn T k = none := by
  unfold scoreFn
  by_cases hk : k < 9
  · rcases regular_open_cases k (T k) hk hs hc with h | ⟨a, ha, h⟩
    · simp [hk, h, strikeOf, spareOf, completeOf, pinAt]
    · simp [hk, h, strikeOf, spareOf, completeOf, pinAt, ha]
  · simp [hk, hc]

theorem scoreFn_mono (T : Nat → List Int) (k : Nat) (p : Int) (i : Nat) (v : Int)
    (hs : shapeOf k (T k)) (hc : completeOf k (T k) = false) (h : scoreFn T i = some v) :
    scoreFn (pushAt T k p) i = some v := by
  by_cases hik : i = k
  · subst hik
    rw [scoreFn_open T i hs hc] at h
    cases h
  · have e0 : pushAt T k p i = T i := if_neg hik
    by_cases h1 : i + 1 = k
    · have e1 : pushAt T k p (i + 1) = T (i + 1) ++ [p] := by simp [pushAt, h1]
      have e2 : pushAt T k p (i + 2) = T (i + 2) := by
        have : i + 2 ≠ k := by omega
        simp [pushAt, this]
      have hno : i < 8 → ¬ ((T (i + 1)).length = 1 ∧ strikeOf (T (i + 1)) = true) := by
        intro h8 hh
        subst h1
        rcases regular_open_cases (i + 1) (T (i + 1)) (by omega) hs hc with h | ⟨a, ha, h⟩
        · rw [h] at hh; simp at hh
        · rw [h] at hh; simp [strikeOf, pinAt, ha] at hh
      unfold scoreFn at h ⊢
      rw [e0, e1, e2]
      by_cases h9 : i < 9
      · simp only [h9, if_true] at h ⊢
        by_cases hst : strikeOf (T i) = true
        · simp only [hst, if_true] at h ⊢
          by_cases h2 : 2 ≤ (T (i + 1)).length
          · have h2b : 2 ≤ (T (i + 1) ++ [p]).length := by simp; omega
            simp only [h2, h2b, if_true] at h ⊢
            rw [pinAt_append_lt _ _ 0 (by omega), pinAt_append_lt _ _ 1 (by omega)]
            exact h
          · simp only [h2, if_false] at h
            split_ifs at h with h3
            exact absurd ⟨h3.1, h3.2.1⟩ (hno h3.2.2.1)
        · simp only [hst, Bool.false_eq_true, if_false] at h ⊢
          by_cases hsp : spareOf (T i) = true
          · simp only [hsp, if_true] at h ⊢
            split_ifs at h with h3
            have h3b : 1 ≤ (T (i + 1) ++ [p]).length := by simp
            simp only [h3b, if_true]
            rw [pinAt_append_lt _ _ 0 (by omega)]
            exact h
          · simp only [hsp, Bool.false_eq_true, if_false] at h ⊢
            exact h
      · simp only [h9, if_false] at h ⊢
        exact h
    · have e1 : pushAt T k p (i + 1) = T (i + 1) := if_neg h1
      by_cases h2 : i + 2 = k
      · have e2 : pushAt T k p (i + 2) = T (i + 2) ++ [p] := by simp [pushAt, h2]
        unfold scoreFn at h ⊢
        rw [e0, e1, e2]
        by_cases h9 : i < 9
        · simp only [h9, if_true] at h ⊢
          by_cases hst : strikeOf (T i) = true
          · simp only [hst, if_true] at h ⊢
            by_cases h2 : 2 ≤ (T (i + 1)).length
            · simp only [h2, if_true] at h ⊢
              exact h
            · simp only [h2, if_false] at h ⊢
              split_ifs at h with h3
              have h3b : (T (i + 1)).length = 1 ∧ strikeOf (T (i + 1)) = true ∧ i < 8 ∧
                  1 ≤ (T (i + 2) ++ [p]).length := ⟨h3.1, h3.2.1, h3.2.2.1, by simp⟩
              rw [if_pos h3b, pinAt_append_lt _ _ 0 (by omega)]
              exact h
          · simp only [hst, Bool.false_eq_true, if_false] at h ⊢
            exact h
        · simp only [h9, if_false] at h ⊢
          exact h
      · have e2 : pushAt T k p (i + 2) = T (i + 2) := if_neg h2
        unfold scoreFn at h ⊢
        rw [e0, e1, e2]
        exact h

/-! ## One recorded throw on a game in closed form -/

theorem throwsAt_of_get (fs : List Frame) (i : Nat) (f : Frame) (h : fs[i]? = some f) :
    throwsAt fs i = f.throws := by
  simp [throwsAt, h]

theorem throwsAt_set (fs : List Frame) (k : Nat) (f : Frame) (hk : k < fs.length) :
    throwsAt (fs.set k f) = fun j => if j = k then f.throws else throwsAt fs j := by
  funext j
  unfold throwsAt
  rw [List.getElem?_set]
  by_cases h : k = j
  · subst h
    simp [hk]
  · have h2 : ¬ j = k := fun e => h e.symm
    simp [h, h2]

theorem rescore_fields (fs : List Frame) (i : Nat) (f : Frame) :
    (rescore fs i f).throws = f.throws ∧ (rescore fs i f).frameNumber = f.frameNumber ∧
    (rescore fs i f).isStrike = f.isStrike ∧ (rescore fs i f).isSpare = f.isSpare ∧
    (rescore fs i f).isComplete = f.isComplete := by
  unfold rescore
  split <;> simp

theorem rescore_flags (fs : List Frame) (i j : Nat) (f : Frame) (h : FlagsCanon j f) :
    FlagsCanon j (rescore fs i f) := by
  obtain ⟨e1, e2, e3, e4, e5⟩ := rescore_fields fs i f
  unfold FlagsCanon
  rw [e1, e2, e3, e4, e5]
  exact h

theorem throwsAt_rescored (fs fs2 : List Frame) (h1 : fs.length = 10) (h2 : fs2.length = 10)
    (h : ∀ i, i < 10 → fs2[i]? = (fs[i]?).map (rescore fs i)) : throwsAt fs2 = throwsAt fs := by
  funext i
  unfold throwsAt
  by_cases hi : i < 10
  · rw [h i hi]
    cases hf : fs[i]? with
    | none => rfl
    | some f => simp [(rescore_fields fs i f).1]
  · rw [List.getElem?_eq_none (by omega), List.getElem?_eq_none (by omega)]

theorem assignedScore_canon (fs : List Frame) (i : Nat) (f : Frame) (hlen : fs.length = 10)
    (hf : fs[i]? = some f) (hall : ∀ j g, fs[j]? = some g → FlagsCanon j g) :
    assignedScore fs i f = some (scoreFn (throwsAt fs) i) := by
  have hi : i < 10 := by
    have := (List.getElem?_eq_some.mp hf).1
    omega
  obtain ⟨-, hst, hsp, hco, -⟩ := hall i f hf
  have ht : throwsAt fs i = f.throws := throwsAt_of_get fs i f hf
  unfold assignedScore scoreFn
  rw [ht, hst, hsp, hco]
  by_cases h9 : i < 9
  · have hn1 : fs[i + 1]? = some fs[i + 1] := List.getElem?_eq_getElem (by omega)
    have ht1 : throwsAt fs (i + 1) = (fs[i + 1]).throws := throwsAt_of_get fs _ _ hn1
    have hst1 := (hall (i + 1) _ hn1).2.1
    simp only [h9, if_true, hn1, ht1, hst1]
    by_cases h8 : i < 8
    · have hn2 : fs[i + 2]? = some fs[i + 2] := List.getElem?_eq_getElem (by omega)
      have ht2 : throwsAt fs (i + 2) = (fs[i + 2]).throws := throwsAt_of_get fs _ _ hn2
      simp only [hn2, ht2, h8]
      split_ifs <;> simp_all
    · simp only [h8]
      split_ifs <;> simp_all
  · simp only [h9, if_false]
    split_ifs <;> rfl

theorem rescore_score (fs : List Frame) (i : Nat) (f : Frame)
    (h : assignedScore fs i f = some (scoreFn (throwsAt fs) i))
    (hm : ∀ v, f.score = some v → scoreFn (throwsAt fs) i = some v) :
    (rescore fs i f).score = scoreFn (throwsAt fs) i := by
  unfold rescore
  rw [h]
  cases hv : scoreFn (throwsAt fs) i with
  | some v => rfl
  | none =>
    simp only
    cases hs : f.score with
    | none => rfl
    | some w =>
      have := hm w hs
      rw [hv] at this
      cases this

theorem canon_complete_get (g : Game) (hg : Canon g) (i : Nat) (f : Frame)
    (h : g.frames[i]? = some f) : f.isComplete = completeOf i (throwsAt g.frames i) := by
  rw [throwsAt_of_get _ _ _ h]
  exact (hg.frame i f h).1.2.2.2.1

theorem canon_first_open (g : Game) (hg : Canon g) (hc : g.isComplete = false) :
    ∃ k f, g.frames.findIdx? (fun f => !f.isComplete) = some k ∧ k < 10 ∧
      g.frames[k]? = some f ∧ completeOf k f.throws = false ∧
      ∀ j, j < k → completeOf j (throwsAt g.frames j) = true := by
  have hlen := hg.len
  have h9 : g.frames[9]? = some g.frames[9] := List.getElem?_eq_getElem (by omega)
  have hc9 : (g.frames[9]).isComplete = false := by
    rw [canon_complete_get g hg 9 _ h9, ← hg.complete, hc]
  cases hfind : g.frames.findIdx? (fun f => !f.isComplete) with
  | none =>
    rw [List.findIdx?_eq_none_iff] at hfind
    have := hfind g.frames[9] (List.getElem_mem _)
    simp [hc9] at this
  | some k =>
    rw [List.findIdx?_eq_some_iff_findIdx_eq] at hfind
    obtain ⟨hk, hidx⟩ := hfind
    rw [List.findIdx_eq hk] at hidx
    obtain ⟨hopen, hbefore⟩ := hidx
    have hkf : g.frames[k]? = some g.frames[k] := List.getElem?_eq_getElem hk
    refine ⟨k, g.frames[k], rfl, by omega, hkf, ?_, ?_⟩
    · have := (hg.frame k _ hkf).1.2.2.2.1
      rw [← this]
      simpa using hopen
    · intro j hj
      have hjf : g.frames[j]? = some g.frames[j] := List.getElem?_eq_getElem (by omega)
      rw [← canon_complete_get g hg j _ hjf]
      simpa using hbefore j hj

theorem recordGame_complete (g : Game) (p : Int) (hc : g.isComplete = true) :
    recordGame g p = some (false, g) := by
  unfold recordGame
  cases currentFrameIndex g with
  | none => rfl
  | some idx =>
    simp only
    cases g.frames[idx]? with
    | none => rfl
    | some f => simp [hc]

theorem recordGame_open (g : Game) (p : Int) (hg : Canon g) (hc : g.isComplete = false) :
    ∃ k g2, g.frames.findIdx? (fun f => !f.isComplete) = some k ∧ k < 10 ∧
      completeOf k (throwsAt g.frames k) = false ∧
      (∀ j, j < k → completeOf j (throwsAt g.frames j) = true) ∧
      recordGame g p = some (true, g2) ∧ Canon g2 ∧
      throwsAt g2.frames = pushAt (throwsAt g.frames) k p ∧
      (∀ i v, scoreFn (throwsAt g.frames) i = some v → scoreFn (throwsAt g2.frames) i = some v) := by
  obtain ⟨k, f, hfind, hk, hkf, hopen, hbefore⟩ := canon_first_open g hg hc
  have hlen := hg.len
  obtain ⟨⟨hnum, hst, hsp, hco, hshape⟩, hscore⟩ := hg.frame k f hkf
  have htk : throwsAt g.frames k = f.throws := throwsAt_of_get _ _ _ hkf
  -- the frame after the push and its handler
  obtain ⟨handled, hhandled, hflags, hthrows, hsc⟩ :
      ∃ handled : Frame,
        (if ({ f with throws := f.throws ++ [p] } : Frame).frameNumber = 10 then
            handle10thFrame { f with throws := f.throws ++ [p] }
          else handleRegularFrame { f with throws := f.throws ++ [p] }) = handled ∧
        FlagsCanon k handled ∧ handled.throws = f.throws ++ [p] ∧ handled.score = f.score := by
    obtain ⟨n, t, sc, st, sp, co⟩ := f
    simp only at hnum hst hsp hco hshape hopen
    subst hnum hst hsp hco
    by_cases h9 : k = 9
    · subst h9
      obtain ⟨e, hs2⟩ := handle10thFrame_canon 10 t sc p hshape hopen
      refine ⟨_, rfl, ?_, ?_, ?_⟩ <;> simp only [if_true] <;> rw [e]
      · exact ⟨rfl, rfl, rfl, rfl, hs2⟩
    · have hk9 : k < 9 := by omega
      obtain ⟨e, hs2⟩ := handleRegularFrame_canon k (k + 1) t sc p hk9 hshape hopen
      have hne : ¬ (k + 1 = 10) := by omega
      refine ⟨_, rfl, ?_, ?_, ?_⟩ <;> simp only [hne, if_false] <;> rw [e]
      · exact ⟨rfl, rfl, rfl, rfl, hs2⟩
  have hidx : currentFrameIndex g = some k := by simp [currentFrameIndex, hfind]
  have hlen1 : (g.frames.set k handled).length = 10 := by simp [hlen]
  obtain ⟨fs2, hcalc, hlen2, hget2⟩ :=
    calculateGame_ten { g with frames := g.frames.set k handled } hlen1
  simp only at hcalc hget2
  have hT1 : throwsAt (g.frames.set k handled) = pushAt (throwsAt g.frames) k p := by
    rw [throwsAt_set _ _ _ (by omega)]
    funext j
    simp only [pushAt, hthrows, htk]
  have hT2 : throwsAt fs2 = pushAt (throwsAt g.frames) k p := by
    rw [throwsAt_rescored _ fs2 hlen1 hlen2 hget2, hT1]
  have hopenT : completeOf k (throwsAt g.frames k) = false := by rw [htk]; exact hopen
  have hshapeT : shapeOf k (throwsAt g.frames k) := by rw [htk]; exact hshape
  have hmono : ∀ i v, scoreFn (throwsAt g.frames) i = some v →
      scoreFn (pushAt (throwsAt g.frames) k p) i = some v :=
    fun i v h => scoreFn_mono _ k p i v hshapeT hopenT h
  -- frames after the push, before the scores are recomputed
  have hall1 : ∀ j f1, (g.frames.set k handled)[j]? = some f1 →
      FlagsCanon j f1 ∧ f1.score = scoreFn (throwsAt g.frames) j := by
    intro j f1 hj
    rw [List.getElem?_set] at hj
    by_cases hkj : k = j
    · subst hkj
      simp only [if_true, show k < g.frames.length by omega] at hj
      cases hj
      exact ⟨hflags, by rw [hsc, hscore]⟩
    · simp only [hkj, if_false] at hj
      exact hg.frame j f1 hj
  refine ⟨k, Game.mk fs2 (fs2.map scoreValue).sum
    (g.isComplete || (fs2.getD 9 (newFrame 0)).isComplete), hfind, hk, hopenT, hbefore,
    ?_, ?_, hT2, ?_⟩
  · unfold recordGame
    simp only [hidx, hkf, hhandled]
    rw [if_neg (by simp [hc]), hcalc]
  · refine ⟨hlen2, ?_, ?_, rfl, ?_⟩
    · intro i f2 hi
      have hi10 : i < 10 := by
        have hlt : i < fs2.length := (List.getElem?_eq_some.mp hi).1
        rw [hlen2] at hlt
        exact hlt
      rw [hget2 i hi10] at hi
      cases hf1 : (g.frames.set k handled)[i]? with
      | none => rw [hf1] at hi; cases hi
      | some f1 =>
        rw [hf1] at hi
        simp only [Option.map_some', Option.some.injEq] at hi
        subst hi
        obtain ⟨hfl, hsc1⟩ := hall1 i f1 hf1
        refine ⟨rescore_flags _ _ _ _ hfl, ?_⟩
        simp only
        rw [hT2, ← hT1]
        apply rescore_score
        · exact assignedScore_canon _ i f1 hlen1 hf1 (fun j g1 hj => (hall1 j g1 hj).1)
        · intro v hv
          rw [hT1]
          exact hmono i v (by rw [← hsc1, hv])
    · intro i hi
      simp only
      rw [hT2]
      intro hne
      unfold pushAt at hne ⊢
      by_cases h1 : i + 1 = k
      · have h0 : ¬ i = k := by omega
        simp only [h0, if_false]
        exact hbefore i (by omega)
      · simp only [h1, if_false] at hne
        by_cases h0 : i = k
        · subst h0
          have := hg.seq i hi hne
          rw [hopenT] at this
          cases this
        · simp only [h0, if_false]
          exact hg.seq i hi hne
    · simp only [hc, Bool.false_or]
      have h9 : fs2[9]? = some fs2[9] := List.getElem?_eq_getElem (by omega)
      have hgd : fs2.getD 9 (newFrame 0) = fs2[9] := by
        rw [List.getD_eq_getElem?_getD, h9]; rfl
      rw [hgd, throwsAt_of_get _ _ _ h9]
      have h9b := h9
      rw [hget2 9 (by omega)] at h9b
      cases hf1 : (g.frames.set k handled)[9]? with
      | none => rw [hf1] at h9b; cases h9b
      | some f1 =>
        rw [hf1] at h9b
        simp only [Option.map_some', Option.some.injEq] at h9b
        rw [← h9b]
        exact (rescore_flags _ _ _ _ (hall1 9 f1 hf1).1).2.2.2.1
  · intro i v h
    simp only
    rw [hT2]
    exact hmono i v h

/-! ## From the game to the scoring system -/

theorem getCurrentGame_set (s : ScoringSystem) (g g1 : Game) (h : s.getCurrentGame = some g) :
    (s.setCurrentGame g1).getCurrentGame = some g1 := by
  unfold ScoringSystem.getCurrentGame at h ⊢
  have hlt : s.currentGameIndex < s.games.length := (List.getElem?_eq_some.mp h).1
  simp [ScoringSystem.setCurrentGame, List.getElem?_set, hlt]

theorem setCurrentGame_twice (s : ScoringSystem) (g1 g2 : Game) :
    (s.setCurrentGame g1).setCurrentGame g2 = s.setCurrentGame g2 := by
  simp [ScoringSystem.setCurrentGame]

theorem recordThrow_eq_recordGame (s : ScoringSystem) (g : Game) (p : Int)
    (h : s.getCurrentGame = some g) :
    s.recordThrow p =
      (recordGame g p).map (fun r => (r.1, if r.1 = true then s.setCurrentGame r.2 else s)) := by
  unfold ScoringSystem.recordThrow recordGame
  rw [h]
  simp only
  cases currentFrameIndex g with
  | none => rfl
  | some idx =>
    simp only
    cases g.frames[idx]? with
    | none => rfl
    | some f =>
      simp only
      by_cases hc : g.isComplete = true
      · simp [hc]
      · simp only [hc, if_false]
        unfold ScoringSystem.calculateScores
        rw [getCurrentGame_set s g _ h]
        simp only
        cases calculateGame _ with
        | none => rfl
        | some g2 => simp [setCurrentGame_twice]

theorem newGame_frames : newGame.frames =
    [newFrame 0, newFrame 1, newFrame 2, newFrame 3, newFrame 4, newFrame 5, newFrame 6,
      newFrame 7, newFrame 8, newFrame 9] := rfl

theorem throwsAt_newGame (i : Nat) : throwsAt newGame.frames i = [] := by
  unfold throwsAt
  cases h : newGame.frames[i]? with
  | none => rfl
  | some f =>
    have hi : i < 10 := (List.getElem?_eq_some.mp h).1
    rw [newGame_frames] at h
    interval_cases i <;> simp at h <;> rw [← h] <;> rfl

theorem scoreFn_empty (T : Nat → List Int) (hT : ∀ i, T i = []) (i : Nat) : scoreFn T i = none := by
  simp [scoreFn, hT, strikeOf, spareOf, completeOf, pinAt]

theorem canon_newGame : Canon newGame := by
  have hT : throwsAt newGame.frames = fun _ => [] := funext throwsAt_newGame
  refine ⟨rfl, ?_, ?_, rfl, ?_⟩
  · intro i f h
    have hi : i < 10 := (List.getElem?_eq_some.mp h).1
    refine ⟨?_, ?_⟩
    · rw [newGame_frames] at h
      interval_cases i <;> simp at h <;> rw [← h] <;>
        simp [FlagsCanon, newFrame, strikeOf, spareOf, completeOf, shapeOf, pinAt]
    · rw [scoreFn_empty _ throwsAt_newGame]
      rw [newGame_frames] at h
      interval_cases i <;> simp at h <;> rw [← h] <;> rfl
  · intro i _ hne
    exact absurd (throwsAt_newGame (i + 1)) hne
  · rw [throwsAt_newGame]
    rfl

theorem sysCanon_new : SysCanon ScoringSystem.new := by
  refine ⟨rfl, ?_⟩
  intro g hg
  simp [ScoringSystem.new, ScoringSystem.initNewGame] at hg
  rw [hg]
  exact canon_newGame

theorem sysCanon_current (s : ScoringSystem) (hs : SysCanon s) :
    ∃ g, s.getCurrentGame = some g ∧ Canon g := by
  have hlt : s.currentGameIndex < s.games.length := by have := hs.cursor; omega
  refine ⟨s.games[s.currentGameIndex], ?_, hs.games _ (List.getElem_mem _)⟩
  exact List.getElem?_eq_getElem hlt

theorem sysCanon_set (s : ScoringSystem) (hs : SysCanon s) (g : Game) (hg : Canon g) :
    SysCanon (s.setCurrentGame g) := by
  refine ⟨?_, ?_⟩
  · simpa [ScoringSystem.setCurrentGame] using hs.cursor
  · intro g1 hg1
    simp only [ScoringSystem.setCurrentGame] at hg1
    rcases List.mem_or_eq_of_mem_set hg1 with h | h
    · exact hs.games g1 h
    · rw [h]; exact hg

/-- One call of `recordThrow` on a state in closed form: it returns, and the result is
described by the current game alone. -/
theorem recordThrow_sysCanon (s : ScoringSystem) (p : Int) (hs : SysCanon s) :
    ∃ g, s.getCurrentGame = some g ∧ Canon g ∧
      ((g.isComplete = true ∧ s.recordThrow p = some (false, s)) ∨
       (g.isComplete = false ∧ ∃ k g2, g.frames.findIdx? (fun f => !f.isComplete) = some k ∧
          k < 10 ∧ completeOf k (throwsAt g.frames k) = false ∧
          (∀ j, j < k → completeOf j (throwsAt g.frames j) = true) ∧
          s.recordThrow p = some (true, s.setCurrentGame g2) ∧ Canon g2 ∧
          SysCanon (s.setCurrentGame g2) ∧
          (s.setCurrentGame g2).getCurrentGame = some g2 ∧
          throwsAt g2.frames = pushAt (throwsAt g.frames) k p ∧
          (∀ i v, scoreFn (throwsAt g.frames) i = some v →
            scoreFn (throwsAt g2.frames) i = some v))) := by
  obtain ⟨g, hg, hcan⟩ := sysCanon_current s hs
  refine ⟨g, hg, hcan, ?_⟩
  rw [recordThrow_eq_recordGame s g p hg]
  cases hc : g.isComplete with
  | true =>
    left
    rw [recordGame_complete g p hc]
    exact ⟨rfl, rfl⟩
  | false =>
    right
    obtain ⟨k, g2, hfind, hk, hko, hkb, hrec, hcan2, hT, hmono⟩ := recordGame_open g p hcan hc
    refine ⟨rfl, k, g2, hfind, hk, hko, hkb, ?_, hcan2, sysCanon_set s hs g2 hcan2,
      getCurrentGame_set s g g2 hg, hT, hmono⟩
    rw [hrec]
    rfl

theorem sysCanon_recordThrow (s : ScoringSystem) (p : Int) (r : Bool × ScoringSystem)
    (hs : SysCanon s) (h : s.recordThrow p = some r) : SysCanon r.2 := by
  obtain ⟨g, -, -, hcase⟩ := recordThrow_sysCanon s p hs
  rcases hcase with ⟨-, hr⟩ | ⟨-, k, g2, -, -, -, -, hr, -, hs2, -⟩
  · rw [hr] at h; cases h; exact hs
  · rw [hr] at h; cases h; exact hs2

theorem sysCanon_initNewGame (s : ScoringSystem) (h1 : s.currentGameIndex = s.games.length)
    (h2 : ∀ g, g ∈ s.games → Canon g) : SysCanon s.initNewGame := by
  refine ⟨by simp [ScoringSystem.initNewGame, h1], ?_⟩
  intro g hg
  simp only [ScoringSystem.initNewGame, List.mem_append, List.mem_singleton] at hg
  rcases hg with h | h
  · exact h2 g h
  · rw [h]; exact canon_newGame

theorem sysCanon_reachable (s : ScoringSystem) (h : Reachable s) : SysCanon s := by
  induction h with
  | new => exact sysCanon_new
  | recordThrow s p r _ hr ih => exact sysCanon_recordThrow s p r ih hr
  | startNextGame s _ ih =>
    unfold ScoringSystem.startNextGame
    split
    · exact sysCanon_initNewGame _ ih.cursor ih.games
    · exact ih
  | reset s _ ih =>
    exact sysCanon_initNewGame _ rfl (by intro g hg; simp at hg)

/-! ## Sequences of recorded throws -/

theorem mem_pushAt (T : Nat → List Int) (k : Nat) (p : Int) (i : Nat) (x : Int)
    (h : x ∈ pushAt T k p i) : x ∈ T i ∨ x = p := by
  unfold pushAt at h
  by_cases hik : i = k
  · subst hik
    simp only [if_true, List.mem_append, List.mem_singleton] at h
    exact h
  · simp only [hik, if_false] at h
    exact Or.inl h

/-- Recording any list of throws on a state in closed form returns a state in closed
form with the same number of games and the same cursor, and every pin count held by the
current game satisfies a property that all recorded pin counts and all earlier ones
satisfy. -/
theorem recordThrows_sysCanon (P : Int → Prop) (ts : List Int) :
    ∀ s : ScoringSystem, SysCanon s → (∀ t, t ∈ ts → P t) →
      (∀ g, s.getCurrentGame = some g → ∀ i x, x ∈ throwsAt g.frames i → P x) →
      ∃ s2 g2, s.recordThrows ts = some s2 ∧ SysCanon s2 ∧ s2.getCurrentGame = some g2 ∧
        Canon g2 ∧ s2.games.length = s.games.length ∧
        s2.currentGameIndex = s.currentGameIndex ∧
        (∀ i x, x ∈ throwsAt g2.frames i → P x) := by
  induction ts with
  | nil =>
    intro s hs _ hP
    obtain ⟨g, hg, hcan⟩ := sysCanon_current s hs
    exact ⟨s, g, rfl, hs, hg, hcan, rfl, rfl, hP g hg⟩
  | cons p rest ih =>
    intro s hs hts hP
    obtain ⟨g, hg, -, hcase⟩ := recordThrow_sysCanon s p hs
    have hrest : ∀ t, t ∈ rest → P t := fun t ht => hts t (List.mem_cons_of_mem _ ht)
    rcases hcase with ⟨-, hr⟩ | ⟨-, k, g2, -, -, -, -, hr, -, hs2, hg2, hT, -⟩
    · obtain ⟨s3, g3, h3, r3⟩ := ih s hs hrest hP
      refine ⟨s3, g3, ?_, r3⟩
      simp only [ScoringSystem.recordThrows, hr]
      exact h3
    · have hP2 : ∀ g1, (s.setCurrentGame g2).getCurrentGame = some g1 →
          ∀ i x, x ∈ throwsAt g1.frames i → P x := by
        intro g1 hg1 i x hx
        rw [hg2] at hg1
        cases hg1
        rw [hT] at hx
        rcases mem_pushAt _ _ _ _ _ hx with h | h
        · exact hP g hg i x h
        · rw [h]; exact hts p (List.mem_cons_self _ _)
      obtain ⟨s3, g3, h3, hs3, hg3, hc3, hl3, hi3, hb3⟩ := ih _ hs2 hrest hP2
      refine ⟨s3, g3, ?_, hs3, hg3, hc3, ?_, ?_, hb3⟩
      · simp only [ScoringSystem.recordThrows, hr]
        exact h3
      · rw [hl3]; simp [ScoringSystem.setCurrentGame]
      · rw [hi3]; rfl

/-- Recording any list of throws on a fresh scoring system returns a state whose only
game is in closed form and holds recorded pin counts only. -/
theorem recordThrows_new (P : Int → Prop) (ts : List Int) (hts : ∀ t, t ∈ ts → P t) :
    ∃ s g, ScoringSystem.new.recordThrows ts = some s ∧ s.getCurrentGame = some g ∧
      s.games = [g] ∧ s.currentGameIndex = 0 ∧ Canon g ∧
      (∀ i x, x ∈ throwsAt g.frames i → P x) := by
  have h0 : ∀ g, ScoringSystem.new.getCurrentGame = some g →
      ∀ i x, x ∈ throwsAt g.frames i → P x := by
    intro g hg i x hx
    have : g = newGame := by
      simp [ScoringSystem.new, ScoringSystem.initNewGame, ScoringSystem.getCurrentGame] at hg
      exact hg.symm
    rw [this, throwsAt_newGame] at hx
    cases hx
  obtain ⟨s, g, hrec, -, hg, hcan, hlen, hidx, hb⟩ :=
    recordThrows_sysCanon P ts _ sysCanon_new hts h0
  refine ⟨s, g, hrec, hg, ?_, hidx, hcan, hb⟩
  have hidx0 : s.currentGameIndex = 0 := hidx
  have hlen1 : s.games.length = 1 := hlen
  unfold ScoringSystem.getCurrentGame at hg
  rw [hidx0] at hg
  match hgs : s.games, hlen1 with
  | [g1], _ =>
    rw [hgs] at hg
    simp at hg
    rw [hg]

theorem canon_frameNumbers (g : Game) (hg : Canon g) :
    g.frames.map (fun f => f.frameNumber) = [1, 2, 3, 4, 5, 6, 7, 8, 9, 10] := by
  obtain ⟨f0, f1, f2, f3, f4, f5, f6, f7, f8, f9, hfs⟩ := length_ten _ hg.len
  have h := fun i f hi => (hg.frame i f hi).1.1
  rw [hfs] at h ⊢
  simp only [List.map_cons, List.map_nil]
  rw [h 0 f0 rfl, h 1 f1 rfl, h 2 f2 rfl, h 3 f3 rfl, h 4 f4 rfl, h 5 f5 rfl, h 6 f6 rfl,
    h 7 f7 rfl, h 8 f8 rfl, h 9 f9 rfl]

theorem canon_mem (g : Game) (hg : Canon g) (f : Frame) (hf : f ∈ g.frames) :
    ∃ i, i < 10 ∧ g.frames[i]? = some f ∧ FlagsCanon i f := by
  obtain ⟨i, hi, hif⟩ := List.getElem_of_mem hf
  have h : g.frames[i]? = some f := by rw [List.getElem?_eq_getElem hi, hif]
  exact ⟨i, by rw [← hg.len]; exact hi, h, (hg.frame i f h).1⟩

/-! ## Scored frames form an initial segment -/

theorem completeOf_nil (i : Nat) : completeOf i [] = false := by
  unfold completeOf
  split <;> simp

theorem scoreFn_some_complete (T : Nat → List Int) (k : Nat) (hs : shapeOf k (T k))
    (h : scoreFn T k ≠ none) : completeOf k (T k) = true := by
  cases hc : completeOf k (T k) with
  | true => rfl
  | false => exact absurd (scoreFn_open T k hs hc) h

theorem regular_complete_cases (i : Nat) (t : List Int) (hi : i < 9) (hs : shapeOf i t)
    (hc : completeOf i t = true) : t = [10] ∨ ∃ a b, a ≠ 10 ∧ t = [a, b] := by
  simp only [shapeOf, hi, if_true] at hs
  simp only [completeOf, hi, if_true, Bool.or_eq_true, decide_eq_true_eq] at hc
  rcases hc with h | h
  · match t, hs, h with
    | [a, b], hs, _ =>
      exact Or.inr ⟨a, b, by simpa [pinAt] using hs.2 rfl, rfl⟩
  · exact Or.inl h

theorem scoreFn_down (T : Nat → List Int) (hshape : ∀ i, i < 10 → shapeOf i (T i))
    (hseq : ∀ i, i < 9 → T (i + 1) ≠ [] → completeOf i (T i) = true)
    (i : Nat) (hi : i + 1 < 10) (h : scoreFn T (i + 1) ≠ none) : scoreFn T i ≠ none := by
  have hi9 : i < 9 := by omega
  have hc1 := scoreFn_some_complete T (i + 1) (hshape _ hi) h
  have hne : T (i + 1) ≠ [] := by
    intro he
    rw [he, completeOf_nil] at hc1
    cases hc1
  have hc0 := hseq i hi9 hne
  have hlen1 : 1 ≤ (T (i + 1)).length := by
    cases hT : T (i + 1) with
    | nil => exact absurd hT hne
    | cons a r => simp
  rcases regular_complete_cases i (T i) hi9 (hshape i (by omega)) hc0 with h0 | ⟨a, b, ha, h0⟩
  · -- frame i is a strike
    by_cases h2 : 2 ≤ (T (i + 1)).length
    · simp [scoreFn, hi9, h0, strikeOf, pinAt, h2]
    · have h8 : i + 1 < 9 := by
        by_contra hcon
        have h9 : i + 1 = 9 := by omega
        rw [h9] at hc1 h2
        simp only [completeOf, lt_irrefl, if_false, Bool.or_eq_true, Bool.and_eq_true,
          decide_eq_true_eq] at hc1
        omega
      rcases regular_complete_cases (i + 1) (T (i + 1)) h8 (hshape _ hi) hc1 with
        h1 | ⟨a1, b1, -, h1⟩
      · have hnext : 1 ≤ (T (i + 1 + 1)).length := by
          by_contra hcon
          apply h
          have hz : (T (i + 1 + 1)).length = 0 := by omega
          simp [scoreFn, h8, h1, strikeOf, pinAt, hz]
        have hnext2 : 1 ≤ (T (i + 2)).length := hnext
        have hi8 : i < 8 := by omega
        simp [scoreFn, hi9, h0, h1, strikeOf, pinAt, hnext2, hi8]
      · rw [h1] at h2
        simp at h2
  · -- frame i holds two throws
    by_cases hsp : a + b = 10
    · simp [scoreFn, hi9, h0, strikeOf, spareOf, pinAt, ha, hsp, hlen1]
    · simp [scoreFn, hi9, h0, strikeOf, spareOf, completeOf, pinAt, ha, hsp]

theorem scoreFn_initial (T : Nat → List Int) (hshape : ∀ i, i < 10 → shapeOf i (T i))
    (hseq : ∀ i, i < 9 → T (i + 1) ≠ [] → completeOf i (T i) = true)
    (i j : Nat) (hij : i ≤ j) (hj : j < 10) (h : scoreFn T j ≠ none) : scoreFn T i ≠ none := by
  induction j with
  | zero =>
    have : i = 0 := by omega
    rw [this]; exact h
  | succ j ih =>
    by_cases he : i = j + 1
    · rw [he]; exact h
    · exact ih (by omega) (by omega) (scoreFn_down T hshape hseq j hj h)

theorem canon_shape (g : Game) (hg : Canon g) (i : Nat) (hi : i < 10) :
    shapeOf i (throwsAt g.frames i) := by
  obtain ⟨f, hf⟩ : ∃ f, g.frames[i]? = some f :=
    ⟨_, List.getElem?_eq_getElem (by rw [hg.len]; exact hi)⟩
  rw [throwsAt_of_get _ _ _ hf]
  exact (hg.frame i f hf).1.2.2.2.2

theorem canon_scored_initial (g : Game) (hg : Canon g) (i j : Nat) (fi fj : Frame)
    (hij : i < j) (hi : g.frames[i]? = some fi) (hj : g.frames[j]? = some fj)
    (h : fj.score ≠ none) : fi.score ≠ none := by
  have hj10 : j < 10 := by rw [← hg.len]; exact (List.getElem?_eq_some.mp hj).1
  rw [(hg.frame i fi hi).2]
  rw [(hg.frame j fj hj).2] at h
  exact scoreFn_initial _ (canon_shape g hg) hg.seq i j (by omega) hj10 h

theorem sum_scoreValue (l : List Frame) :
    (l.map scoreValue).sum = (l.filterMap (fun f => f.score)).sum := by
  induction l with
  | nil => rfl
  | cons f r ih =>
    rw [List.map_cons, List.sum_cons, ih]
    cases hs : f.score with
    | none => simp [scoreValue, hs, List.filterMap_cons]
    | some v => simp [scoreValue, hs, List.filterMap_cons]

theorem initial_count (q : Nat → Prop) (hq : ∀ i j, i < j → q j → q i) (m : Nat) :
    ∃ n, n ≤ m ∧ ∀ i, i < m → (q i ↔ i < n) := by
  induction m with
  | zero => exact ⟨0, le_refl 0, fun i hi => absurd hi (Nat.not_lt_zero i)⟩
  | succ m ih =>
    obtain ⟨n, hn, hiff⟩ := ih
    by_cases hm : q m
    · refine ⟨m + 1, le_refl _, fun i hi => ⟨fun _ => hi, fun _ => ?_⟩⟩
      by_cases him : i = m
      · rw [him]; exact hm
      · exact hq i m (by omega) hm
    · refine ⟨n, by omega, fun i hi => ?_⟩
      by_cases him : i = m
      · subst him
        constructor
        · intro h; exact absurd h hm
        · intro h; omega
      · exact hiff i (by omega)

theorem filterMap_take_of_initial (l : List Frame) (n : Nat)
    (h : ∀ i f, l[i]? = some f → n ≤ i → f.score = none) :
    l.filterMap (fun f => f.score) = (l.take n).filterMap (fun f => f.score) := by
  have hd : (l.drop n).filterMap (fun f => f.score) = [] := by
    rw [List.filterMap_eq_nil_iff]
    intro f hf
    obtain ⟨k, hk, hkf⟩ := List.getElem_of_mem hf
    rw [List.getElem_drop] at hkf
    have hk2 : n + k < l.length := by
      rw [List.length_drop] at hk
      omega
    exact h (n + k) f (by rw [List.getElem?_eq_getElem hk2, hkf]) (by omega)
  conv_lhs => rw [← List.take_append_drop n l]
  rw [List.filterMap_append, hd, List.append_nil]

/-! ## A complete game scores the official ten-pin score -/

theorem tenth_complete_cases (t : List Int) (hs : shapeOf 9 t) (hc : completeOf 9 t = true) :
    (∃ a b c, (a = 10 ∨ a + b = 10) ∧ t = [a, b, c]) ∨
      ∃ a b, a ≠ 10 ∧ a + b ≠ 10 ∧ t = [a, b] := by
  simp only [shapeOf, lt_irrefl, if_false] at hs
  simp only [completeOf, lt_irrefl, if_false, Bool.or_eq_true, Bool.and_eq_true,
    decide_eq_true_eq] at hc
  match t, hs, hc with
  | [], _, hc => simp at hc
  | [a], _, hc => simp at hc
  | [a, b], _, hc =>
    rcases hc with h | h
    · simp at h
    · exact Or.inr ⟨a, b, by simpa [pinAt] using h.1.2, by simpa [pinAt] using h.2, rfl⟩
  | [a, b, c], hs, _ => exact Or.inl ⟨a, b, c, by simpa [pinAt] using hs.2 rfl, rfl⟩
  | a :: b :: c :: d :: r, hs, _ => simp at hs

theorem complete_ne_nil (i : Nat) (t : List Int) (h : completeOf i t = true) :
    ∃ a r, t = a :: r := by
  cases t with
  | nil => rw [completeOf_nil] at h; cases h
  | cons a r => exact ⟨a, r, rfl⟩

/-- The bonus of frame `j` read from the frames equals the bonus read from the flat list of
the throws that follow it. -/
theorem frame_score_flat (T : Nat → List Int) (n j : Nat) (hjn : j + (n + 1) = 9)
    (hall : ∀ i, j ≤ i → i ≤ 9 → completeOf i (T i) = true ∧ shapeOf i (T i)) :
    (T j = [10] ∧ (scoreFn T j).getD 0 =
        10 + pinAt (flatFrom T (j + 1) (n + 1)) 0 + pinAt (flatFrom T (j + 1) (n + 1)) 1) ∨
    (∃ a b, a ≠ 10 ∧ T j = [a, b] ∧ (scoreFn T j).getD 0 =
        if a + b = 10 then 10 + pinAt (flatFrom T (j + 1) (n + 1)) 0 else a + b) := by
  have hj9 : j < 9 := by omega
  obtain ⟨hc0, hs0⟩ := hall j (le_refl j) (by omega)
  obtain ⟨hc1, hs1⟩ := hall (j + 1) (by omega) (by omega)
  have hflat : flatFrom T (j + 1) (n + 1) = T (j + 1) ++ flatFrom T (j + 1 + 1) n := rfl
  rcases regular_complete_cases j (T j) hj9 hs0 hc0 with h0 | ⟨a, b, ha, h0⟩
  · left
    refine ⟨h0, ?_⟩
    rw [hflat]
    by_cases h8 : j + 1 < 9
    · rcases regular_complete_cases (j + 1) (T (j + 1)) h8 hs1 hc1 with h1 | ⟨a1, b1, -, h1⟩
      · obtain ⟨n2, hn2⟩ : ∃ n2, n = n2 + 1 := ⟨n - 1, by omega⟩
        subst hn2
        obtain ⟨hc2, -⟩ := hall (j + 2) (by omega) (by omega)
        obtain ⟨c, r, h2⟩ := complete_ne_nil _ _ hc2
        have hflat2 : flatFrom T (j + 1 + 1) (n2 + 1) = T (j + 2) ++ flatFrom T (j + 2 + 1) n2 :=
          rfl
        have hj8 : j < 8 := by omega
        rw [hflat2, h1, h2]
        simp [scoreFn, hj9, hj8, h0, h1, h2, strikeOf, pinAt]
      · rw [h1]
        simp [scoreFn, hj9, h0, h1, strikeOf, pinAt]
    · have h9 : j + 1 = 9 := by omega
      rw [h9] at hs1 hc1
      rcases tenth_complete_cases (T 9) hs1 hc1 with ⟨a1, b1, c1, -, h1⟩ | ⟨a1, b1, -, -, h1⟩
      · rw [h9, h1]
        have h1b : T (j + 1) = [a1, b1, c1] := by rw [h9]; exact h1
        simp [scoreFn, hj9, h0, h1b, strikeOf, pinAt]
      · rw [h9, h1]
        have h1b : T (j + 1) = [a1, b1] := by rw [h9]; exact h1
        simp [scoreFn, hj9, h0, h1b, strikeOf, pinAt]
  · right
    refine ⟨a, b, ha, h0, ?_⟩
    obtain ⟨c, r, h1⟩ := complete_ne_nil _ _ hc1
    rw [hflat, h1]
    by_cases hsp : a + b = 10
    · simp [scoreFn, hj9, h0, h1, strikeOf, spareOf, pinAt, ha, hsp]
    · simp [scoreFn, hj9, h0, h1, strikeOf, spareOf, completeOf, sumPins, pinAt, ha, hsp]

theorem sumFrom_official (T : Nat → List Int) (n : Nat) :
    ∀ j, j + n = 9 →
      (∀ i, j ≤ i → i ≤ 9 → completeOf i (T i) = true ∧ shapeOf i (T i)) →
      sumFrom T j (n + 1) = officialScore (n + 1) (flatFrom T j (n + 1)) := by
  induction n with
  | zero =>
    intro j hj hall
    have h9 : j = 9 := by omega
    subst h9
    obtain ⟨hc, hs⟩ := hall 9 (le_refl 9) (le_refl 9)
    rcases tenth_complete_cases (T 9) hs hc with ⟨a, b, c, hab, h⟩ | ⟨a, b, ha, hab, h⟩ <;>
      rw [h] at hc
    · by_cases ha : a = 10
      · subst ha
        simp [sumFrom, flatFrom, officialScore, scoreFn, hc, h, sumPins, pinAt]
      · have hb : a + b = 10 := hab.resolve_left ha
        simp [sumFrom, flatFrom, officialScore, scoreFn, hc, h, sumPins, pinAt, ha, hb]
    · simp [sumFrom, flatFrom, officialScore, scoreFn, hc, h, sumPins, pinAt, ha, hab]
  | succ n ih =>
    intro j hj hall
    have hih := ih (j + 1) (by omega) (fun i hi h9 => hall i (by omega) h9)
    have hsum : sumFrom T j (n + 1 + 1) = (scoreFn T j).getD 0 + sumFrom T (j + 1) (n + 1) := rfl
    have hflat : flatFrom T j (n + 1 + 1) = T j ++ flatFrom T (j + 1) (n + 1) := rfl
    rw [hsum, hflat, hih]
    rcases frame_score_flat T n j (by omega) hall with ⟨h0, hsc⟩ | ⟨a, b, ha, h0, hsc⟩
    · rw [h0, hsc]
      simp [officialScore]
    · rw [h0, hsc]
      by_cases hsp : a + b = 10
      · simp [officialScore, ha, hsp]
      · simp [officialScore, ha, hsp]

theorem canon_complete_all (g : Game) (hg : Canon g) (hc : g.isComplete = true) (m : Nat) :
    ∀ i, i + m = 9 → completeOf i (throwsAt g.frames i) = true := by
  induction m with
  | zero =>
    intro i hi
    have h9 : i = 9 := by omega
    rw [h9, ← hg.complete, hc]
  | succ m ih =>
    intro i hi
    have h1 := ih (i + 1) (by omega)
    obtain ⟨a, r, hne⟩ := complete_ne_nil _ _ h1
    exact hg.seq i (by omega) (by rw [hne]; simp)

theorem canon_total_sumFrom (g : Game) (hg : Canon g) :
    g.totalScore = sumFrom (throwsAt g.frames) 0 10 := by
  have hsc : ∀ i, i < 10 → scoreValue (g.frames.getD i (newFrame 0)) =
      (scoreFn (throwsAt g.frames) i).getD 0 := by
    intro i hi
    obtain ⟨f, hf⟩ : ∃ f, g.frames[i]? = some f :=
      ⟨_, List.getElem?_eq_getElem (by rw [hg.len]; exact hi)⟩
    rw [List.getD_eq_getElem?_getD, hf, ← (hg.frame i f hf).2]
    simp only [Option.getD_some, scoreValue]
    cases f.score <;> rfl
  rw [hg.total]
  obtain ⟨f0, f1, f2, f3, f4, f5, f6, f7, f8, f9, hfs⟩ := length_ten _ hg.len
  have e0 := hsc 0 (by omega)
  have e1 := hsc 1 (by omega)
  have e2 := hsc 2 (by omega)
  have e3 := hsc 3 (by omega)
  have e4 := hsc 4 (by omega)
  have e5 := hsc 5 (by omega)
  have e6 := hsc 6 (by omega)
  have e7 := hsc 7 (by omega)
  have e8 := hsc 8 (by omega)
  have e9 := hsc 9 (by omega)
  simp only [sumFrom, ← e0, ← e1, ← e2, ← e3, ← e4, ← e5, ← e6, ← e7, ← e8, ← e9]
  rw [hfs]
  simp only [List.map_cons, List.map_nil, List.sum_cons, List.sum_nil, List.getD_cons_zero,
    List.getD_cons_succ]

theorem canon_flat (g : Game) (hg : Canon g) :
    (g.frames.map (fun f => f.throws)).flatten = flatFrom (throwsAt g.frames) 0 10 := by
  obtain ⟨f0, f1, f2, f3, f4, f5, f6, f7, f8, f9, hfs⟩ := length_ten _ hg.len
  rw [hfs]
  simp [flatFrom, throwsAt]

/-! ## Recording the throws of a legal game frame by frame -/

/-- One throw recorded while frame `j` is the first open frame: it is accepted and
appended to frame `j`. -/
theorem recordThrow_at (s : ScoringSystem) (g : Game) (p : Int) (j : Nat) (hs : SysCanon s)
    (hg : s.getCurrentGame = some g) (hj : j < 10)
    (hbefore : ∀ i, i < j → completeOf i (throwsAt g.frames i) = true)
    (hopen : completeOf j (throwsAt g.frames j) = false)
    (hafter : ∀ i, j < i → throwsAt g.frames i = []) :
    ∃ s2 g2, s.recordThrow p = some (true, s2) ∧ SysCanon s2 ∧ s2.getCurrentGame = some g2 ∧
      Canon g2 ∧ throwsAt g2.frames = pushAt (throwsAt g.frames) j p := by
  obtain ⟨g1, hg1, hcan, hcase⟩ := recordThrow_sysCanon s p hs
  rw [hg] at hg1
  cases hg1
  have h9 : completeOf 9 (throwsAt g.frames 9) = false := by
    by_cases hj9 : j = 9
    · rw [← hj9]; exact hopen
    · rw [hafter 9 (by omega)]; exact completeOf_nil 9
  rcases hcase with ⟨hc, -⟩ | ⟨-, k, g2, -, -, hko, hkb, hr, hcan2, hs2, hg2, hT, -⟩
  · rw [hcan.complete, h9] at hc
    cases hc
  · have hkj : k = j := by
      rcases Nat.lt_trichotomy k j with h | h | h
      · rw [hbefore k h] at hko; cases hko
      · exact h
      · have := hkb j h
        rw [hopen] at this
        cases this
    subst hkj
    exact ⟨_, g2, hr, hs2, hg2, hcan2, hT⟩

theorem recordThrows_cons (s s2 : ScoringSystem) (p : Int) (rest : List Int) (b : Bool)
    (h : s.recordThrow p = some (b, s2)) :
    s.recordThrows (p :: rest) = s2.recordThrows rest := by
  simp [ScoringSystem.recordThrows, h]

theorem pushAt_self (T : Nat → List Int) (j : Nat) (p : Int) :
    pushAt T j p j = T j ++ [p] := by
  simp [pushAt]

theorem pushAt_other (T : Nat → List Int) (j i : Nat) (p : Int) (h : i ≠ j) :
    pushAt T j p i = T i := by
  simp [pushAt, h]

/-- The throws of a legal game from frame `j + 1` on, recorded on a state whose frames
before `j` are complete and whose other frames are empty, are all accepted, fill the
frames from `j` on in order and complete the game. -/
theorem record_legal (n : Nat) :
    ∀ (j : Nat) (ts : List Int) (s : ScoringSystem) (g : Game), j + n = 9 →
      legalGame n ts = true → SysCanon s → s.getCurrentGame = some g →
      (∀ i, i < j → completeOf i (throwsAt g.frames i) = true) →
      (∀ i, j ≤ i → throwsAt g.frames i = []) →
      ∃ s2 g2, s.recordThrows ts = some s2 ∧ s2.getCurrentGame = some g2 ∧ Canon g2 ∧
        g2.isComplete = true ∧ flatFrom (throwsAt g2.frames) j (n + 1) = ts ∧
        (∀ i, i < j → throwsAt g2.frames i = throwsAt g.frames i) := by
  induction n with
  | zero =>
    intro j ts s g hj hlegal hs hg hbefore hafter
    have h9 : j = 9 := by omega
    subst h9
    have hopen0 : completeOf 9 (throwsAt g.frames 9) = false := by
      rw [hafter 9 (le_refl 9)]; exact completeOf_nil 9
    have hafter0 : ∀ i, 9 < i → throwsAt g.frames i = [] := fun i hi => hafter i (by omega)
    have h90 : throwsAt g.frames 9 = [] := hafter 9 (le_refl 9)
    match ts, hlegal with
    | [a, b], hlegal =>
      simp only [legalGame, Bool.and_eq_true, decide_eq_true_eq] at hlegal
      obtain ⟨⟨⟨-, -⟩, ha⟩, hab⟩ := hlegal
      obtain ⟨s1, g1, hr1, hs1, hg1, hc1, hT1⟩ :=
        recordThrow_at s g a 9 hs hg (by omega) hbefore hopen0 hafter0
      have e1 : throwsAt g1.frames 9 = [a] := by rw [hT1, pushAt_self, h90]; rfl
      obtain ⟨s2, g2, hr2, hs2, hg2, hc2, hT2⟩ :=
        recordThrow_at s1 g1 b 9 hs1 hg1 (by omega)
          (fun i hi => by rw [hT1, pushAt_other _ _ _ _ (by omega)]; exact hbefore i hi)
          (by rw [e1]; simp [completeOf])
          (fun i hi => by rw [hT1, pushAt_other _ _ _ _ (by omega)]; exact hafter0 i hi)
      have e2 : throwsAt g2.frames 9 = [a, b] := by rw [hT2, pushAt_self, e1]; rfl
      refine ⟨s2, g2, ?_, hg2, hc2, ?_, ?_, ?_⟩
      · rw [recordThrows_cons s s1 a [b] true hr1, recordThrows_cons s1 s2 b [] true hr2]
        rfl
      · rw [hc2.complete, e2]
        simp [completeOf, pinAt, ha, hab]
      · simp [flatFrom, e2]
      · intro i hi
        rw [hT2, pushAt_other _ _ _ _ (by omega), hT1, pushAt_other _ _ _ _ (by omega)]
    | [a, b, c], hlegal =>
      simp only [legalGame, Bool.and_eq_true, Bool.or_eq_true, decide_eq_true_eq] at hlegal
      obtain ⟨-, hab⟩ := hlegal
      obtain ⟨s1, g1, hr1, hs1, hg1, hc1, hT1⟩ :=
        recordThrow_at s g a 9 hs hg (by omega) hbefore hopen0 hafter0
      have e1 : throwsAt g1.frames 9 = [a] := by rw [hT1, pushAt_self, h90]; rfl
      obtain ⟨s2, g2, hr2, hs2, hg2, hc2, hT2⟩ :=
        recordThrow_at s1 g1 b 9 hs1 hg1 (by omega)
          (fun i hi => by rw [hT1, pushAt_other _ _ _ _ (by omega)]; exact hbefore i hi)
          (by rw [e1]; simp [completeOf])
          (fun i hi => by rw [hT1, pushAt_other _ _ _ _ (by omega)]; exact hafter0 i hi)
      have e2 : throwsAt g2.frames 9 = [a, b] := by rw [hT2, pushAt_self, e1]; rfl
      obtain ⟨s3, g3, hr3, hs3, hg3, hc3, hT3⟩ :=
        recordThrow_at s2 g2 c 9 hs2 hg2 (by omega)
          (fun i hi => by
            rw [hT2, pushAt_other _ _ _ _ (by omega), hT1, pushAt_other _ _ _ _ (by omega)]
            exact hbefore i hi)
          (by
            rw [e2]
            rcases hab with h | h
            · simp [completeOf, pinAt, h]
            · simp [completeOf, pinAt, h])
          (fun i hi => by
            rw [hT2, pushAt_other _ _ _ _ (by omega), hT1, pushAt_other _ _ _ _ (by omega)]
            exact hafter0 i hi)
      have e3 : throwsAt g3.frames 9 = [a, b, c] := by rw [hT3, pushAt_self, e2]; rfl
      refine ⟨s3, g3, ?_, hg3, hc3, ?_, ?_, ?_⟩
      · rw [recordThrows_cons s s1 a [b, c] true hr1, recordThrows_cons s1 s2 b [c] true hr2,
          recordThrows_cons s2 s3 c [] true hr3]
        rfl
      · rw [hc3.complete, e3]
        simp [completeOf]
      · simp [flatFrom, e3]
      · intro i hi
        rw [hT3, pushAt_other _ _ _ _ (by omega), hT2, pushAt_other _ _ _ _ (by omega), hT1,
          pushAt_other _ _ _ _ (by omega)]
  | succ n ih =>
    intro j ts s g hj hlegal hs hg hbefore hafter
    have hj9 : j < 9 := by omega
    have hopen0 : completeOf j (throwsAt g.frames j) = false := by
      rw [hafter j (le_refl j)]; exact completeOf_nil j
    have hafter0 : ∀ i, j < i → throwsAt g.frames i = [] := fun i hi => hafter i (by omega)
    have hj0 : throwsAt g.frames j = [] := hafter j (le_refl j)
    match ts, hlegal with
    | a :: rest, hlegal =>
      obtain ⟨s1, g1, hr1, hs1, hg1, hc1, hT1⟩ :=
        recordThrow_at s g a j hs hg (by omega) hbefore hopen0 hafter0
      have e1 : throwsAt g1.frames j = [a] := by rw [hT1, pushAt_self, hj0]; rfl
      have hb1 : ∀ i, i < j → completeOf i (throwsAt g1.frames i) = true := fun i hi => by
        rw [hT1, pushAt_other _ _ _ _ (by omega)]; exact hbefore i hi
      have ha1 : ∀ i, j < i → throwsAt g1.frames i = [] := fun i hi => by
        rw [hT1, pushAt_other _ _ _ _ (by omega)]; exact hafter0 i hi
      have hk1 : ∀ i, i < j → throwsAt g1.frames i = throwsAt g.frames i := fun i hi => by
        rw [hT1, pushAt_other _ _ _ _ (by omega)]
      by_cases ha : a = 10
      · subst ha
        simp only [legalGame, if_true] at hlegal
        obtain ⟨s2, g2, hr2, hg2, hc2, hcomp2, hflat2, hkeep2⟩ :=
          ih (j + 1) rest s1 g1 (by omega) hlegal hs1 hg1
            (fun i hi => by
              by_cases hij : i = j
              · rw [hij, e1]; simp [completeOf, hj9]
              · exact hb1 i (by omega))
            (fun i hi => ha1 i (by omega))
        refine ⟨s2, g2, ?_, hg2, hc2, hcomp2, ?_, ?_⟩
        · rw [recordThrows_cons s s1 10 rest true hr1]
          exact hr2
        · have hfl : flatFrom (throwsAt g2.frames) j (n + 1 + 1) =
              throwsAt g2.frames j ++ flatFrom (throwsAt g2.frames) (j + 1) (n + 1) := rfl
          rw [hfl, hflat2, hkeep2 j (by omega), e1]
          rfl
        · intro i hi
          rw [hkeep2 i (by omega), hk1 i hi]
      · match rest, hlegal with
        | [], hlegal => simp [legalGame, ha] at hlegal
        | b :: rest2, hlegal =>
          simp only [legalGame, ha, if_false, Bool.and_eq_true] at hlegal
          obtain ⟨-, hlegal2⟩ := hlegal
          obtain ⟨s2, g2, hr2, hs2, hg2, hc2, hT2⟩ :=
            recordThrow_at s1 g1 b j hs1 hg1 (by omega) hb1
              (by rw [e1]; simp [completeOf, hj9, ha]) ha1
          have e2 : throwsAt g2.frames j = [a, b] := by rw [hT2, pushAt_self, e1]; rfl
          obtain ⟨s3, g3, hr3, hg3, hc3, hcomp3, hflat3, hkeep3⟩ :=
            ih (j + 1) rest2 s2 g2 (by omega) hlegal2 hs2 hg2
              (fun i hi => by
                by_cases hij : i = j
                · rw [hij, e2]; simp [completeOf, hj9]
                · rw [hT2, pushAt_other _ _ _ _ hij]
                  exact hb1 i (by omega))
              (fun i hi => by
                rw [hT2, pushAt_other _ _ _ _ (by omega)]
                exact ha1 i (by omega))
          refine ⟨s3, g3, ?_, hg3, hc3, hcomp3, ?_, ?_⟩
          · rw [recordThrows_cons s s1 a (b :: rest2) true hr1,
              recordThrows_cons s1 s2 b rest2 true hr2]
            exact hr3
          · have hfl : flatFrom (throwsAt g3.frames) j (n + 1 + 1) =
                throwsAt g3.frames j ++ flatFrom (throwsAt g3.frames) (j + 1) (n + 1) := rfl
            rw [hfl, hflat3, hkeep3 j (by omega), e2]
            rfl
          · intro i hi
            rw [hkeep3 i (by omega), hT2, pushAt_other _ _ _ _ (by omega), hk1 i hi]

/-! ## Auxiliary facts about frames in closed form -/

theorem canon_get (g : Game) (hg : Canon g) (i : Nat) (hi : i < 10) :
    ∃ f, g.frames[i]? = some f ∧ FlagsCanon i f ∧ f.throws = throwsAt g.frames i ∧
      f.score = scoreFn (throwsAt g.frames) i := by
  obtain ⟨f, hf⟩ : ∃ f, g.frames[i]? = some f :=
    ⟨_, List.getElem?_eq_getElem (by rw [hg.len]; exact hi)⟩
  exact ⟨f, hf, (hg.frame i f hf).1, (throwsAt_of_get _ _ _ hf).symm, (hg.frame i f hf).2⟩

theorem regular_frame_cases (i : Nat) (t : List Int) (hi : i < 9) (hs : shapeOf i t) :
    t = [] ∨ (∃ a, t = [a]) ∨ ∃ a b, a ≠ 10 ∧ t = [a, b] := by
  simp only [shapeOf, hi, if_true] at hs
  match t, hs with
  | [], _ => exact Or.inl rfl
  | [a], _ => exact Or.inr (Or.inl ⟨a, rfl⟩)
  | [a, b], hs => exact Or.inr (Or.inr ⟨a, b, by simpa [pinAt] using hs.2 rfl, rfl⟩)
  | a :: b :: c :: r, hs => simp at hs

/-! ## Frames are filled in order -/

theorem canon_earlier_complete (g : Game) (hg : Canon g) (j : Nat) :
    j < 10 → throwsAt g.frames j ≠ [] →
      ∀ i, i < j → completeOf i (throwsAt g.frames i) = true := by
  induction j with
  | zero => intro _ _ i hi; exact absurd hi (Nat.not_lt_zero i)
  | succ j ih =>
    intro hj hne i hi
    have hcj : completeOf j (throwsAt g.frames j) = true := hg.seq j (by omega) hne
    by_cases hij : i = j
    · rw [hij]; exact hcj
    · obtain ⟨a, r, hnj⟩ := complete_ne_nil _ _ hcj
      exact ih (by omega) (by rw [hnj]; simp) i (by omega)

/-! ## What `recordThrow` leaves alone -/

theorem recordThrow_result (s : ScoringSystem) (p : Int) (r : Bool × ScoringSystem)
    (h : s.recordThrow p = some r) : r.2 = s ∨ ∃ g, r.2 = s.setCurrentGame g := by
  cases hg : s.getCurrentGame with
  | none => simp [ScoringSystem.recordThrow, hg] at h
  | some g =>
    rw [recordThrow_eq_recordGame s g p hg] at h
    cases hr : recordGame g p with
    | none => simp [hr] at h
    | some q =>
      rw [hr] at h
      simp only [Option.map_some', Option.some.injEq] at h
      rw [← h]
      by_cases hq : q.1 = true
      · right; exact ⟨q.2, by simp [hq]⟩
      · left; simp [hq]

theorem recordThrow_frame (s : ScoringSystem) (p : Int) (r : Bool × ScoringSystem)
    (h : s.recordThrow p = some r) :
    r.2.currentGameIndex = s.currentGameIndex ∧ r.2.maxGames = s.maxGames ∧
      r.2.games.length = s.games.length ∧
      ∀ i, i ≠ s.currentGameIndex → r.2.games[i]? = s.games[i]? := by
  rcases recordThrow_result s p r h with h1 | ⟨g, h1⟩
  · rw [h1]; exact ⟨rfl, rfl, rfl, fun _ _ => rfl⟩
  · rw [h1]
    refine ⟨rfl, rfl, by simp [ScoringSystem.setCurrentGame], ?_⟩
    intro i hi
    simp only [ScoringSystem.setCurrentGame, List.getElem?_set]
    rw [if_neg (fun e => hi e.symm)]

theorem reachable_maxGames (s : ScoringSystem) (h : Reachable s) : s.maxGames = 3 := by
  induction h with
  | new => rfl
  | recordThrow s p r _ hr ih => rw [(recordThrow_frame s p r hr).2.1]; exact ih
  | startNextGame s _ ih =>
    unfold ScoringSystem.startNextGame
    split
    · exact ih
    · exact ih
  | reset s _ ih => exact ih

/-! ## Rounding -/

theorem mathRound_eq_floor (num : Int) (den : Nat) (hden : 0 < den) :
    mathRound num den = ⌊(num : ℚ) / (den : ℚ) + 1 / 2⌋ := by
  have hq : (num : ℚ) / (den : ℚ) + 1 / 2 = ((2 * num + den : ℤ) : ℚ) / ((2 * den : ℕ) : ℚ) := by
    have hd : (den : ℚ) ≠ 0 := by exact_mod_cast (Nat.pos_iff_ne_zero.mp hden)
    push_cast
    field_simp
    ring
  rw [hq, Rat.floor_intCast_div_natCast]
  simp [mathRound]

theorem mathRound_one (num : Int) : mathRound num 1 = num := by
  unfold mathRound
  omega

theorem mathRound_le (num : Int) (den : Nat) (b : Int) (hden : 0 < den)
    (h : num ≤ b * den) : mathRound num den ≤ b := by
  unfold mathRound
  have hpos : (0 : Int) < 2 * (den : Int) := by omega
  have hlt : 2 * num + den < (b + 1) * (2 * (den : Int)) := by nlinarith
  have := Int.ediv_lt_of_lt_mul hpos hlt
  omega

theorem foldl_totalScore (l : List Game) (a : Int) :
    l.foldl (fun sum game => sum + game.totalScore) a =
      a + (l.map (fun g => g.totalScore)).sum := by
  induction l generalizing a with
  | nil => simp
  | cons g r ih => simp [List.foldl_cons, ih, add_assoc]

/-! ## Bounds on the scores -/

theorem pinAt_bounds (t : List Int) (k : Nat) (h : ∀ x, x ∈ t → 0 ≤ x ∧ x ≤ 10) :
    0 ≤ pinAt t k ∧ pinAt t k ≤ 10 := by
  unfold pinAt
  rw [List.getD_eq_getElem?_getD]
  cases hk : t[k]? with
  | none => simp
  | some x =>
    have hx : x ∈ t := by
      obtain ⟨hlt, hx⟩ := List.getElem?_eq_some.mp hk
      rw [← hx]; exact List.getElem_mem _
    simpa using h x hx

theorem foldl_pins_le (t : List Int) (a : Int) (h : ∀ x, x ∈ t → x ≤ 10) :
    t.foldl (fun sum pins => sum + pins) a ≤ a + 10 * t.length := by
  induction t generalizing a with
  | nil => simp
  | cons x r ih =>
    have hx := h x (List.mem_cons_self _ _)
    have hr := ih (a + x) (fun y hy => h y (List.mem_cons_of_mem _ hy))
    simp only [List.foldl_cons, List.length_cons]
    push_cast
    linarith

theorem sumPins_le (t : List Int) (h : ∀ x, x ∈ t → x ≤ 10) : sumPins t ≤ 10 * t.length := by
  have := foldl_pins_le t 0 h
  unfold sumPins
  linarith

theorem scoreFn_le (T : Nat → List Int) (i : Nat) (v : Int) (hs : shapeOf i (T i))
    (hb : ∀ j x, x ∈ T j → 0 ≤ x ∧ x ≤ 10) (h : scoreFn T i = some v) : v ≤ 30 := by
  have hp := fun j k => pinAt_bounds (T j) k (hb j)
  have hlen : (T i).length ≤ 3 := by
    unfold shapeOf at hs
    split at hs <;> omega
  have hsum : sumPins (T i) ≤ 30 := by
    have h1 := sumPins_le (T i) (fun x hx => (hb i x hx).2)
    have h2 : ((T i).length : Int) ≤ 3 := by exact_mod_cast hlen
    linarith
  have h1 := hp (i + 1) 0
  have h2 := hp (i + 1) 1
  have h3 := hp (i + 2) 0
  unfold scoreFn at h
  split_ifs at h <;> simp only [Option.some.injEq] at h <;> omega

theorem canon_scores_le (g : Game) (hg : Canon g)
    (hb : ∀ i x, x ∈ throwsAt g.frames i → 0 ≤ x ∧ x ≤ 10) :
    (∀ f, f ∈ g.frames → ∀ v, f.score = some v → v ≤ 30) ∧ g.totalScore ≤ 300 := by
  have hle : ∀ i, i < 10 → (scoreFn (throwsAt g.frames) i).getD 0 ≤ 30 := by
    intro i hi
    cases hv : scoreFn (throwsAt g.frames) i with
    | none => simp
    | some v => simpa using scoreFn_le _ i v (canon_shape g hg i hi) hb hv
  constructor
  · intro f hf v hv
    obtain ⟨i, hi, hif, -⟩ := canon_mem g hg f hf
    rw [(hg.frame i f hif).2] at hv
    exact scoreFn_le _ i v (canon_shape g hg i hi) hb hv
  · rw [canon_total_sumFrom g hg]
    have e0 := hle 0 (by omega)
    have e1 := hle 1 (by omega)
    have e2 := hle 2 (by omega)
    have e3 := hle 3 (by omega)
    have e4 := hle 4 (by omega)
    have e5 := hle 5 (by omega)
    have e6 := hle 6 (by omega)
    have e7 := hle 7 (by omega)
    have e8 := hle 8 (by omega)
    have e9 := hle 9 (by omega)
    simp only [sumFrom]
    linarith

theorem sum_totalScore_le (l : List Game) (h : ∀ g, g ∈ l → g.totalScore ≤ 300) :
    (l.map (fun g => g.totalScore)).sum ≤ 300 * l.length := by
  induction l with
  | nil => simp
  | cons g r ih =>
    have hg := h g (List.mem_cons_self _ _)
    have hr := ih (fun x hx => h x (List.mem_cons_of_mem _ hx))
    simp only [List.map_cons, List.sum_cons, List.length_cons]
    push_cast
    linarith

theorem get3GameAverage_le (s : ScoringSystem) (h : ∀ g, g ∈ s.games → g.totalScore ≤ 300) :
    s.get3GameAverage ≤ 300 := by
  unfold ScoringSystem.get3GameAverage
  split
  · omega
  · simp only
    split
    · omega
    · rename_i hc
      rw [foldl_totalScore, zero_add]
      apply mathRound_le _ _ 300 (Nat.pos_of_ne_zero hc)
      apply sum_totalScore_le
      intro g hg
      exact h g (List.mem_of_mem_filter hg)

theorem sysCanon_average_le (s : ScoringSystem) (hs : SysCanon s)
    (hb : PinsIn (fun x => 0 ≤ x ∧ x ≤ 10) s) : s.get3GameAverage ≤ 300 :=
  get3GameAverage_le s (fun g hg => (canon_scores_le g (hs.games g hg) (hb g hg)).2)

/-! ## One recorded throw keeps the pin counts in range -/

theorem recordThrow_pinsIn (P : Int → Prop) (s : ScoringSystem) (p : Int) (hs : SysCanon s)
    (hb : PinsIn P s) (hp : P p) :
    ∃ r, s.recordThrow p = some r ∧ SysCanon r.2 ∧ PinsIn P r.2 := by
  obtain ⟨g, hg, -, hcase⟩ := recordThrow_sysCanon s p hs
  have hgm : g ∈ s.games := by
    unfold ScoringSystem.getCurrentGame at hg
    obtain ⟨hlt, hx⟩ := List.getElem?_eq_some.mp hg
    rw [← hx]; exact List.getElem_mem _
  rcases hcase with ⟨-, hr⟩ | ⟨-, k, g2, -, -, -, -, hr, -, hs2, -, hT, -⟩
  · exact ⟨_, hr, hs, hb⟩
  · refine ⟨_, hr, hs2, ?_⟩
    intro g1 hg1 i x hx
    simp only [ScoringSystem.setCurrentGame] at hg1
    rcases List.mem_or_eq_of_mem_set hg1 with h | h
    · exact hb g1 h i x hx
    · rw [h, hT] at hx
      rcases mem_pushAt _ _ _ _ _ hx with h2 | h2
      · exact hb g hgm i x h2
      · rw [h2]; exact hp

theorem sysCanon_getCurrentFrame (s : ScoringSystem) (hs : SysCanon s) :
    ∃ f, s.getCurrentFrame = some (some f) := by
  obtain ⟨g, hg, hcan⟩ := sysCanon_current s hs
  unfold ScoringSystem.getCurrentFrame
  rw [hg]
  simp only
  unfold currentFrameIndex
  cases hfind : g.frames.findIdx? (fun f => !f.isComplete) with
  | none =>
    have h9 : 9 < g.frames.length := by rw [hcan.len]; omega
    simp only [h9, if_true]
    exact ⟨g.frames[9], by rw [List.getElem?_eq_getElem h9]⟩
  | some i =>
    simp only
    rw [List.findIdx?_eq_some_iff_findIdx_eq] at hfind
    exact ⟨g.frames[i], by rw [List.getElem?_eq_getElem hfind.1]⟩

/-! ## The scorekeeper -/

theorem setScoringSystem_get (m : MultiPlayerScoring) (i j : Nat) (s : ScoringSystem) :
    (m.setScoringSystem i s).players[j]? =
      (m.players[j]?).map (fun p => if i = j then { p with scoringSystem := s } else p) := by
  simp only [MultiPlayerScoring.setScoringSystem, List.getElem?_modify]
  rfl

theorem setScoringSystem_length (m : MultiPlayerScoring) (i : Nat) (s : ScoringSystem) :
    (m.setScoringSystem i s).players.length = m.players.length := by
  simp [MultiPlayerScoring.setScoringSystem]

theorem moveToNextPlayer_players (m m2 : MultiPlayerScoring)
    (h : m.moveToNextPlayer = some m2) :
    m2.players = m.players ∧ m2.mode = m.mode ∧
      (m2.currentPlayerIndex = m.currentPlayerIndex ∨
        m2.currentPlayerIndex = (m.currentPlayerIndex + 1) % m.players.length) := by
  unfold MultiPlayerScoring.moveToNextPlayer at h
  split at h
  · cases h
  · split at h
    · cases h
    · cases h
    · split at h
      · cases h; exact ⟨rfl, rfl, Or.inr rfl⟩
      · cases h; exact ⟨rfl, rfl, Or.inl rfl⟩

/-- What `MultiPlayerScoring.recordThrow` returns: the scoring system of the player at
the cursor is replaced by the result of its own `recordThrow` and the cursor stays or
moves to the next player. -/
theorem multi_recordThrow_result (m : MultiPlayerScoring) (p : Int)
    (r : Bool × MultiPlayerScoring) (h : m.recordThrow p = some r) :
    ∃ player q, m.getCurrentPlayer = some player ∧
      player.scoringSystem.recordThrow p = some q ∧ r.1 = q.1 ∧
      r.2.players = (m.setScoringSystem m.currentPlayerIndex q.2).players ∧
      r.2.mode = m.mode ∧
      (r.2.currentPlayerIndex = m.currentPlayerIndex ∨
        r.2.currentPlayerIndex = (m.currentPlayerIndex + 1) % m.players.length) := by
  unfold MultiPlayerScoring.recordThrow at h
  cases hpl : m.getCurrentPlayer with
  | none => simp [hpl] at h
  | some player =>
    cases hq : player.scoringSystem.recordThrow p with
    | none => simp [hpl, hq] at h
    | some q =>
      obtain ⟨recorded, s1⟩ := q
      simp only [hpl, hq] at h
      refine ⟨player, (recorded, s1), rfl, hq, ?_⟩
      split at h
      · split at h
        · cases h
        · cases h
        · split at h
          · split at h
            · cases h
            · rename_i m2 hm2
              cases h
              obtain ⟨e1, e2, e3⟩ := moveToNextPlayer_players _ m2 hm2
              refine ⟨rfl, e1, e2, ?_⟩
              rw [setScoringSystem_length] at e3
              exact e3
          · cases h
            exact ⟨rfl, rfl, rfl, Or.inl rfl⟩
      · cases h
        exact ⟨rfl, rfl, rfl, Or.inl rfl⟩

theorem multiCanon_set (P : Int → Prop) (m : MultiPlayerScoring) (s : ScoringSystem)
    (hm : MultiCanon P m) (hs : SysCanon s) (hb : PinsIn P s) :
    ∀ pl, pl ∈ (m.setScoringSystem m.currentPlayerIndex s).players →
      SysCanon pl.scoringSystem ∧ PinsIn P pl.scoringSystem := by
  intro pl hpl
  obtain ⟨j, hj, hjp⟩ := List.getElem_of_mem hpl
  have hget : (m.setScoringSystem m.currentPlayerIndex s).players[j]? = some pl := by
    rw [List.getElem?_eq_getElem hj, hjp]
  rw [setScoringSystem_get] at hget
  cases hold : m.players[j]? with
  | none => rw [hold] at hget; cases hget
  | some old =>
    rw [hold] at hget
    simp only [Option.map_some', Option.some.injEq] at hget
    have hmem : old ∈ m.players := by
      obtain ⟨hlt, hx⟩ := List.getElem?_eq_some.mp hold
      rw [← hx]; exact List.getElem_mem _
    by_cases hij : m.currentPlayerIndex = j
    · rw [if_pos hij] at hget
      rw [← hget]
      exact ⟨hs, hb⟩
    · rw [if_neg hij] at hget
      rw [← hget]
      exact hm.players old hmem

/-- One call of `MultiPlayerScoring.recordThrow` on a scorekeeper that satisfies the
invariant returns and keeps the invariant, the roster and the mode. -/
theorem multi_recordThrow_canon (P : Int → Prop) (m : MultiPlayerScoring) (p : Int)
    (hm : MultiCanon P m) (hp : P p) :
    ∃ r, m.recordThrow p = some r ∧ MultiCanon P r.2 ∧
      r.2.players.length = m.players.length ∧ r.2.mode = m.mode := by
  have hlt := hm.cursor
  obtain ⟨player, hpl⟩ : ∃ player, m.players[m.currentPlayerIndex]? = some player :=
    ⟨_, List.getElem?_eq_getElem hlt⟩
  have hmem : player ∈ m.players := by
    obtain ⟨h1, hx⟩ := List.getElem?_eq_some.mp hpl
    rw [← hx]; exact List.getElem_mem _
  obtain ⟨hs, hb⟩ := hm.players player hmem
  obtain ⟨q, hq, hs1, hb1⟩ := recordThrow_pinsIn P player.scoringSystem p hs hb hp
  obtain ⟨f, hf⟩ := sysCanon_getCurrentFrame q.2 hs1
  have hall := multiCanon_set P m q.2 hm hs1 hb1
  have hlen := setScoringSystem_length m m.currentPlayerIndex q.2
  have hcur1 : (m.setScoringSystem m.currentPlayerIndex q.2).getCurrentPlayer =
      some { player with scoringSystem := q.2 } := by
    unfold MultiPlayerScoring.getCurrentPlayer
    have : (m.setScoringSystem m.currentPlayerIndex q.2).currentPlayerIndex =
        m.currentPlayerIndex := rfl
    rw [this, setScoringSystem_get, hpl]
    simp
  have hmod : (m.currentPlayerIndex + 1) % m.players.length < m.players.length :=
    Nat.mod_lt _ (by omega)
  obtain ⟨recorded, s1⟩ := q
  simp only at hs1 hb1 hf hall hlen hcur1
  unfold MultiPlayerScoring.recordThrow
  unfold MultiPlayerScoring.getCurrentPlayer
  simp only [hpl, hq]
  cases recorded with
  | false =>
    simp only [Bool.false_eq_true, if_false]
    exact ⟨_, rfl, ⟨by rw [hlen]; exact hlt, hall⟩, hlen, rfl⟩
  | true =>
    simp only [if_true, hf]
    cases hfc : f.isComplete with
    | false =>
      simp only [Bool.false_eq_true, if_false]
      exact ⟨_, rfl, ⟨by rw [hlen]; exact hlt, hall⟩, hlen, rfl⟩
    | true =>
      simp only [if_true]
      unfold MultiPlayerScoring.moveToNextPlayer
      rw [hcur1]
      simp only [hf, hfc, if_true]
      refine ⟨_, rfl, ⟨?_, hall⟩, hlen, rfl⟩
      simp only [hlen]
      exact hmod

theorem multi_new_players (mode : Mode) :
    (MultiPlayerScoring.new mode).players =
      (List.range (MultiPlayerScoring.playerCount mode)).map
        (fun i => Player.mk (MultiPlayerScoring.getPlayerName mode i) ScoringSystem.new) := by
  simp [MultiPlayerScoring.new, MultiPlayerScoring.initPlayers]

theorem pinsIn_new (P : Int → Prop) : PinsIn P ScoringSystem.new := by
  intro g hg i x hx
  simp [ScoringSystem.new, ScoringSystem.initNewGame] at hg
  rw [hg, throwsAt_newGame] at hx
  cases hx

theorem multiCanon_new (P : Int → Prop) (mode : Mode) :
    MultiCanon P (MultiPlayerScoring.new mode) := by
  refine ⟨?_, ?_⟩
  · rw [multi_new_players]
    have : (MultiPlayerScoring.new mode).currentPlayerIndex = 0 := rfl
    rw [this]
    cases mode <;> simp [MultiPlayerScoring.playerCount]
  · intro pl hpl
    rw [multi_new_players] at hpl
    simp only [List.mem_map, List.mem_range] at hpl
    obtain ⟨i, -, hi⟩ := hpl
    rw [← hi]
    exact ⟨sysCanon_new, pinsIn_new P⟩

/-- Recording any list of throws on a scorekeeper that satisfies the invariant returns a
scorekeeper that satisfies it, with the same roster size and mode. -/
theorem multi_recordThrows_canon (P : Int → Prop) (ts : List Int) :
    ∀ m : MultiPlayerScoring, MultiCanon P m → (∀ t, t ∈ ts → P t) →
      ∃ m2, m.recordThrows ts = some m2 ∧ MultiCanon P m2 ∧
        m2.players.length = m.players.length ∧ m2.mode = m.mode := by
  induction ts with
  | nil => intro m hm _; exact ⟨m, rfl, hm, rfl, rfl⟩
  | cons p rest ih =>
    intro m hm hts
    obtain ⟨r, hr, hm1, hl1, hmode1⟩ :=
      multi_recordThrow_canon P m p hm (hts p (List.mem_cons_self _ _))
    obtain ⟨m2, h2, hm2, hl2, hmode2⟩ :=
      ih r.2 hm1 (fun t ht => hts t (List.mem_cons_of_mem _ ht))
    refine ⟨m2, ?_, hm2, by rw [hl2, hl1], by rw [hmode2, hmode1]⟩
    simp only [MultiPlayerScoring.recordThrows, hr]
    exact h2

theorem foldl_average_le (l : List Player) (a : Int)
    (h : ∀ pl, pl ∈ l → pl.scoringSystem.get3GameAverage ≤ 300) :
    l.foldl (fun sum player => sum + player.scoringSystem.get3GameAverage) a ≤
      a + 300 * l.length := by
  induction l generalizing a with
  | nil => simp
  | cons x r ih =>
    have hx := h x (List.mem_cons_self _ _)
    have hr := ih (a + x.scoringSystem.get3GameAverage)
      (fun y hy => h y (List.mem_cons_of_mem _ hy))
    simp only [List.foldl_cons, List.length_cons]
    push_cast
    linarith

theorem multiCanon_combined_le (m : MultiPlayerScoring)
    (hm : MultiCanon (fun x => 0 ≤ x ∧ x ≤ 10) m) :
    m.getCombined3GameAverage ≤ 300 * m.players.length := by
  unfold MultiPlayerScoring.getCombined3GameAverage
  simp only [mathRound_one]
  have := foldl_average_le m.players 0
    (fun pl hpl => sysCanon_average_le _ (hm.players pl hpl).1 (hm.players pl hpl).2)
  linarith

/-! ## The guard of `handleThrowComplete` -/

theorem handleThrowComplete_guarded (c : GameController)
    (h : c.isResetting = true ∨ c.state.waitingForReset = true) :
    c.handleThrowComplete = some c := by
  unfold GameController.handleThrowComplete
  rcases h with h | h
  · simp [h]
  · simp [h]

theorem setTimeout_isResetting (c : GameController) (cb : Callback) (d : Nat) :
    (c.setTimeout cb d).isResetting = c.isResetting := rfl

theorem handle10thFrameReset_isResetting (c : GameController) (f : Frame) :
    (c.handle10thFrameReset f).isResetting = c.isResetting := by
  unfold GameController.handle10thFrameReset
  simp only
  split_ifs <;> rfl

theorem handleThrowComplete_sets_guard (c c1 : GameController)
    (h : c.handleThrowComplete = some c1) :
    c1.isResetting = true ∨ c1.state.waitingForReset = true := by
  unfold GameController.handleThrowComplete at h
  by_cases hg : (c.isResetting || c.state.waitingForReset) = true
  · rw [if_pos hg] at h
    cases h
    simpa using hg
  · rw [if_neg hg] at h
    left
    simp only at h
    split at h
    · cases h
    · split at h
      · cases h
      · cases h
      · split at h
        · cases h
        · split at h
          · cases h
          · split at h
            · cases h
            · split at h
              · cases h
              · split at h
                · cases h
                · split at h
                  · split at h
                    · cases h; rfl
                    · cases h; rfl
                  · cases h
                    rw [handle10thFrameReset_isResetting]

/-! ## Stability of the frame scores -/

theorem pinAt_nonneg (t : List Int) (k : Nat) (h : ∀ x, x ∈ t → 0 ≤ x) : 0 ≤ pinAt t k := by
  unfold pinAt
  rw [List.getD_eq_getElem?_getD]
  cases hk : t[k]? with
  | none => simp
  | some x =>
    have hx : x ∈ t := by
      obtain ⟨hlt, hx⟩ := List.getElem?_eq_some.mp hk
      rw [← hx]; exact List.getElem_mem _
    simpa using h x hx

theorem foldl_pins_nonneg (t : List Int) (a : Int) (h : ∀ x, x ∈ t → 0 ≤ x) :
    a ≤ t.foldl (fun sum pins => sum + pins) a := by
  induction t generalizing a with
  | nil => simp
  | cons x r ih =>
    have hx := h x (List.mem_cons_self _ _)
    have hr := ih (a + x) (fun y hy => h y (List.mem_cons_of_mem _ hy))
    simp only [List.foldl_cons]
    linarith

theorem scoreFn_nonneg (T : Nat → List Int) (i : Nat) (v : Int)
    (hb : ∀ j x, x ∈ T j → 0 ≤ x) (h : scoreFn T i = some v) : 0 ≤ v := by
  have hp := fun j k => pinAt_nonneg (T j) k (hb j)
  have hsum : 0 ≤ sumPins (T i) := foldl_pins_nonneg (T i) 0 (hb i)
  have h1 := hp (i + 1) 0
  have h2 := hp (i + 1) 1
  have h3 := hp (i + 2) 0
  unfold scoreFn at h
  split_ifs at h <;> simp only [Option.some.injEq] at h <;> omega

theorem sumFrom_mono (T T2 : Nat → List Int)
    (h : ∀ i v, scoreFn T i = some v → scoreFn T2 i = some v)
    (hb : ∀ j x, x ∈ T2 j → 0 ≤ x) : ∀ n j, sumFrom T j n ≤ sumFrom T2 j n := by
  intro n
  induction n with
  | zero => intro j; simp [sumFrom]
  | succ n ih =>
    intro j
    have hrest := ih (j + 1)
    have hj : (scoreFn T j).getD 0 ≤ (scoreFn T2 j).getD 0 := by
      cases hv : scoreFn T j with
      | some v => rw [h j v hv]
      | none =>
        cases hv2 : scoreFn T2 j with
        | none => simp
        | some v2 => simpa using scoreFn_nonneg T2 j v2 hb hv2
    simp only [sumFrom]
    linarith

theorem recordThrow_scores_kept (s : ScoringSystem) (p : Int) (hs : SysCanon s) :
    ∃ g r g2, s.getCurrentGame = some g ∧ s.recordThrow p = some r ∧ SysCanon r.2 ∧
      r.2.getCurrentGame = some g2 ∧ Canon g ∧ Canon g2 ∧
      r.2.currentGameIndex = s.currentGameIndex ∧
      (∀ i v, scoreFn (throwsAt g.frames) i = some v →
        scoreFn (throwsAt g2.frames) i = some v) ∧
      (∀ i x, x ∈ throwsAt g2.frames i → x ∈ throwsAt g.frames i ∨ x = p) := by
  obtain ⟨g, hg, hcan, h⟩ := recordThrow_sysCanon s p hs
  rcases h with ⟨-, hr⟩ | ⟨-, k, g2, -, -, -, -, hr, hcan2, hs2, hg2, hpush, hkeep⟩
  · exact ⟨g, (false, s), g, hg, hr, hs, hg, hcan, hcan, rfl, fun _ _ h => h,
      fun _ _ h => Or.inl h⟩
  · refine ⟨g, (true, s.setCurrentGame g2), g2, hg, hr, hs2, hg2, hcan, hcan2,
      (recordThrow_frame s p _ hr).1, hkeep, ?_⟩
    intro i x hx
    rw [hpush] at hx
    exact mem_pushAt _ k p i x hx

theorem recordThrows_scores_kept (us : List Int) :
    ∀ s : ScoringSystem, SysCanon s →
      ∃ g s2 g2, s.getCurrentGame = some g ∧ s.recordThrows us = some s2 ∧ SysCanon s2 ∧
        s2.getCurrentGame = some g2 ∧ Canon g ∧ Canon g2 ∧
        s2.currentGameIndex = s.currentGameIndex ∧
        (∀ i v, scoreFn (throwsAt g.frames) i = some v →
          scoreFn (throwsAt g2.frames) i = some v) ∧
        (∀ i x, x ∈ throwsAt g2.frames i → x ∈ throwsAt g.frames i ∨ x ∈ us) := by
  induction us with
  | nil =>
    intro s hs
    obtain ⟨g, hg, hcan⟩ := sysCanon_current s hs
    exact ⟨g, s, g, hg, rfl, hs, hg, hcan, hcan, rfl, fun _ _ h => h, fun _ _ h => Or.inl h⟩
  | cons p rest ih =>
    intro s hs
    obtain ⟨g, r, g1, hg, hr, hs1, hg1, hcan, -, hidx1, hkeep1, hmem1⟩ :=
      recordThrow_scores_kept s p hs
    obtain ⟨g1b, s2, g2, hg1b, hrest, hs2, hg2, -, hcan2, hidx2, hkeep2, hmem2⟩ := ih r.2 hs1
    rw [hg1] at hg1b
    obtain rfl := Option.some.inj hg1b
    refine ⟨g, s2, g2, hg, ?_, hs2, hg2, hcan, hcan2, hidx2.trans hidx1,
      fun i v h => hkeep2 i v (hkeep1 i v h), ?_⟩
    · obtain ⟨b, s1⟩ := r
      rw [recordThrows_cons s s1 p rest b hr]
      exact hrest
    · intro i x hx
      rcases hmem2 i x hx with h | h
      · rcases hmem1 i x h with h | h
        · exact Or.inl h
        · exact Or.inr (h ▸ List.mem_cons_self _ _)
      · exact Or.inr (List.mem_cons_of_mem _ h)

/-! ## The tally of knocked pins -/

theorem nodup_length_le (l : List Nat) (m : Nat) (hn : l.Nodup) (hb : ∀ i, i ∈ l → i < m) :
    l.length ≤ m := by
  have h1 : l.toFinset.card = l.length := List.toFinset_card_of_nodup hn
  have h2 : l.toFinset ⊆ Finset.range m := by
    intro i hi
    rw [List.mem_toFinset] at hi
    exact Finset.mem_range.mpr (hb i hi)
  have h3 := Finset.card_le_card h2
  rw [Finset.card_range] at h3
  omega

theorem foldl_knocked (down : PinBody → Bool) :
    ∀ (bodies : List PinBody) (n : Nat) (knockedPins : List Nat),
      ∃ added : List Nat,
        List.foldl
          (fun (knockedPins : List Nat) (entry : Nat × PinBody) =>
            if !knockedPins.contains entry.1 && down entry.2 then
              knockedPins ++ [entry.1]
            else knockedPins)
          knockedPins (bodies.enumFrom n) = knockedPins ++ added ∧
        added.Nodup ∧
        ∀ i, i ∈ added ↔
          (i ∉ knockedPins ∧ n ≤ i ∧ ∃ b, bodies[i - n]? = some b ∧ down b = true) := by
  intro bodies
  induction bodies with
  | nil =>
    intro n kp
    exact ⟨[], by simp, List.nodup_nil, by simp⟩
  | cons b rest ih =>
    intro n kp
    simp only [List.enumFrom_cons, List.foldl_cons]
    by_cases hstep : (!kp.contains n && down b) = true
    · rw [if_pos hstep]
      obtain ⟨added, hfold, hnodup, hmem⟩ := ih (n + 1) (kp ++ [n])
      simp only [Bool.and_eq_true, Bool.not_eq_true', List.contains_eq_any_beq,
        List.any_eq_false, beq_iff_eq] at hstep
      have hnkp : n ∉ kp := fun h => hstep.1 n h rfl
      refine ⟨n :: added, ?_, ?_, ?_⟩
      · rw [hfold]; simp
      · refine List.nodup_cons.mpr ⟨?_, hnodup⟩
        intro h
        have := ((hmem n).mp h).2.1
        omega
      · intro i
        rw [List.mem_cons, hmem i]
        constructor
        · rintro (rfl | ⟨h1, h2, b2, h3, h4⟩)
          · exact ⟨hnkp, le_refl _, b, by simp, hstep.2⟩
          · refine ⟨fun h => h1 (List.mem_append_left _ h), by omega, b2, ?_, h4⟩
            have e : i - n = (i - (n + 1)) + 1 := by omega
            rw [e, List.getElem?_cons_succ]
            exact h3
        · rintro ⟨h1, h2, b2, h3, h4⟩
          by_cases hi : i = n
          · exact Or.inl hi
          · right
            refine ⟨?_, by omega, b2, ?_, h4⟩
            · intro h
              rcases List.mem_append.mp h with h | h
              · exact h1 h
              · simp at h; exact hi h
            · have e : i - n = (i - (n + 1)) + 1 := by omega
              rw [e, List.getElem?_cons_succ] at h3
              exact h3
    · rw [if_neg hstep]
      obtain ⟨added, hfold, hnodup, hmem⟩ := ih (n + 1) kp
      refine ⟨added, hfold, hnodup, ?_⟩
      intro i
      rw [hmem i]
      constructor
      · rintro ⟨h1, h2, b2, h3, h4⟩
        refine ⟨h1, by omega, b2, ?_, h4⟩
        have e : i - n = (i - (n + 1)) + 1 := by omega
        rw [e, List.getElem?_cons_succ]
        exact h3
      · rintro ⟨h1, h2, b2, h3, h4⟩
        have hi : i ≠ n := by
          rintro rfl
          apply hstep
          simp only [Nat.sub_self, List.getElem?_cons_zero, Option.some.injEq] at h3
          subst h3
          simp only [Bool.and_eq_true, Bool.not_eq_true', List.contains_eq_any_beq,
            List.any_eq_false, beq_iff_eq]
          exact ⟨fun x hx hxe => h1 (hxe ▸ hx), h4⟩
        refine ⟨h1, by omega, b2, ?_, h4⟩
        have e : i - n = (i - (n + 1)) + 1 := by omega
        rw [e, List.getElem?_cons_succ] at h3
        exact h3

theorem checkKnockedPins_spec (c : GameController) (down : PinBody → Bool) :
    ∃ added : List Nat,
      c.checkKnockedPins down = { c with knockedPins := c.knockedPins ++ added } ∧
      added.Nodup ∧
      ∀ i, i ∈ added ↔
        (i ∉ c.knockedPins ∧ ∃ b, c.pinBodies[i]? = some b ∧ down b = true) := by
  unfold GameController.checkKnockedPins
  by_cases h0 : c.pinBodies.length = 0
  · rw [if_pos h0]
    refine ⟨[], by simp, List.nodup_nil, ?_⟩
    have hnil : c.pinBodies = [] := List.length_eq_zero.mp h0
    simp [hnil]
  · rw [if_neg h0]
    obtain ⟨added, hfold, hnodup, hmem⟩ := foldl_knocked down c.pinBodies 0 c.knockedPins
    refine ⟨added, ?_, hnodup, ?_⟩
    · simp only [List.enum]
      rw [hfold]
    · intro i
      rw [hmem i]
      simp

theorem checkKnockedPins_pinBodies (c : GameController) (down : PinBody → Bool) :
    (c.checkKnockedPins down).pinBodies = c.pinBodies := by
  obtain ⟨added, h, -, -⟩ := checkKnockedPins_spec c down
  rw [h]

theorem checkKnockedPins_keeps (c : GameController) (down : PinBody → Bool)
    (hn : c.knockedPins.Nodup) (hb : ∀ i, i ∈ c.knockedPins → i < c.pinBodies.length) :
    (c.checkKnockedPins down).knockedPins.Nodup ∧
      (∀ i, i ∈ (c.checkKnockedPins down).knockedPins → i < c.pinBodies.length) ∧
      (c.checkKnockedPins down).knockedPins.length ≤ c.pinBodies.length := by
  obtain ⟨added, h, hnodup, hmem⟩ := checkKnockedPins_spec c down
  have hk : (c.checkKnockedPins down).knockedPins = c.knockedPins ++ added := by rw [h]
  have h1 : (c.knockedPins ++ added).Nodup := by
    rw [List.nodup_append]
    refine ⟨hn, hnodup, ?_⟩
    intro i hi hia
    exact ((hmem i).mp hia).1 hi
  have h2 : ∀ i, i ∈ c.knockedPins ++ added → i < c.pinBodies.length := by
    intro i hi
    rcases List.mem_append.mp hi with hi | hi
    · exact hb i hi
    · obtain ⟨-, b, hget, -⟩ := (hmem i).mp hi
      exact (List.getElem?_eq_some.mp hget).1
  rw [hk]
  exact ⟨h1, h2, nodup_length_le _ _ h1 h2⟩

theorem checkKnockedPins_ticks (sensors : List (PinBody → Bool)) :
    ∀ c : GameController, c.knockedPins.Nodup →
      (∀ i, i ∈ c.knockedPins → i < c.pinBodies.length) →
      (∃ added, (sensors.foldl GameController.checkKnockedPins c).knockedPins =
        c.knockedPins ++ added) ∧
      (sensors.foldl GameController.checkKnockedPins c).pinBodies = c.pinBodies ∧
      (sensors.foldl GameController.checkKnockedPins c).knockedPins.Nodup ∧
      (sensors.foldl GameController.checkKnockedPins c).knockedPins.length ≤
        c.pinBodies.length := by
  induction sensors with
  | nil =>
    intro c hn hb
    exact ⟨⟨[], by simp⟩, rfl, hn, nodup_length_le _ _ hn hb⟩
  | cons down rest ih =>
    intro c hn hb
    obtain ⟨h1, h2, -⟩ := checkKnockedPins_keeps c down hn hb
    have hp := checkKnockedPins_pinBodies c down
    obtain ⟨⟨added2, ha2⟩, hp2, hn2, hl2⟩ := ih (c.checkKnockedPins down) h1 (by rw [hp]; exact h2)
    obtain ⟨added, h, -, -⟩ := checkKnockedPins_spec c down
    have hk : (c.checkKnockedPins down).knockedPins = c.knockedPins ++ added := by rw [h]
    simp only [List.foldl_cons]
    refine ⟨⟨added ++ added2, ?_⟩, hp2.trans hp, hn2, by rw [← hp]; exact hl2⟩
    rw [ha2, hk, List.append_assoc]

/-! ## The keep-standing reset -/

theorem standingFrom_cons {α : Type} (n : Nat) (x : α) (rest : List α) (S : List Nat) :
    standingFrom n (x :: rest) S =
      if S.contains n then standingFrom (n + 1) rest S else x :: standingFrom (n + 1) rest S := by
  simp only [standingFrom, List.enumFrom_cons, List.filter_cons]
  cases h : S.contains n <;> simp

theorem standingFrom_append {α : Type} (n : Nat) (xs ys : List α) (S : List Nat) :
    standingFrom n (xs ++ ys) S = standingFrom n xs S ++ standingFrom (n + xs.length) ys S := by
  induction xs generalizing n with
  | nil => simp [standingFrom]
  | cons x rest ih =>
    have h := ih (n + 1)
    have e : n + (rest.length + 1) = n + 1 + rest.length := by omega
    rw [List.cons_append, standingFrom_cons, standingFrom_cons, List.length_cons, e, h]
    cases S.contains n <;> simp

theorem standingFrom_congr {α : Type} (xs : List α) (S S2 : List Nat) :
    ∀ n, (∀ i, n ≤ i → i < n + xs.length → (i ∈ S ↔ i ∈ S2)) →
      standingFrom n xs S = standingFrom n xs S2 := by
  induction xs with
  | nil => intro n _; simp [standingFrom]
  | cons x rest ih =>
    intro n h
    have hrest := ih (n + 1) (fun i h1 h2 => h i (by omega) (by simp only [List.length_cons]; omega))
    have hn := h n (le_refl _) (by simp)
    have hc : S.contains n = S2.contains n := by
      rw [Bool.eq_iff_iff]
      simpa using hn
    rw [standingFrom_cons, standingFrom_cons, hc, hrest]

theorem standingFrom_nil {α : Type} (xs : List α) : ∀ n, standingFrom n xs [] = xs := by
  induction xs with
  | nil => intro n; simp [standingFrom]
  | cons x rest ih =>
    intro n
    rw [standingFrom_cons, ih (n + 1)]
    simp

theorem standingFrom_all {α : Type} (xs : List α) (S : List Nat) (n : Nat)
    (h : ∀ i, i ∈ S → i < n) : standingFrom n xs S = xs := by
  rw [standingFrom_congr xs S [] n, standingFrom_nil]
  intro i h1 _
  constructor
  · intro hi
    have := h i hi
    omega
  · intro hi
    simp at hi

theorem standingFrom_eraseIdx {α : Type} (xs : List α) (a : Nat) (rest : List Nat)
    (h : ∀ i, i ∈ rest → i < a) :
    standingFrom 0 (xs.eraseIdx a) rest = standingFrom 0 xs (a :: rest) := by
  by_cases ha : a < xs.length
  · have hsplit : xs = xs.take a ++ (xs[a] :: xs.drop (a + 1)) := by
      rw [← List.drop_eq_getElem_cons ha, List.take_append_drop]
    have hlen : (xs.take a).length = a := by
      rw [List.length_take]; omega
    rw [List.eraseIdx_eq_take_drop_succ]
    conv_rhs => rw [hsplit]
    rw [standingFrom_append, standingFrom_append, hlen, Nat.zero_add]
    have h1 : standingFrom 0 (xs.take a) (a :: rest) = standingFrom 0 (xs.take a) rest := by
      apply standingFrom_congr
      intro i _ hi
      rw [hlen] at hi
      simp only [List.mem_cons]
      constructor
      · rintro (rfl | h2)
        · omega
        · exact h2
      · intro h2; exact Or.inr h2
    have h2 : standingFrom a (xs.drop (a + 1)) rest = xs.drop (a + 1) :=
      standingFrom_all _ _ _ h
    have h3 : standingFrom a (xs[a] :: xs.drop (a + 1)) (a :: rest) = xs.drop (a + 1) := by
      have h4 : standingFrom (a + 1) (xs.drop (a + 1)) (a :: rest) = xs.drop (a + 1) := by
        apply standingFrom_all
        intro i hi
        rcases List.mem_cons.mp hi with rfl | hi
        · omega
        · have := h i hi; omega
      rw [standingFrom_cons, h4]
      simp
    rw [h1, h2, h3]
  · have hge : xs.length ≤ a := by omega
    rw [List.eraseIdx_of_length_le hge]
    apply standingFrom_congr
    intro i _ hi
    simp only [List.mem_cons]
    constructor
    · intro h2; exact Or.inr h2
    · rintro (rfl | h2)
      · omega
      · exact h2

theorem foldl_eraseIdx_descending {α : Type} (l : List Nat)
    (hl : l.Pairwise (fun a b => b < a)) :
    ∀ xs : List α, l.foldl GameController.spliceOne xs = standingFrom 0 xs l := by
  induction l with
  | nil => intro xs; simp [standingFrom_nil]
  | cons a rest ih =>
    intro xs
    obtain ⟨ha, hrest⟩ := List.pairwise_cons.mp hl
    simp only [List.foldl_cons]
    rw [ih hrest, GameController.spliceOne]
    exact standingFrom_eraseIdx xs a rest ha

theorem foldl_eraseIdx_length {α : Type} (l : List Nat)
    (hl : l.Pairwise (fun a b => b < a)) :
    ∀ xs : List α, (∀ i, i ∈ l → i < xs.length) →
      (l.foldl GameController.spliceOne xs).length + l.length = xs.length := by
  induction l with
  | nil => intro xs _; simp
  | cons a rest ih =>
    intro xs hb
    obtain ⟨ha, hrest⟩ := List.pairwise_cons.mp hl
    have haxs := hb a (List.mem_cons_self _ _)
    simp only [List.foldl_cons, List.length_cons]
    have hlen : (GameController.spliceOne xs a).length = xs.length - 1 := by
      rw [GameController.spliceOne, List.length_eraseIdx]
      simp [haxs]
    have := ih hrest (GameController.spliceOne xs a) (by
      intro i hi
      have := ha i hi
      omega)
    omega

theorem foldl_splice_fields (l : List Nat) :
    ∀ c : GameController,
      l.foldl
        (fun (acc : GameController) (index : Nat) =>
          { acc with pins := GameController.spliceOne acc.pins index,
                     pinBodies := GameController.spliceOne acc.pinBodies index })
        c =
      { c with pins := l.foldl GameController.spliceOne c.pins,
               pinBodies := l.foldl GameController.spliceOne c.pinBodies } := by
  induction l with
  | nil => intro c; rfl
  | cons a rest ih =>
    intro c
    simp only [List.foldl_cons]
    rw [ih]

theorem sort_descending (l : List Nat) (hn : l.Nodup) :
    (l.insertionSort (fun a b => b ≤ a)).Pairwise (fun a b => b < a) ∧
      ∀ i, i ∈ l.insertionSort (fun a b => b ≤ a) ↔ i ∈ l := by
  have hperm := List.perm_insertionSort (fun a b : Nat => b ≤ a) l
  haveI : IsTotal Nat (fun a b => b ≤ a) := ⟨fun a b => le_total b a⟩
  haveI : IsTrans Nat (fun a b => b ≤ a) := ⟨fun a b c hab hbc => le_trans hbc hab⟩
  have hsorted : (l.insertionSort (fun a b => b ≤ a)).Pairwise (fun a b => b ≤ a) :=
    List.sorted_insertionSort (fun a b : Nat => b ≤ a) l
  have hnodup : (l.insertionSort (fun a b => b ≤ a)).Pairwise (fun a b => a ≠ b) :=
    (hperm.nodup_iff.mpr hn)
  refine ⟨?_, fun i => hperm.mem_iff⟩
  exact (hsorted.and hnodup).imp (fun h => by omega)

theorem resetForSecondBall_fields (c : GameController) :
    c.resetForSecondBall =
      { c with
        pins := (c.knockedPins.insertionSort (fun a b => b ≤ a)).foldl
          GameController.spliceOne c.pins,
        pinBodies := (c.knockedPins.insertionSort (fun a b => b ≤ a)).foldl
          GameController.spliceOne c.pinBodies,
        knockedPins := [],
        ballBody := some BallBody.body,
        state := { c.state with
          pinsRemaining := ((c.knockedPins.insertionSort (fun a b => b ≤ a)).foldl
            GameController.spliceOne c.pinBodies).length,
          isThrowing := false, waitingForReset := false },
        isResetting := false } := by
  unfold GameController.resetForSecondBall
  simp only [foldl_splice_fields]
  rfl

theorem resetForSecondBall_standing (c : GameController) (hn : c.knockedPins.Nodup) :
    c.resetForSecondBall.pins = standingFrom 0 c.pins c.knockedPins ∧
      c.resetForSecondBall.pinBodies = standingFrom 0 c.pinBodies c.knockedPins ∧
      c.resetForSecondBall.knockedPins = [] ∧
      c.resetForSecondBall.state.pinsRemaining = c.resetForSecondBall.pinBodies.length ∧
      ((∀ i, i ∈ c.knockedPins → i < c.pinBodies.length) →
        c.resetForSecondBall.pinBodies.length + c.knockedPins.length = c.pinBodies.length) := by
  obtain ⟨hdesc, hmem⟩ := sort_descending c.knockedPins hn
  rw [resetForSecondBall_fields]
  refine ⟨?_, ?_, rfl, rfl, ?_⟩
  · show (c.knockedPins.insertionSort (fun a b => b ≤ a)).foldl GameController.spliceOne c.pins = _
    rw [foldl_eraseIdx_descending _ hdesc]
    exact standingFrom_congr _ _ _ 0 (fun i _ _ => hmem i)
  · show (c.knockedPins.insertionSort (fun a b => b ≤ a)).foldl GameController.spliceOne
      c.pinBodies = _
    rw [foldl_eraseIdx_descending _ hdesc]
    exact standingFrom_congr _ _ _ 0 (fun i _ _ => hmem i)
  · intro hb
    show ((c.knockedPins.insertionSort (fun a b => b ≤ a)).foldl GameController.spliceOne
      c.pinBodies).length + _ = _
    have h := foldl_eraseIdx_length _ hdesc c.pinBodies (fun i hi => hb i ((hmem i).mp hi))
    have hlen : (c.knockedPins.insertionSort (fun a b => b ≤ a)).length = c.knockedPins.length :=
      List.length_insertionSort _ _
    omega

/-! ## Frames that wait for their second ball -/

theorem noHalf_halfBound (n : Int) (g : Game) (h : NoHalf g) : HalfBound n g := by
  intro k a hk ht ha
  exact absurd (h k a hk ht) ha

theorem halfBound_mono (n n2 : Int) (g : Game) (h : HalfBound n g) (hle : n2 ≤ n) :
    HalfBound n2 g := by
  intro k a hk ht ha
  have := h k a hk ht ha
  omega

theorem noHalf_newGame : NoHalf newGame := by
  intro k a _ ht
  rw [throwsAt_newGame] at ht
  cases ht

theorem sumsOk_newGame : SumsOk newGame := by
  intro k a b _ ht
  rw [throwsAt_newGame] at ht
  cases ht

theorem half_open (k : Nat) (a : Int) (hk : k < 9) (ha : a ≠ 10) : completeOf k [a] = false := by
  simp [completeOf, hk, ha]

theorem noHalf_of_complete (g : Game)
    (h : ∀ k, k < 9 → completeOf k (throwsAt g.frames k) = true) : NoHalf g := by
  intro k a hk ht
  by_contra ha
  have := h k hk
  rw [ht, half_open k a hk ha] at this
  cases this

theorem push_noHalf (g g2 : Game) (hg : Canon g) (k : Nat) (p : Int) (hk : k < 10)
    (hopen : completeOf k (throwsAt g.frames k) = false)
    (hbefore : ∀ j, j < k → completeOf j (throwsAt g.frames j) = true)
    (hT : throwsAt g2.frames = pushAt (throwsAt g.frames) k p)
    (hdone : k = 9 ∨ completeOf k (throwsAt g2.frames k) = true) : NoHalf g2 := by
  intro m a hm ht
  by_contra ha
  have hmo := half_open m a hm ha
  rcases Nat.lt_trichotomy m k with hlt | heq | hgt
  · have h1 := hbefore m hlt
    rw [hT, pushAt_other _ _ _ _ (by omega)] at ht
    rw [ht, hmo] at h1
    cases h1
  · subst heq
    rcases hdone with h9 | hc
    · omega
    · rw [ht, hmo] at hc
      cases hc
  · rw [hT, pushAt_other _ _ _ _ (by omega)] at ht
    have h1 := canon_earlier_complete g hg m (by omega) (by rw [ht]; simp) k hgt
    rw [hopen] at h1
    cases h1

theorem push_sumsOk (g g2 : Game) (hg : Canon g) (k : Nat) (p n : Int) (hk : k < 10)
    (hopen : completeOf k (throwsAt g.frames k) = false)
    (hT : throwsAt g2.frames = pushAt (throwsAt g.frames) k p)
    (hs : SumsOk g) (hh : HalfBound n g) (hp : p ≤ n) : SumsOk g2 := by
  intro m a b hm ht
  by_cases hmk : m = k
  · subst hmk
    rw [hT, pushAt_self] at ht
    have hshape := canon_shape g hg m hk
    rcases regular_open_cases m _ hm hshape hopen with h0 | ⟨a0, ha0, h1⟩
    · rw [h0] at ht; cases ht
    · rw [h1] at ht
      simp only [List.singleton_append, List.cons.injEq, and_true] at ht
      obtain ⟨rfl, rfl⟩ := ht
      have := hh m a0 hm h1 ha0
      omega
  · rw [hT, pushAt_other _ _ _ _ hmk] at ht
    exact hs m a b hm ht

theorem push_halfBound (g g2 : Game) (k : Nat) (p n n2 : Int)
    (hT : throwsAt g2.frames = pushAt (throwsAt g.frames) k p)
    (hh : HalfBound n g) (hle : n2 ≤ n) (hp : p + n2 ≤ 10) : HalfBound n2 g2 := by
  intro m a hm ht ha
  by_cases hmk : m = k
  · subst hmk
    rw [hT, pushAt_self] at ht
    cases h0 : throwsAt g.frames m with
    | nil =>
      rw [h0] at ht
      simp only [List.nil_append, List.cons.injEq, and_true] at ht
      omega
    | cons x rest =>
      rw [h0] at ht
      cases rest <;> simp at ht
  · rw [hT, pushAt_other _ _ _ _ hmk] at ht
    have := hh m a hm ht ha
    omega

/-! ## One recorded throw and the frames that wait for their second ball -/

theorem mem_of_getElem? {α : Type} (l : List α) (i : Nat) (x : α) (h : l[i]? = some x) :
    x ∈ l := by
  obtain ⟨hlt, hx⟩ := List.getElem?_eq_some.mp h
  rw [← hx]; exact List.getElem_mem _

theorem canon_all_flags (g : Game) (hg : Canon g)
    (h : g.frames.findIdx? (fun f => !f.isComplete) = none) :
    ∀ k, k < 10 → completeOf k (throwsAt g.frames k) = true := by
  intro k hk
  obtain ⟨f, hf, -, -, -⟩ := canon_get g hg k hk
  rw [List.findIdx?_eq_none_iff] at h
  have := h f (mem_of_getElem? _ _ _ hf)
  rw [← canon_complete_get g hg k f hf]
  simpa using this

theorem canon_complete_find (g : Game) (hg : Canon g) (hc : g.isComplete = true) :
    g.frames.findIdx? (fun f => !f.isComplete) = none := by
  rw [List.findIdx?_eq_none_iff]
  intro f hf
  obtain ⟨i, hi, hif, -⟩ := canon_mem g hg f hf
  have h1 := canon_complete_all g hg hc (9 - i) i (by omega)
  rw [← canon_complete_get g hg i f hif] at h1
  simp [h1]

theorem current_complete_noHalf (s : ScoringSystem) (g : Game) (f : Frame) (hg : Canon g)
    (hcur : s.getCurrentGame = some g) (hf : s.getCurrentFrame = some (some f))
    (hc : f.isComplete = true) : NoHalf g := by
  unfold ScoringSystem.getCurrentFrame at hf
  rw [hcur] at hf
  simp only at hf
  unfold currentFrameIndex at hf
  cases hfind : g.frames.findIdx? (fun f => !f.isComplete) with
  | none => exact noHalf_of_complete g (fun k hk => canon_all_flags g hg hfind k (by omega))
  | some i =>
    rw [hfind] at hf
    simp only [Option.some.injEq] at hf
    rw [List.findIdx?_eq_some_iff_findIdx_eq] at hfind
    obtain ⟨hi, hidx⟩ := hfind
    rw [List.findIdx_eq hi] at hidx
    have h1 := hidx.1
    rw [List.getElem?_eq_getElem hi, Option.some.injEq] at hf
    rw [hf, hc] at h1
    simp at h1

theorem sys_record_step (s : ScoringSystem) (p n : Int) (hs : SysCanon s) :
    ∃ (g : Game) (k : Nat) (f : Frame) (r : Bool × ScoringSystem) (g1 : Game) (f1 : Frame),
      s.getCurrentGame = some g ∧ Canon g ∧ k < 10 ∧ s.getCurrentFrame = some (some f) ∧
      f.frameNumber = k + 1 ∧ s.recordThrow p = some r ∧ SysCanon r.2 ∧
      r.2.getCurrentGame = some g1 ∧ Canon g1 ∧ g1.frames[k]? = some f1 ∧ FlagsCanon k f1 ∧
      (∀ g2, g2 ∈ r.2.games → g2 ∈ s.games ∨ g2 = g1) ∧ g ∈ s.games ∧
      ((k = 9 ∨ f1.isComplete = true) → NoHalf g1) ∧
      (SumsOk g → HalfBound n g → p ≤ n → SumsOk g1) ∧
      (∀ n2, HalfBound n g → n2 ≤ n → p + n2 ≤ 10 → HalfBound n2 g1) := by
  obtain ⟨g, hg, hcan, hcase⟩ := recordThrow_sysCanon s p hs
  have hgmem : g ∈ s.games := mem_of_getElem? _ _ _ hg
  rcases hcase with ⟨hc, hr⟩ | ⟨hc, k, g2, hfind, hk, hopen, hbefore, hr, hcan2, hs2, hg2, hT, -⟩
  · obtain ⟨f, hf, hflags, -, -⟩ := canon_get g hcan 9 (by omega)
    have hfind := canon_complete_find g hcan hc
    have hall := canon_all_flags g hcan hfind
    refine ⟨g, 9, f, (false, s), g, f, hg, hcan, by omega, ?_, hflags.1, hr, hs, hg, hcan, hf,
      hflags, fun g2 h => Or.inl h, hgmem, ?_, fun h _ _ => h,
      fun n2 h hle _ => halfBound_mono n n2 g h hle⟩
    · unfold ScoringSystem.getCurrentFrame
      rw [hg]
      simp only
      unfold currentFrameIndex
      rw [hfind]
      have h9 : 9 < g.frames.length := by rw [hcan.len]; omega
      simp only [h9, if_true]
      rw [hf]
    · intro _
      exact noHalf_of_complete g (fun j hj => hall j (by omega))
  · obtain ⟨f, hf, hflags, -, -⟩ := canon_get g hcan k hk
    obtain ⟨f1, hf1, hflags1, hthrows1, -⟩ := canon_get g2 hcan2 k hk
    refine ⟨g, k, f, (true, s.setCurrentGame g2), g2, f1, hg, hcan, hk, ?_, hflags.1, hr, hs2,
      hg2, hcan2, hf1, hflags1, ?_, hgmem, ?_, ?_, ?_⟩
    · unfold ScoringSystem.getCurrentFrame
      rw [hg]
      simp only
      unfold currentFrameIndex
      rw [hfind]
      simp only
      rw [hf]
    · intro g3 h3
      simp only [ScoringSystem.setCurrentGame] at h3
      rcases List.mem_or_eq_of_mem_set h3 with h | h
      · exact Or.inl h
      · exact Or.inr h
    · intro hdone
      apply push_noHalf g g2 hcan k p hk hopen hbefore hT
      rcases hdone with h9 | hc1
      · exact Or.inl h9
      · right
        rw [← hthrows1, ← hflags1.2.2.2.1]
        exact hc1
    · intro hsum hhalf hp
      exact push_sumsOk g g2 hcan k p n hk hopen hT hsum hhalf hp
    · intro n2 hhalf hle hp
      exact push_halfBound g g2 k p n n2 hT hhalf hle hp

/-! ## One recorded throw on the scorekeeper -/

theorem multi_recordThrow_cursor (m : MultiPlayerScoring) (p : Int)
    (r : Bool × MultiPlayerScoring) (pl : Player) (q : Bool × ScoringSystem)
    (h : m.recordThrow p = some r) (hpl : m.getCurrentPlayer = some pl)
    (hq : pl.scoringSystem.recordThrow p = some q) :
    r.2.players = (m.setScoringSystem m.currentPlayerIndex q.2).players ∧
    (r.2.currentPlayerIndex = m.currentPlayerIndex ∨
      ∃ f2, q.2.getCurrentFrame = some (some f2) ∧ f2.isComplete = true) := by
  unfold MultiPlayerScoring.recordThrow at h
  obtain ⟨recorded, s1⟩ := q
  simp only [hpl, hq] at h
  split at h
  · split at h
    · cases h
    · cases h
    · rename_i currentFrame hframe
      split at h
      · rename_i hcomplete
        split at h
        · cases h
        · rename_i m2 hm2
          cases h
          obtain ⟨e1, -, -⟩ := moveToNextPlayer_players _ m2 hm2
          exact ⟨e1, Or.inr ⟨currentFrame, hframe, hcomplete⟩⟩
      · cases h
        exact ⟨rfl, Or.inl rfl⟩
  · cases h
    exact ⟨rfl, Or.inl rfl⟩

/-- Where a game of the scorekeeper after a recorded throw comes from: it is the new
current game of the player at the cursor, or a game that was there before at the same
place, which is not the place of the current game. -/
theorem games_after_record (m : MultiPlayerScoring) (p : Int) (r : Bool × MultiPlayerScoring)
    (pl : Player) (q : Bool × ScoringSystem) (g1 : Game)
    (hplayers : r.2.players = (m.setScoringSystem m.currentPlayerIndex q.2).players)
    (hpl : m.getCurrentPlayer = some pl) (hq : pl.scoringSystem.recordThrow p = some q)
    (hg1 : q.2.getCurrentGame = some g1)
    (i j : Nat) (pl2 : Player) (g2 : Game) (hi : r.2.players[i]? = some pl2)
    (hj : pl2.scoringSystem.games[j]? = some g2) :
    (i = m.currentPlayerIndex ∧ j = pl.scoringSystem.currentGameIndex ∧ g2 = g1 ∧
      pl2.scoringSystem = q.2) ∨
    (∃ old, m.players[i]? = some old ∧ old.scoringSystem.games[j]? = some g2 ∧
      (i ≠ m.currentPlayerIndex ∨ j ≠ old.scoringSystem.currentGameIndex) ∧
      (i ≠ m.currentPlayerIndex → pl2 = old) ∧
      (i = m.currentPlayerIndex → pl2.scoringSystem = q.2 ∧ old = pl)) := by
  rw [hplayers, setScoringSystem_get] at hi
  cases hold : m.players[i]? with
  | none => rw [hold] at hi; cases hi
  | some old =>
    rw [hold] at hi
    simp only [Option.map_some', Option.some.injEq] at hi
    obtain ⟨hidx, -, -, hother⟩ := recordThrow_frame pl.scoringSystem p q hq
    by_cases hcur : m.currentPlayerIndex = i
    · rw [if_pos hcur] at hi
      have hsys : pl2.scoringSystem = q.2 := by rw [← hi]
      have holdpl : old = pl := by
        unfold MultiPlayerScoring.getCurrentPlayer at hpl
        rw [hcur, hold] at hpl
        exact Option.some.inj hpl
      by_cases hjc : j = pl.scoringSystem.currentGameIndex
      · left
        refine ⟨hcur.symm, hjc, ?_, hsys⟩
        rw [hsys] at hj
        unfold ScoringSystem.getCurrentGame at hg1
        rw [hidx, ← hjc, hj] at hg1
        exact Option.some.inj hg1
      · right
        refine ⟨old, rfl, ?_, Or.inr (by rw [holdpl]; exact hjc), fun h => absurd hcur.symm h,
          fun _ => ⟨hsys, holdpl⟩⟩
        rw [hsys, hother j hjc] at hj
        rw [holdpl]
        exact hj
    · rw [if_neg hcur] at hi
      right
      refine ⟨old, rfl, by rw [hi]; exact hj, Or.inl (fun h => hcur h.symm), fun _ => hi.symm,
        fun h => absurd h.symm hcur⟩

theorem getElem?_of_mem {α : Type} (l : List α) (x : α) (h : x ∈ l) :
    ∃ i : Nat, l[i]? = some x := by
  obtain ⟨i, hi, hx⟩ := List.getElem_of_mem h
  exact ⟨i, by rw [List.getElem?_eq_getElem hi, hx]⟩

theorem multi_record_core (m : MultiPlayerScoring) (p n : Int)
    (hm : MultiCanon (fun x => 0 ≤ x ∧ x ≤ 10) m) (hp0 : 0 ≤ p) (hp10 : p ≤ 10) :
    ∃ (pl : Player) (f : Frame) (k : Nat) (r : Bool × MultiPlayerScoring) (pl1 : Player)
      (g1 : Game) (f1 : Frame),
      m.getCurrentPlayer = some pl ∧ pl.scoringSystem.getCurrentFrame = some (some f) ∧
      f.frameNumber = k + 1 ∧ k < 10 ∧ m.recordThrow p = some r ∧
      MultiCanon (fun x => 0 ≤ x ∧ x ≤ 10) r.2 ∧
      r.2.players[m.currentPlayerIndex]? = some pl1 ∧
      pl1.scoringSystem.getCurrentGame = some g1 ∧ g1.frames[k]? = some f1 ∧
      FlagsCanon k f1 ∧
      (Local m → Local r.2) ∧
      (AllGames SumsOk m → AllGames (HalfBound n) m → p ≤ n → AllGames SumsOk r.2) ∧
      (Local m → (k = 9 ∨ f1.isComplete = true) → AllGames NoHalf r.2) ∧
      (∀ n2, AllGames (HalfBound n) m → n2 ≤ n → p + n2 ≤ 10 →
        AllGames (HalfBound n2) r.2) := by
  obtain ⟨r, hr, hcanon2, -, -⟩ := multi_recordThrow_canon _ m p hm ⟨hp0, hp10⟩
  obtain ⟨pl, hplget⟩ : ∃ pl, m.players[m.currentPlayerIndex]? = some pl :=
    ⟨_, List.getElem?_eq_getElem hm.cursor⟩
  have hpl : m.getCurrentPlayer = some pl := hplget
  have hplmem : pl ∈ m.players := mem_of_getElem? _ _ _ hplget
  obtain ⟨hsys, -⟩ := hm.players pl hplmem
  obtain ⟨g, k, f, q, g1, f1, hg, hcan, hk, hf, hfn, hq, hsys1, hg1, hcan1, hf1, hflags1,
    -, hgmem, hdone, hsum1, hhalf1⟩ := sys_record_step pl.scoringSystem p n hsys
  obtain ⟨hplayers, hcursor⟩ := multi_recordThrow_cursor m p r pl q hr hpl hq
  have hsrc := games_after_record m p r pl q g1 hplayers hpl hq hg1
  have hpl1 : r.2.players[m.currentPlayerIndex]? =
      some { pl with scoringSystem := q.2 } := by
    rw [hplayers, setScoringSystem_get, hplget]
    simp
  -- every game satisfies a property that the new current game and the old games satisfy
  have hall : ∀ Q : Game → Prop, AllGames Q m → Q g1 → AllGames Q r.2 := by
    intro Q hQ hQ1 pl2 hpl2 g2 hg2
    obtain ⟨i, hi⟩ := getElem?_of_mem _ _ hpl2
    obtain ⟨j, hj⟩ := getElem?_of_mem _ _ hg2
    rcases hsrc i j pl2 g2 hi hj with ⟨-, -, h, -⟩ | ⟨old, hold, hgame, -, -, -⟩
    · rw [h]; exact hQ1
    · exact hQ old (mem_of_getElem? _ _ _ hold) g2 (mem_of_getElem? _ _ _ hgame)
  have hsettled : Local m → NoHalf g1 → AllGames NoHalf r.2 := by
    intro hloc h1 pl2 hpl2 g2 hg2
    obtain ⟨i, hi⟩ := getElem?_of_mem _ _ hpl2
    obtain ⟨j, hj⟩ := getElem?_of_mem _ _ hg2
    rcases hsrc i j pl2 g2 hi hj with ⟨-, -, h, -⟩ | ⟨old, hold, hgame, hne, -, -⟩
    · rw [h]; exact h1
    · exact hloc i old j g2 hold hgame hne
  refine ⟨pl, f, k, r, _, g1, f1, hpl, hf, hfn, hk, hr, hcanon2, hpl1, hg1, hf1,
    hflags1, ?_, ?_, fun hloc h => hsettled hloc (hdone h), ?_⟩
  · intro hloc
    rcases hcursor with hsame | ⟨f2, hf2, hc2⟩
    · intro i pl2 j g2 hi hj hne
      rcases hsrc i j pl2 g2 hi hj with ⟨h1, h2, -, h4⟩ | ⟨old, hold, hgame, hne2, -, -⟩
      · exfalso
        rcases hne with h | h
        · exact h (by rw [hsame]; exact h1)
        · apply h
          rw [h4, (recordThrow_frame pl.scoringSystem p q hq).1]
          exact h2
      · exact hloc i old j g2 hold hgame hne2
    · have h1 := current_complete_noHalf q.2 g1 f2 hcan1 hg1 hf2 hc2
      intro i pl2 j g2 hi hj _
      exact hsettled hloc h1 pl2 (mem_of_getElem? _ _ _ hi) g2 (mem_of_getElem? _ _ _ hj)
  · intro hsums hhalf hpn
    exact hall SumsOk hsums
      (hsum1 (hsums pl hplmem g hgmem) (hhalf pl hplmem g hgmem) hpn)
  · intro n2 hhalf hle hp2
    exact hall (HalfBound n2)
      (fun pl2 hpl2 g2 hg2 => halfBound_mono n n2 g2 (hhalf pl2 hpl2 g2 hg2) hle)
      (hhalf1 n2 (hhalf pl hplmem g hgmem) hle hp2)

theorem multi_record_step (m : MultiPlayerScoring) (p n : Int)
    (hm : MultiCanon (fun x => 0 ≤ x ∧ x ≤ 10) m) (hloc : Local m)
    (hsums : AllGames SumsOk m) (hhalf : AllGames (HalfBound n) m)
    (hp0 : 0 ≤ p) (hp10 : p ≤ 10) (hpn : p ≤ n) :
    ∃ (pl : Player) (f : Frame) (k : Nat) (r : Bool × MultiPlayerScoring) (pl1 : Player)
      (g1 : Game) (f1 : Frame),
      m.getCurrentPlayer = some pl ∧ pl.scoringSystem.getCurrentFrame = some (some f) ∧
      f.frameNumber = k + 1 ∧ k < 10 ∧ m.recordThrow p = some r ∧
      MultiCanon (fun x => 0 ≤ x ∧ x ≤ 10) r.2 ∧ Local r.2 ∧ AllGames SumsOk r.2 ∧
      r.2.players[m.currentPlayerIndex]? = some pl1 ∧
      pl1.scoringSystem.getCurrentGame = some g1 ∧ g1.frames[k]? = some f1 ∧
      FlagsCanon k f1 ∧
      ((k = 9 ∨ f1.isComplete = true) → AllGames NoHalf r.2) ∧
      (∀ n2, n2 ≤ n → p + n2 ≤ 10 → AllGames (HalfBound n2) r.2) := by
  obtain ⟨pl, f, k, r, pl1, g1, f1, h1, h2, h3, h4, h5, h6, h7, h8, h9, h10, h11, h12, h13,
    h14⟩ := multi_record_core m p n hm hp0 hp10
  exact ⟨pl, f, k, r, pl1, g1, f1, h1, h2, h3, h4, h5, h6, h11 hloc, h12 hsums hhalf hpn, h7,
    h8, h9, h10, h13 hloc, fun n2 => h14 n2 hhalf⟩

/-! ## The invariant of the controller: the end of a throw -/

theorem strike_complete (k : Nat) (t : List Int) (hk : k < 9) (hs : shapeOf k t)
    (h : strikeOf t = true) : completeOf k t = true := by
  simp only [strikeOf, decide_eq_true_eq] at h
  simp only [shapeOf, hk, if_true] at hs
  simp only [completeOf, hk, if_true, Bool.or_eq_true, decide_eq_true_eq]
  match t, hs, h with
  | [], _, h => simp [pinAt] at h
  | [a], _, h => right; simp [pinAt] at h; rw [h]
  | [a, b], hs, h => exact absurd h (hs.2 rfl)
  | _ :: _ :: _ :: _, hs, _ => simp at hs

/-- The state after `handleThrowComplete` has passed its guard: the new scorekeeper, the
two flags, the ball number and the callbacks it has scheduled. -/
theorem ctlInv_after_throw (c : GameController) (scoring1 : MultiPlayerScoring) (ball : Nat)
    (extra : List Timer)
    (hcanon : MultiCanon (fun x => 0 ≤ x ∧ x ≤ 10) scoring1) (hloc : Local scoring1)
    (hsums : AllGames SumsOk scoring1) (hnodup : c.knockedPins.Nodup)
    (hrange : ∀ i, i ∈ c.knockedPins → i < c.pinBodies.length)
    (hbodies : c.pinBodies.length ≤ 10) (hrem : c.state.pinsRemaining = c.pinBodies.length)
    (htimers : c.timers = [])
    (hphase : (extra = [] ∧ AllGames (HalfBound c.pinBodies.length) scoring1) ∨
      (∃ cb, extra = [{ delay := 1500, callback := cb }] ∧
        (cb = Callback.resetFrame ∨ cb = Callback.tenthFrameComplete) ∧
        AllGames NoHalf scoring1) ∨
      (extra = [{ delay := 1500, callback := Callback.resetForSecondBall }] ∧
        AllGames (HalfBound ((c.pinBodies.length : Int) - c.knockedPins.length)) scoring1)) :
    CtlInv { c with
      scoring := scoring1,
      state := { c.state with ballInMotion := false, waitingForReset := true,
                              currentBall := ball },
      isResetting := true, timers := c.timers ++ extra } := by
  refine ⟨hcanon, hloc, hsums, hnodup, hrange, hbodies, hrem, rfl, ?_, ?_⟩
  · intro h; cases h
  · rw [htimers]
    rcases hphase with ⟨h1, h2⟩ | ⟨cb, h1, h2, h3⟩ | ⟨h1, h2⟩
    · exact Or.inl ⟨by rw [h1]; rfl, h2⟩
    · exact Or.inr (Or.inr (Or.inl ⟨1500, cb, by rw [h1]; rfl, h2, rfl, rfl, h3⟩))
    · exact Or.inr (Or.inr (Or.inr ⟨1500, by rw [h1]; rfl, rfl, rfl, h2⟩))

theorem GameController.handle10thFrameReset_shape (c : GameController) (f : Frame) :
    ∃ (ball : Nat) (extra : List Timer),
      c.handle10thFrameReset f =
        { c with state := { c.state with currentBall := ball }, timers := c.timers ++ extra } ∧
      (extra = [] ∨ ∃ cb, extra = [{ delay := 1500, callback := cb }] ∧
        (cb = Callback.resetFrame ∨ cb = Callback.tenthFrameComplete ∨
          cb = Callback.resetForSecondBall)) := by
  unfold GameController.handle10thFrameReset
  simp only
  split_ifs
  · exact ⟨1, _, rfl, Or.inr ⟨_, rfl, Or.inr (Or.inl rfl)⟩⟩
  · exact ⟨2, _, rfl, Or.inr ⟨_, rfl, Or.inl rfl⟩⟩
  · exact ⟨3, _, rfl, Or.inr ⟨_, rfl, Or.inl rfl⟩⟩
  · exact ⟨3, _, rfl, Or.inr ⟨_, rfl, Or.inr (Or.inr rfl)⟩⟩
  · exact ⟨c.state.currentBall, [], by simp, Or.inl rfl⟩
  · exact ⟨c.state.currentBall, [], by simp, Or.inl rfl⟩

theorem handleThrowComplete_inv (c : GameController)
    (hcanon : MultiCanon (fun x => 0 ≤ x ∧ x ≤ 10) c.scoring) (hloc : Local c.scoring)
    (hsums : AllGames SumsOk c.scoring) (hnodup : c.knockedPins.Nodup)
    (hrange : ∀ i, i ∈ c.knockedPins → i < c.pinBodies.length)
    (hbodies : c.pinBodies.length ≤ 10) (hrem : c.state.pinsRemaining = c.pinBodies.length)
    (hhalf : AllGames (HalfBound c.pinBodies.length) c.scoring)
    (hres : c.isResetting = false) (hwait : c.state.waitingForReset = false)
    (htimers : c.timers = []) :
    ∃ c1, c.handleThrowComplete = some c1 ∧ CtlInv c1 := by
  have hlen : c.knockedPins.length ≤ c.pinBodies.length :=
    nodup_length_le _ _ hnodup hrange
  have hp : ((c.knockedPins.length : Nat) : Int) ≤ ((c.pinBodies.length : Nat) : Int) := by
    exact_mod_cast hlen
  have hb : ((c.pinBodies.length : Nat) : Int) ≤ 10 := by exact_mod_cast hbodies
  obtain ⟨pl, f, k, r, pl1, g1, f1, hpl, hf, hfn, hk, hr, hcanon1, hloc1, hsums1, hpl1, hg1,
    hf1, hflags1, hdone, hhalf1⟩ :=
    multi_record_step c.scoring c.knockedPins.length c.pinBodies.length hcanon hloc hsums hhalf
      (by omega) (by omega) hp
  obtain ⟨b, scoring1⟩ := r
  have hbase := ctlInv_after_throw c scoring1
  unfold GameController.handleThrowComplete
  simp only [hres, hwait, Bool.or_self, Bool.false_eq_true, if_false]
  simp only [hpl, hf, hr, hpl1, hg1, hfn, Nat.add_sub_cancel, hf1, Nat.succ_ne_zero, if_false]
  obtain ⟨hnum, hstrike, -, hcomplete, hshape⟩ := hflags1
  by_cases hreg : f1.frameNumber < 10
  · have hk9 : k < 9 := by omega
    rw [if_pos hreg]
    by_cases hsc : (f1.isStrike || f1.isComplete) = true
    · rw [if_pos hsc]
      refine ⟨_, rfl, hbase 1 _ hcanon1 hloc1 hsums1 hnodup hrange hbodies hrem htimers
        (Or.inr (Or.inl ⟨Callback.resetFrame, rfl, Or.inl rfl, ?_⟩))⟩
      apply hdone
      right
      rcases Bool.or_eq_true _ _ |>.mp hsc with h | h
      · rw [hcomplete]
        exact strike_complete k _ hk9 hshape (by rw [← hstrike]; exact h)
      · exact h
    · rw [if_neg hsc]
      refine ⟨_, rfl, hbase 2 _ hcanon1 hloc1 hsums1 hnodup hrange hbodies hrem htimers
        (Or.inr (Or.inr ⟨rfl, ?_⟩))⟩
      exact hhalf1 _ (by omega) (by omega)
  · have hk9 : k = 9 := by omega
    rw [if_neg hreg]
    have hno : AllGames NoHalf scoring1 := hdone (Or.inl hk9)
    obtain ⟨ball, extra, heq, hextra⟩ := GameController.handle10thFrameReset_shape
      { c with scoring := scoring1,
               state := { c.state with ballInMotion := false, waitingForReset := true },
               isResetting := true } f1
    refine ⟨_, congrArg some heq, ?_⟩
    apply hbase ball extra hcanon1 hloc1 hsums1 hnodup hrange hbodies hrem htimers
    rcases hextra with h | ⟨cb, h, hcb⟩
    · exact Or.inl ⟨h, fun pl2 hpl2 g2 hg2 => noHalf_halfBound _ g2 (hno pl2 hpl2 g2 hg2)⟩
    · rcases hcb with rfl | rfl | rfl
      · exact Or.inr (Or.inl ⟨_, h, Or.inl rfl, hno⟩)
      · exact Or.inr (Or.inl ⟨_, h, Or.inr rfl, hno⟩)
      · exact Or.inr (Or.inr ⟨h,
          fun pl2 hpl2 g2 hg2 => noHalf_halfBound _ g2 (hno pl2 hpl2 g2 hg2)⟩)

/-! ## The invariant of the controller: start, throw and tick -/

theorem local_of_allGames (m : MultiPlayerScoring) (h : AllGames NoHalf m) : Local m := by
  intro i pl j g hi hj _
  exact h pl (mem_of_getElem? _ _ _ hi) g (mem_of_getElem? _ _ _ hj)

theorem allGames_halfBound (m : MultiPlayerScoring) (n : Int) (h : AllGames NoHalf m) :
    AllGames (HalfBound n) m :=
  fun pl hpl g hg => noHalf_halfBound n g (h pl hpl g hg)

theorem allGames_new (Q : Game → Prop) (mode : Mode) (hQ : Q newGame) :
    AllGames Q (MultiPlayerScoring.new mode) := by
  intro pl hpl g hg
  rw [multi_new_players] at hpl
  simp only [List.mem_map, List.mem_range] at hpl
  obtain ⟨i, -, rfl⟩ := hpl
  simp only [ScoringSystem.new, ScoringSystem.initNewGame, List.nil_append,
    List.mem_singleton] at hg
  rw [hg]
  exact hQ

theorem ctlInv_of_eq (c c1 : GameController) (h : CtlInv c) (h1 : c1.scoring = c.scoring)
    (h2 : c1.knockedPins = c.knockedPins) (h3 : c1.pinBodies = c.pinBodies)
    (h4 : c1.state = c.state) (h5 : c1.isResetting = c.isResetting)
    (h6 : c1.timers = c.timers) : CtlInv c1 := by
  obtain ⟨a1, a2, a3, a4, a5, a6, a7, a8, a9, a10⟩ := h
  refine ⟨?_, ?_, ?_, ?_, ?_, ?_, ?_, ?_, ?_, ?_⟩
  · rw [h1]; exact a1
  · rw [h1]; exact a2
  · rw [h1]; exact a3
  · rw [h2]; exact a4
  · rw [h2, h3]; exact a5
  · rw [h3]; exact a6
  · rw [h3, h4]; exact a7
  · rw [h4, h5]; exact a8
  · rw [h4, h5]; exact a9
  · unfold PhaseOk at a10 ⊢
    rw [h1, h2, h3, h4, h5, h6]
    exact a10

theorem ctlInv_resetFrame (c : GameController)
    (hcanon : MultiCanon (fun x => 0 ≤ x ∧ x ≤ 10) c.scoring)
    (hno : AllGames NoHalf c.scoring) (hsums : AllGames SumsOk c.scoring)
    (htimers : c.timers = []) : CtlInv c.resetFrame := by
  refine ⟨hcanon, local_of_allGames _ hno, hsums, List.nodup_nil, ?_, ?_, ?_, rfl, ?_, ?_⟩
  · intro i hi
    simp [GameController.resetFrame, GameController.resetBall] at hi
  · simp [GameController.resetFrame, GameController.resetBall, createPins]
  · simp [GameController.resetFrame, GameController.resetBall, createPins]
  · intro h
    simp [GameController.resetFrame, GameController.resetBall] at h
  · exact Or.inl ⟨htimers, allGames_halfBound _ _ hno⟩

theorem ctlInv_start (mode : Mode) :
    CtlInv (GameController.new (MultiPlayerScoring.new mode)).startGame :=
  ctlInv_resetFrame _ (multiCanon_new _ mode) (allGames_new _ mode noHalf_newGame)
    (allGames_new _ mode sumsOk_newGame) rfl

theorem ctlInv_throwBall (c : GameController) (now : Int) (h : CtlInv c) :
    CtlInv (c.throwBall now).2 := by
  unfold GameController.throwBall
  split
  · exact h
  · rename_i hflags
    simp only [Bool.or_eq_true, not_or, Bool.not_eq_true] at hflags
    obtain ⟨⟨⟨hthrowing, hmotion⟩, hwait⟩, hres⟩ := hflags
    split
    · exact h
    · obtain ⟨a1, a2, a3, a4, a5, a6, a7, a8, a9, a10⟩ := h
      refine ⟨a1, a2, a3, a4, a5, a6, a7, a8, fun _ => ⟨rfl, hres⟩, ?_⟩
      rcases a10 with ⟨h1, h2⟩ | ⟨d, -, -, h3, -⟩ | ⟨d, cb, -, -, h3, -⟩ | ⟨d, -, h3, -⟩
      · exact Or.inl ⟨h1, h2⟩
      · rw [hthrowing] at h3; cases h3
      · rw [hres] at h3; cases h3
      · rw [hres] at h3; cases h3

/-! ## The invariant of the controller: ticks -/

theorem ctlInv_inMotion (c : GameController) (h : CtlInv c)
    (hmotion : c.state.ballInMotion = true) :
    c.state.isThrowing = true ∧ c.isResetting = false ∧ c.state.waitingForReset = false ∧
      c.timers = [] ∧ AllGames (HalfBound c.pinBodies.length) c.scoring := by
  obtain ⟨h1, h2⟩ := h.motion hmotion
  refine ⟨h1, h2, by rw [h.flags, h2], ?_⟩
  rcases h.phase with ⟨h3, h4⟩ | ⟨d, -, -, -, h3, -⟩ | ⟨d, cb, -, -, -, h3, -⟩ | ⟨d, -, -, h3, -⟩
  · exact ⟨h3, h4⟩
  · rw [hmotion] at h3; cases h3
  · rw [hmotion] at h3; cases h3
  · rw [hmotion] at h3; cases h3

theorem ctlInv_checkKnockedPins (c : GameController) (down : PinBody → Bool) (h : CtlInv c)
    (hmotion : c.state.ballInMotion = true) : CtlInv (c.checkKnockedPins down) := by
  obtain ⟨-, -, -, htimers, hhalf⟩ := ctlInv_inMotion c h hmotion
  obtain ⟨hn, hr, -⟩ := checkKnockedPins_keeps c down h.nodup h.inRange
  obtain ⟨added, heq, -, -⟩ := checkKnockedPins_spec c down
  rw [heq] at hn hr ⊢
  exact ⟨h.canon, h.loc, h.sums, hn, hr, h.bodies, h.remaining, h.flags, h.motion,
    Or.inl ⟨htimers, hhalf⟩⟩

theorem ctlInv_update (c : GameController) (tick : Tick) (h : CtlInv c) :
    ∃ c1, c.update tick = some c1 ∧ CtlInv c1 := by
  unfold GameController.update
  split
  · exact ⟨c, rfl, h⟩
  · split
    · rename_i hcond
      simp only [Bool.and_eq_true, Bool.not_eq_true'] at hcond
      have hmotion := hcond.1
      have hk := ctlInv_checkKnockedPins c tick.isPinKnockedDown h hmotion
      have hkmotion : (c.checkKnockedPins tick.isPinKnockedDown).state.ballInMotion = true := by
        obtain ⟨added, heq, -, -⟩ := checkKnockedPins_spec c tick.isPinKnockedDown
        rw [heq]; exact hmotion
      generalize c.checkKnockedPins tick.isPinKnockedDown = ck at hk hkmotion
      obtain ⟨hthrowing, hres, hwait, htimers, hhalf⟩ := ctlInv_inMotion ck hk hkmotion
      simp only
      split
      · split
        · refine ⟨_, rfl, hk.canon, hk.loc, hk.sums, hk.nodup, hk.inRange, hk.bodies,
            hk.remaining, hk.flags, ?_, ?_⟩
          · intro hm; cases hm
          · refine Or.inr (Or.inl ⟨800, ?_, hres, hthrowing, rfl, hhalf⟩)
            simp [GameController.setTimeout, htimers]
        · exact ⟨ck, rfl, hk⟩
      · split
        · have hk2 : CtlInv (if ck.ballStoppedTime = 0 then
              { ck with ballStoppedTime := tick.now } else ck) := by
            split
            · exact ctlInv_of_eq ck _ hk rfl rfl rfl rfl rfl rfl
            · exact hk
          have hm2 : (if ck.ballStoppedTime = 0 then
              { ck with ballStoppedTime := tick.now } else ck).state.ballInMotion = true := by
            split
            · exact hkmotion
            · exact hkmotion
          generalize (if ck.ballStoppedTime = 0 then
              { ck with ballStoppedTime := tick.now } else ck) = c2 at hk2 hm2
          obtain ⟨-, hres2, hwait2, htimers2, hhalf2⟩ := ctlInv_inMotion c2 hk2 hm2
          split
          · split
            · exact handleThrowComplete_inv c2 hk2.canon hk2.loc hk2.sums hk2.nodup hk2.inRange
                hk2.bodies hk2.remaining hhalf2 hres2 hwait2 htimers2
            · exact ⟨c2, rfl, hk2⟩
          · exact ⟨c2, rfl, hk2⟩
        · exact ⟨_, rfl, ctlInv_of_eq ck _ hk rfl rfl rfl rfl rfl rfl⟩
    · exact ⟨c, rfl, h⟩

/-! ## The invariant of the controller: callbacks -/

theorem startNextGame_canon (P : Int → Prop) (s : ScoringSystem) (hs : SysCanon s)
    (hb : PinsIn P s) :
    SysCanon s.startNextGame.2 ∧ PinsIn P s.startNextGame.2 ∧
      ∀ g, g ∈ s.startNextGame.2.games → g ∈ s.games ∨ g = newGame := by
  unfold ScoringSystem.startNextGame
  split
  · refine ⟨sysCanon_initNewGame _ hs.cursor hs.games, ?_, ?_⟩
    · intro g hg i x hx
      simp only [ScoringSystem.initNewGame, List.mem_append, List.mem_singleton] at hg
      rcases hg with h | h
      · exact hb g h i x hx
      · rw [h, throwsAt_newGame] at hx
        cases hx
    · intro g hg
      simpa [ScoringSystem.initNewGame] using hg
  · exact ⟨hs, hb, fun g hg => Or.inl hg⟩

theorem allGames_set (Q : Game → Prop) (m : MultiPlayerScoring) (i : Nat) (s : ScoringSystem)
    (h : AllGames Q m) (hs : ∀ g, g ∈ s.games → Q g) : AllGames Q (m.setScoringSystem i s) := by
  intro pl hpl g hg
  obtain ⟨j, hj⟩ := getElem?_of_mem _ _ hpl
  rw [setScoringSystem_get] at hj
  cases hold : m.players[j]? with
  | none => rw [hold] at hj; cases hj
  | some old =>
    rw [hold] at hj
    simp only [Option.map_some', Option.some.injEq] at hj
    by_cases hij : i = j
    · rw [if_pos hij] at hj
      rw [← hj] at hg
      exact hs g hg
    · rw [if_neg hij] at hj
      rw [← hj] at hg
      exact h old (mem_of_getElem? _ _ _ hold) g hg

theorem foldlM_complete_some (l : List Player)
    (h : ∀ pl, pl ∈ l → ∃ g, pl.scoringSystem.getCurrentGame = some g) :
    ∀ a : Bool, ∃ b,
      l.foldlM (fun all player =>
        match player.scoringSystem.getCurrentGame with
        | none => none
        | some game => some (all && game.isComplete)) a = some b := by
  induction l with
  | nil => intro a; exact ⟨a, rfl⟩
  | cons pl rest ih =>
    intro a
    obtain ⟨g, hg⟩ := h pl (List.mem_cons_self _ _)
    simp only [List.foldlM_cons, hg]
    exact ih (fun pl2 h2 => h pl2 (List.mem_cons_of_mem _ h2)) _

theorem isGameComplete_some (P : Int → Prop) (m : MultiPlayerScoring) (hm : MultiCanon P m) :
    ∃ b, m.isGameComplete = some b := by
  unfold MultiPlayerScoring.isGameComplete
  apply foldlM_complete_some
  intro pl hpl
  obtain ⟨g, hg, -⟩ := sysCanon_current _ (hm.players pl hpl).1
  exact ⟨g, hg⟩

theorem ctlInv_handleGameComplete (c : GameController)
    (hcanon : MultiCanon (fun x => 0 ≤ x ∧ x ≤ 10) c.scoring)
    (hno : AllGames NoHalf c.scoring) (hsums : AllGames SumsOk c.scoring)
    (hnodup : c.knockedPins.Nodup)
    (hrange : ∀ i, i ∈ c.knockedPins → i < c.pinBodies.length)
    (hbodies : c.pinBodies.length ≤ 10) (hrem : c.state.pinsRemaining = c.pinBodies.length)
    (hflags : c.state.waitingForReset = c.isResetting) (hres : c.isResetting = true)
    (hmotion : c.state.ballInMotion = false) (htimers : c.timers = []) :
    ∃ c1, c.handleGameComplete = some c1 ∧ CtlInv c1 := by
  obtain ⟨pl, hplget⟩ : ∃ pl, c.scoring.players[c.scoring.currentPlayerIndex]? = some pl :=
    ⟨_, List.getElem?_eq_getElem hcanon.cursor⟩
  have hpl : c.scoring.getCurrentPlayer = some pl := hplget
  have hplmem : pl ∈ c.scoring.players := mem_of_getElem? _ _ _ hplget
  obtain ⟨hsys, hpins⟩ := hcanon.players pl hplmem
  obtain ⟨hsys1, hpins1, hgames⟩ := startNextGame_canon _ pl.scoringSystem hsys hpins
  have hcanon1 : MultiCanon (fun x => 0 ≤ x ∧ x ≤ 10)
      (c.scoring.setScoringSystem c.scoring.currentPlayerIndex pl.scoringSystem.startNextGame.2) :=
    ⟨by rw [setScoringSystem_length]; exact hcanon.cursor,
      multiCanon_set _ c.scoring _ hcanon hsys1 hpins1⟩
  have hno1 : AllGames NoHalf
      (c.scoring.setScoringSystem c.scoring.currentPlayerIndex pl.scoringSystem.startNextGame.2) := by
    apply allGames_set _ _ _ _ hno
    intro g hg
    rcases hgames g hg with h | h
    · exact hno pl hplmem g h
    · rw [h]; exact noHalf_newGame
  have hsums1 : AllGames SumsOk
      (c.scoring.setScoringSystem c.scoring.currentPlayerIndex pl.scoringSystem.startNextGame.2) := by
    apply allGames_set _ _ _ _ hsums
    intro g hg
    rcases hgames g hg with h | h
    · exact hsums pl hplmem g h
    · rw [h]; exact sumsOk_newGame
  unfold GameController.handleGameComplete
  simp only [hpl]
  split
  · refine ⟨_, rfl, hcanon1, local_of_allGames _ hno1, hsums1, hnodup, hrange, hbodies, hrem,
      hflags, fun h => ?_, ?_⟩
    · have : c.state.ballInMotion = true := h
      rw [hmotion] at this; cases this
    · refine Or.inr (Or.inr (Or.inl ⟨2000, Callback.resetFrame, ?_, Or.inl rfl, hres, hmotion,
        hno1⟩))
      simp [GameController.setTimeout, htimers]
  · refine ⟨_, rfl, hcanon1, local_of_allGames _ hno1, hsums1, hnodup, hrange, hbodies, hrem,
      hflags, fun h => ?_, ?_⟩
    · have : c.state.ballInMotion = true := h
      rw [hmotion] at this; cases this
    · exact Or.inl ⟨htimers, allGames_halfBound _ _ hno1⟩

/-! ## The invariant of the controller: firing a callback, and runs -/

theorem singleton_getElem? {α : Type} (t0 t : α) (i : Nat) (h : [t0][i]? = some t) :
    i = 0 ∧ t = t0 := by
  cases i with
  | zero => simp at h; exact ⟨rfl, h.symm⟩
  | succ n => simp at h

theorem ctlInv_resetForSecondBall (c : GameController)
    (hcanon : MultiCanon (fun x => 0 ≤ x ∧ x ≤ 10) c.scoring) (hloc : Local c.scoring)
    (hsums : AllGames SumsOk c.scoring) (hnodup : c.knockedPins.Nodup)
    (hrange : ∀ i, i ∈ c.knockedPins → i < c.pinBodies.length)
    (hbodies : c.pinBodies.length ≤ 10)
    (hmotion : c.state.ballInMotion = false) (htimers : c.timers = [])
    (hhalf : AllGames (HalfBound ((c.pinBodies.length : Int) - c.knockedPins.length))
      c.scoring) :
    CtlInv c.resetForSecondBall := by
  obtain ⟨-, -, hk, hrem, hlen⟩ := resetForSecondBall_standing c hnodup
  have hlen2 := hlen hrange
  have hscoring : c.resetForSecondBall.scoring = c.scoring := by
    rw [resetForSecondBall_fields]
  have hm : c.resetForSecondBall.state.ballInMotion = c.state.ballInMotion := by
    rw [resetForSecondBall_fields]
  have hw : c.resetForSecondBall.state.waitingForReset = false := by
    rw [resetForSecondBall_fields]
  have hr : c.resetForSecondBall.isResetting = false := by
    rw [resetForSecondBall_fields]
  have ht : c.resetForSecondBall.timers = c.timers := by
    rw [resetForSecondBall_fields]
  refine ⟨by rw [hscoring]; exact hcanon, by rw [hscoring]; exact hloc,
    by rw [hscoring]; exact hsums, by rw [hk]; exact List.nodup_nil, ?_, by omega, hrem,
    by rw [hw, hr], ?_, ?_⟩
  · intro i hi
    rw [hk] at hi
    cases hi
  · intro h
    rw [hm, hmotion] at h
    cases h
  · refine Or.inl ⟨by rw [ht, htimers], ?_⟩
    rw [hscoring]
    have e : ((c.resetForSecondBall.pinBodies.length : Nat) : Int) =
        (c.pinBodies.length : Int) - c.knockedPins.length := by
      omega
    rw [e]
    exact hhalf

theorem ctlInv_fire (c : GameController) (i : Nat) (t : Timer) (h : CtlInv c)
    (ht : c.timers[i]? = some t) : ∃ c1, c.fire i = some c1 ∧ CtlInv c1 := by
  unfold GameController.fire
  rw [ht]
  simp only
  rcases h.phase with ⟨h1, -⟩ | ⟨d, h1, hres, -, hmotion, hhalf⟩ |
      ⟨d, cb, h1, hcb, hres, hmotion, hno⟩ | ⟨d, h1, hres, hmotion, hhalf⟩
  · rw [h1] at ht
    simp at ht
  · rw [h1] at ht
    obtain ⟨rfl, rfl⟩ := singleton_getElem? _ _ _ ht
    have h0 : c.timers.eraseIdx 0 = [] := by rw [h1]; rfl
    exact handleThrowComplete_inv { c with timers := c.timers.eraseIdx 0 } h.canon h.loc h.sums
      h.nodup h.inRange h.bodies h.remaining hhalf hres (by rw [← hres]; exact h.flags) h0
  · rw [h1] at ht
    obtain ⟨rfl, rfl⟩ := singleton_getElem? _ _ _ ht
    have h0 : c.timers.eraseIdx 0 = [] := by rw [h1]; rfl
    have hreset := ctlInv_resetFrame { c with timers := c.timers.eraseIdx 0 } h.canon hno
      h.sums h0
    rcases hcb with rfl | rfl
    · exact ⟨_, rfl, hreset⟩
    · simp only [GameController.runCallback]
      obtain ⟨b, hb⟩ := isGameComplete_some _ c.scoring h.canon
      rw [hb]
      cases b with
      | true =>
        exact ctlInv_handleGameComplete { c with timers := c.timers.eraseIdx 0 } h.canon hno
          h.sums h.nodup h.inRange h.bodies h.remaining h.flags hres hmotion h0
      | false => exact ⟨_, rfl, hreset⟩
  · rw [h1] at ht
    obtain ⟨rfl, rfl⟩ := singleton_getElem? _ _ _ ht
    have h0 : c.timers.eraseIdx 0 = [] := by rw [h1]; rfl
    exact ⟨_, rfl, ctlInv_resetForSecondBall { c with timers := c.timers.eraseIdx 0 } h.canon
      h.loc h.sums h.nodup h.inRange h.bodies hmotion h0 hhalf⟩

theorem ctlInv_restart (c : GameController) (mode : Mode) (htimers : c.timers = []) :
    CtlInv (UIManager.startNewGame c mode) :=
  ctlInv_resetFrame _ (multiCanon_new _ mode) (allGames_new _ mode noHalf_newGame)
    (allGames_new _ mode sumsOk_newGame) htimers

theorem ctlInv_run (c : GameController) (h : GameController.CalmRun c) : CtlInv c := by
  induction h with
  | start mode => exact ctlInv_start mode
  | throwBall c now _ ih => exact ctlInv_throwBall c now ih
  | update c c1 tick _ hstep ih =>
    obtain ⟨c2, h2, hinv⟩ := ctlInv_update c tick ih
    rw [h2] at hstep
    cases hstep
    exact hinv
  | fire c c1 i _ hstep ih =>
    cases ht : c.timers[i]? with
    | none =>
      unfold GameController.fire at hstep
      rw [ht] at hstep
      cases hstep
    | some t =>
      obtain ⟨c2, h2, hinv⟩ := ctlInv_fire c i t ih ht
      rw [h2] at hstep
      cases hstep
      exact hinv
  | restart c mode _ htimers _ => exact ctlInv_restart c mode htimers

/-! ## What `handleThrowComplete` records -/

theorem handle10thFrameReset_scoring (c : GameController) (f : Frame) :
    (c.handle10thFrameReset f).scoring = c.scoring := by
  obtain ⟨ball, extra, heq, -⟩ := GameController.handle10thFrameReset_shape c f
  rw [heq]

theorem handleThrowComplete_records (c c1 : GameController)
    (h : c.handleThrowComplete = some c1) :
    c1.scoring = c.scoring ∨
      ∃ r, c.scoring.recordThrow (c.knockedPins.length : Int) = some r ∧ c1.scoring = r.2 := by
  unfold GameController.handleThrowComplete at h
  split at h
  · left; cases h; rfl
  · right
    simp only at h
    split at h
    · cases h
    · split at h
      · cases h
      · cases h
      · split at h
        · cases h
        · rename_i recorded scoring1 hrec
          refine ⟨(recorded, scoring1), hrec, ?_⟩
          split at h
          · cases h
          · split at h
            · cases h
            · split at h
              · cases h
              · split at h
                · cases h
                · split at h
                  · split at h
                    · cases h; rfl
                    · cases h; rfl
                  · cases h
                    exact handle10thFrameReset_scoring _ _

/-! ## Played throws are runs -/

theorem calm_playThrow (c c1 : GameController) (n : Nat) (h : GameController.CalmRun c)
    (hplay : c.playThrow n = some c1) : GameController.CalmRun c1 := by
  unfold GameController.playThrow at hplay
  simp only at hplay
  have h1 := GameController.CalmRun.throwBall c 0 h
  split at hplay
  · cases hplay
  · rename_i c2 hupdate
    have h2 := GameController.CalmRun.update _ c2 _ h1 hupdate
    split at hplay
    · cases hplay
    · rename_i c3 hfire
      have h3 := GameController.CalmRun.fire c2 c3 0 h2 hfire
      split at hplay
      · cases hplay; exact h3
      · exact GameController.CalmRun.fire c3 c1 0 h3 hplay

theorem calm_playThrows (ns : List Nat) :
    ∀ c c1 : GameController, GameController.CalmRun c → c.playThrows ns = some c1 →
      GameController.CalmRun c1 := by
  induction ns with
  | nil =>
    intro c c1 h hplay
    simp only [GameController.playThrows, Option.some.injEq] at hplay
    rw [← hplay]; exact h
  | cons n rest ih =>
    intro c c1 h hplay
    simp only [GameController.playThrows] at hplay
    split at hplay
    · cases hplay
    · rename_i c2 h2
      exact ih c2 c1 (calm_playThrow c c2 n h h2) hplay

/-! ## What holds in every run, restarts included -/

theorem ctlBase_of_eq (c c1 : GameController) (h : CtlBase c) (h1 : c1.scoring = c.scoring)
    (h2 : c1.knockedPins = c.knockedPins) (h3 : c1.pinBodies = c.pinBodies)
    (h4 : c1.state.pinsRemaining = c.state.pinsRemaining) : CtlBase c1 := by
  obtain ⟨a1, a2, a3, a4, a5⟩ := h
  refine ⟨?_, ?_, ?_, ?_, ?_⟩
  · rw [h1]; exact a1
  · rw [h2]; exact a2
  · rw [h2, h3]; exact a3
  · rw [h3]; exact a4
  · rw [h3, h4]; exact a5

theorem ctlBase_scoring (c c1 : GameController) (h : CtlBase c)
    (h1 : MultiCanon (fun x => 0 ≤ x ∧ x ≤ 10) c1.scoring)
    (h2 : c1.knockedPins = c.knockedPins) (h3 : c1.pinBodies = c.pinBodies)
    (h4 : c1.state.pinsRemaining = c.state.pinsRemaining) : CtlBase c1 := by
  obtain ⟨-, a2, a3, a4, a5⟩ := h
  refine ⟨h1, ?_, ?_, ?_, ?_⟩
  · rw [h2]; exact a2
  · rw [h2, h3]; exact a3
  · rw [h3]; exact a4
  · rw [h3, h4]; exact a5

theorem ctlBase_resetFrame (c : GameController)
    (hcanon : MultiCanon (fun x => 0 ≤ x ∧ x ≤ 10) c.scoring) : CtlBase c.resetFrame := by
  refine ⟨hcanon, List.nodup_nil, ?_, ?_, ?_⟩
  · intro i hi
    simp [GameController.resetFrame, GameController.resetBall] at hi
  · simp [GameController.resetFrame, GameController.resetBall, createPins]
  · simp [GameController.resetFrame, GameController.resetBall, createPins]

theorem ctlBase_restart (c : GameController) (mode : Mode) :
    CtlBase (UIManager.startNewGame c mode) :=
  ctlBase_resetFrame _ (multiCanon_new _ mode)

theorem ctlBase_throwBall (c : GameController) (now : Int) (h : CtlBase c) :
    CtlBase (c.throwBall now).2 := by
  unfold GameController.throwBall
  split
  · exact h
  · split
    · exact h
    · exact ctlBase_of_eq c _ h rfl rfl rfl rfl

theorem ctlBase_checkKnockedPins (c : GameController) (down : PinBody → Bool)
    (h : CtlBase c) : CtlBase (c.checkKnockedPins down) := by
  obtain ⟨hn, hr, -⟩ := checkKnockedPins_keeps c down h.nodup h.inRange
  obtain ⟨added, heq, -, -⟩ := checkKnockedPins_spec c down
  rw [heq] at hn hr ⊢
  exact ⟨h.canon, hn, hr, h.bodies, h.remaining⟩

theorem handleThrowComplete_base (c : GameController) (h : CtlBase c) :
    ∃ c1, c.handleThrowComplete = some c1 ∧ CtlBase c1 := by
  by_cases hguard : (c.isResetting || c.state.waitingForReset) = true
  · exact ⟨c, handleThrowComplete_guarded c (by simpa using hguard), h⟩
  · have hlen : c.knockedPins.length ≤ c.pinBodies.length :=
      nodup_length_le _ _ h.nodup h.inRange
    have hb := h.bodies
    obtain ⟨pl, f, k, r, pl1, g1, f1, hpl, hf, hfn, hk, hr, hcanon1, hpl1, hg1, hf1, -, -, -,
      -, -⟩ := multi_record_core c.scoring c.knockedPins.length 0 h.canon (by omega) (by omega)
    obtain ⟨b, scoring1⟩ := r
    unfold GameController.handleThrowComplete
    rw [if_neg hguard]
    simp only [hpl, hf, hr, hpl1, hg1, hfn, Nat.add_sub_cancel, hf1, Nat.succ_ne_zero, if_false]
    split
    · split
      · exact ⟨_, rfl, ctlBase_scoring c _ h hcanon1 rfl rfl rfl⟩
      · exact ⟨_, rfl, ctlBase_scoring c _ h hcanon1 rfl rfl rfl⟩
    · obtain ⟨ball, extra, heq, -⟩ := GameController.handle10thFrameReset_shape
        { c with scoring := scoring1,
                 state := { c.state with ballInMotion := false, waitingForReset := true },
                 isResetting := true } f1
      refine ⟨_, congrArg some heq, ctlBase_scoring c _ h hcanon1 rfl rfl rfl⟩

theorem ctlBase_update (c : GameController) (tick : Tick) (h : CtlBase c) :
    ∃ c1, c.update tick = some c1 ∧ CtlBase c1 := by
  unfold GameController.update
  split
  · exact ⟨c, rfl, h⟩
  · split
    · have hk := ctlBase_checkKnockedPins c tick.isPinKnockedDown h
      generalize c.checkKnockedPins tick.isPinKnockedDown = ck at hk
      simp only
      split
      · split
        · exact ⟨_, rfl, ctlBase_of_eq ck _ hk rfl rfl rfl rfl⟩
        · exact ⟨ck, rfl, hk⟩
      · split
        · have hk2 : CtlBase (if ck.ballStoppedTime = 0 then
              { ck with ballStoppedTime := tick.now } else ck) := by
            split
            · exact ctlBase_of_eq ck _ hk rfl rfl rfl rfl
            · exact hk
          generalize (if ck.ballStoppedTime = 0 then
              { ck with ballStoppedTime := tick.now } else ck) = c2 at hk2
          split
          · split
            · exact handleThrowComplete_base c2 hk2
            · exact ⟨c2, rfl, hk2⟩
          · exact ⟨c2, rfl, hk2⟩
        · exact ⟨_, rfl, ctlBase_of_eq ck _ hk rfl rfl rfl rfl⟩
    · exact ⟨c, rfl, h⟩

theorem ctlBase_resetForSecondBall (c : GameController) (h : CtlBase c) :
    CtlBase c.resetForSecondBall := by
  obtain ⟨-, -, hk, hrem, hlen⟩ := resetForSecondBall_standing c h.nodup
  have hlen2 := hlen h.inRange
  have hb := h.bodies
  have hscoring : c.resetForSecondBall.scoring = c.scoring := by
    rw [resetForSecondBall_fields]
  refine ⟨by rw [hscoring]; exact h.canon, by rw [hk]; exact List.nodup_nil, ?_, by omega,
    hrem⟩
  intro i hi
  rw [hk] at hi
  cases hi

theorem ctlBase_handleGameComplete (c : GameController) (h : CtlBase c) :
    ∃ c1, c.handleGameComplete = some c1 ∧ CtlBase c1 := by
  obtain ⟨pl, hplget⟩ : ∃ pl, c.scoring.players[c.scoring.currentPlayerIndex]? = some pl :=
    ⟨_, List.getElem?_eq_getElem h.canon.cursor⟩
  have hpl : c.scoring.getCurrentPlayer = some pl := hplget
  have hplmem : pl ∈ c.scoring.players := mem_of_getElem? _ _ _ hplget
  obtain ⟨hsys, hpins⟩ := h.canon.players pl hplmem
  obtain ⟨hsys1, hpins1, -⟩ := startNextGame_canon _ pl.scoringSystem hsys hpins
  have hcanon1 : MultiCanon (fun x => 0 ≤ x ∧ x ≤ 10)
      (c.scoring.setScoringSystem c.scoring.currentPlayerIndex pl.scoringSystem.startNextGame.2) :=
    ⟨by rw [setScoringSystem_length]; exact h.canon.cursor,
      multiCanon_set _ c.scoring _ h.canon hsys1 hpins1⟩
  unfold GameController.handleGameComplete
  simp only [hpl]
  split
  · exact ⟨_, rfl, ctlBase_scoring c _ h hcanon1 rfl rfl rfl⟩
  · exact ⟨_, rfl, ctlBase_scoring c _ h hcanon1 rfl rfl rfl⟩

theorem ctlBase_fire (c : GameController) (i : Nat) (t : Timer) (h : CtlBase c)
    (ht : c.timers[i]? = some t) : ∃ c1, c.fire i = some c1 ∧ CtlBase c1 := by
  unfold GameController.fire
  rw [ht]
  simp only
  have h0 : CtlBase { c with timers := c.timers.eraseIdx i } :=
    ctlBase_of_eq c _ h rfl rfl rfl rfl
  generalize ({ c with timers := c.timers.eraseIdx i } : GameController) = c0 at h0
  cases t.callback with
  | handleThrowComplete => exact handleThrowComplete_base c0 h0
  | resetFrame => exact ⟨_, rfl, ctlBase_resetFrame c0 h0.canon⟩
  | resetForSecondBall => exact ⟨_, rfl, ctlBase_resetForSecondBall c0 h0⟩
  | tenthFrameComplete =>
    simp only [GameController.runCallback]
    obtain ⟨b, hb⟩ := isGameComplete_some _ c0.scoring h0.canon
    rw [hb]
    cases b with
    | true => exact ctlBase_handleGameComplete c0 h0
    | false => exact ⟨_, rfl, ctlBase_resetFrame c0 h0.canon⟩

theorem ctlBase_run (c : GameController) (h : GameController.Run c) : CtlBase c := by
  induction h with
  | start mode => exact ctlBase_resetFrame _ (multiCanon_new _ mode)
  | throwBall c now _ ih => exact ctlBase_throwBall c now ih
  | update c c1 tick _ hstep ih =>
    obtain ⟨c2, h2, hinv⟩ := ctlBase_update c tick ih
    rw [h2] at hstep
    cases hstep
    exact hinv
  | fire c c1 i _ hstep ih =>
    cases ht : c.timers[i]? with
    | none =>
      unfold GameController.fire at hstep
      rw [ht] at hstep
      cases hstep
    | some t =>
      obtain ⟨c2, h2, hinv⟩ := ctlBase_fire c i t ih ht
      rw [h2] at hstep
      cases hstep
      exact hinv
  | restart c mode _ _ => exact ctlBase_restart c mode

theorem run_of_calm (c : GameController) (h : GameController.CalmRun c) :
    GameController.Run c := by
  induction h with
  | start mode => exact GameController.Run.start mode
  | throwBall c now _ ih => exact GameController.Run.throwBall c now ih
  | update c c1 tick _ hstep ih => exact GameController.Run.update c c1 tick ih hstep
  | fire c c1 i _ hstep ih => exact GameController.Run.fire c c1 i ih hstep
  | restart c mode _ _ ih => exact GameController.Run.restart c mode ih

/-! ## States reached by recorded throws -/

theorem reachable_recordThrows (ts : List Int) :
    ∀ s s2 : ScoringSystem, Reachable s → s.recordThrows ts = some s2 → Reachable s2 := by
  induction ts with
  | nil =>
    intro s s2 h hrec
    simp only [ScoringSystem.recordThrows, Option.some.injEq] at hrec
    rw [← hrec]; exact h
  | cons p rest ih =>
    intro s s2 h hrec
    simp only [ScoringSystem.recordThrows] at hrec
    split at hrec
    · cases hrec
    · rename_i r hr
      exact ih r.2 s2 (Reachable.recordThrow s p r h hr) hrec

/-! ## The claims -/

/-- C1. For every legal complete ten-pin game, given as the flat list of its throws (every
throw in [0,10]; in frames 1-9 a strike is one throw and any other frame two throws that sum
to at most 10; the tenth frame has three throws after a strike or a spare and two
otherwise), recording the throws in order with `recordThrow` on a fresh `ScoringSystem`
returns a state whose game holds exactly these throws, is complete, and has a `totalScore`
equal to the official ten-pin score of the flat list of throws. -/
theorem legal_game_official_score (ts : List Int) (h : legalGame 9 ts = true) :
    ∃ s g, ScoringSystem.new.recordThrows ts = some s ∧ s.getCurrentGame = some g ∧
      s.games = [g] ∧ g.isComplete = true ∧
      (g.frames.map (fun f => f.throws)).flatten = ts ∧
      g.totalScore = officialScore 10 ts := by
  have hg0 : ScoringSystem.new.getCurrentGame = some newGame := rfl
  obtain ⟨s, g, hrec, hg, hcan, hcomp, hflat, -⟩ :=
    record_legal 9 0 ts ScoringSystem.new newGame rfl h sysCanon_new hg0
      (fun i hi => absurd hi (Nat.not_lt_zero i)) (fun i _ => throwsAt_newGame i)
  obtain ⟨s1, g1, hrec1, hg1, hgames1, -⟩ :=
    recordThrows_new (fun _ => True) ts (fun _ _ => trivial)
  rw [hrec] at hrec1
  cases hrec1
  rw [hg] at hg1
  cases hg1
  refine ⟨s, g, hrec, hg, hgames1, hcomp, ?_, ?_⟩
  · rw [canon_flat g hcan]
    exact hflat
  · rw [canon_total_sumFrom g hcan]
    have hall : ∀ i, 0 ≤ i → i ≤ 9 →
        completeOf i (throwsAt g.frames i) = true ∧ shapeOf i (throwsAt g.frames i) :=
      fun i _ hi => ⟨canon_complete_all g hcan hcomp (9 - i) i (by omega),
        canon_shape g hcan i (by omega)⟩
    rw [sumFrom_official (throwsAt g.frames) 9 0 rfl hall, hflat]

/-- The instance of C1 for a game with strikes, spares and open frames: the throws
10, 7 3, 9 0, 10, 0 8, 8 2, 0 6, 10, 10, 10 8 1 are recorded in full and score 167. -/
theorem legal_game_official_score_witness :
    legalGame 9 [10, 7, 3, 9, 0, 10, 0, 8, 8, 2, 0, 6, 10, 10, 10, 8, 1] = true ∧
    officialScore 10 [10, 7, 3, 9, 0, 10, 0, 8, 8, 2, 0, 6, 10, 10, 10, 8, 1] = 167 ∧
    ∃ s g, ScoringSystem.new.recordThrows
        [10, 7, 3, 9, 0, 10, 0, 8, 8, 2, 0, 6, 10, 10, 10, 8, 1] = some s ∧
      s.getCurrentGame = some g ∧ s.games = [g] ∧ g.isComplete = true ∧
      (g.frames.map (fun f => f.throws)).flatten =
        [10, 7, 3, 9, 0, 10, 0, 8, 8, 2, 0, 6, 10, 10, 10, 8, 1] ∧
      g.totalScore = officialScore 10 [10, 7, 3, 9, 0, 10, 0, 8, 8, 2, 0, 6, 10, 10, 10, 8, 1] :=
  ⟨by decide, by decide,
    legal_game_official_score [10, 7, 3, 9, 0, 10, 0, 8, 8, 2, 0, 6, 10, 10, 10, 8, 1]
      (by decide)⟩

/-- C2. A perfect game: twelve throws of 10 recorded on a fresh `ScoringSystem` are all
accepted and leave a complete game with `totalScore = 300`, whose frames 1-9 hold the
single throw 10 and whose frame 10 holds `[10, 10, 10]`. -/
theorem perfect_game_300 :
    ∃ s g, ScoringSystem.new.recordThrows [10, 10, 10, 10, 10, 10, 10, 10, 10, 10, 10, 10] = some s ∧
      s.getCurrentGame = some g ∧ g.isComplete = true ∧ g.totalScore = 300 ∧
      g.frames.map (fun f => f.throws) =
        [[10], [10], [10], [10], [10], [10], [10], [10], [10], [10, 10, 10]] := by
  refine ⟨_, _, rfl, rfl, ?_⟩
  decide

/-- C3. An all-gutter game: twenty throws of 0 recorded on a fresh `ScoringSystem` leave a
complete game with `totalScore = 0` in which every one of the ten frames is complete, holds
exactly the two throws `[0, 0]`, and is neither a strike nor a spare. -/
theorem gutter_game_0 :
    ∃ s g, ScoringSystem.new.recordThrows
        [0, 0, 0, 0, 0, 0, 0, 0, 0, 0, 0, 0, 0, 0, 0, 0, 0, 0, 0, 0] = some s ∧
      s.getCurrentGame = some g ∧ g.isComplete = true ∧ g.totalScore = 0 ∧
      g.frames.length = 10 ∧
      ∀ f, f ∈ g.frames → f.isComplete = true ∧ f.throws = [0, 0] ∧ f.isStrike = false ∧
        f.isSpare = false := by
  refine ⟨_, _, rfl, rfl, ?_⟩
  decide

/-- C4. After any sequence of `recordThrow` calls on a fresh `ScoringSystem` (any integer
pin counts, in particular those in [0,10]) and for every frame 1-9: the frame is a spare
exactly when it holds two throws that sum to 10 and whose first is not 10, and the score
of a spare is `null` while the next frame has no throw and is 10 + the first throw of the
next frame as soon as the next frame has a throw.  On a fresh game the throws 5, 5, 3 give
frame 1 the score 13 and `totalScore` 13 while the score of frame 2 is still `null`. -/
theorem spare_score :
    (∀ (ts : List Int) (i : Nat), i < 9 →
      ∃ (s : ScoringSystem) (g : Game) (f next : Frame),
        ScoringSystem.new.recordThrows ts = some s ∧ s.getCurrentGame = some g ∧
        g.frames[i]? = some f ∧ g.frames[i + 1]? = some next ∧
        (f.isSpare = true ↔ ∃ a b, f.throws = [a, b] ∧ a ≠ 10 ∧ a + b = 10) ∧
        (f.isSpare = true →
          f.score = match next.throws with
            | [] => none
            | c :: _ => some (10 + c))) ∧
    ((ScoringSystem.new.recordThrows [5, 5, 3]).bind (fun s => s.getCurrentGame.map
        (fun g => (g.frames.map (fun f => f.throws), g.frames.map (fun f => f.score),
          g.totalScore))) =
      some ([[5, 5], [3], [], [], [], [], [], [], [], []],
        [some 13, none, none, none, none, none, none, none, none, none], 13)) := by
  refine ⟨?_, by decide⟩
  intro ts i hi
  obtain ⟨s, g, hrec, hg, -, -, hcan, -⟩ :=
    recordThrows_new (fun _ => True) ts (fun _ _ => trivial)
  obtain ⟨f, hf, ⟨-, -, hsp, -, hshape⟩, hft, hsc⟩ := canon_get g hcan i (by omega)
  obtain ⟨next, hnext, -, hnt, -⟩ := canon_get g hcan (i + 1) (by omega)
  refine ⟨s, g, f, next, hrec, hg, hf, hnext, ?_, ?_⟩
  · rw [hsp]
    rcases regular_frame_cases i f.throws hi hshape with h | ⟨a, h⟩ | ⟨a, b, ha, h⟩
    · simp [h, spareOf, pinAt]
    · rw [h]
      simp only [spareOf, pinAt, List.getD_cons_zero, List.getD_cons_succ, List.getD_nil,
        Bool.and_eq_true, decide_eq_true_eq]
      constructor
      · rintro ⟨h1, h2⟩
        exact absurd (by omega) h1
      · rintro ⟨a2, b2, h2, -⟩
        simp at h2
    · rw [h]
      simp only [spareOf, pinAt, List.getD_cons_zero, List.getD_cons_succ,
        Bool.and_eq_true, decide_eq_true_eq]
      constructor
      · rintro ⟨h1, h2⟩
        exact ⟨a, b, rfl, h1, h2⟩
      · rintro ⟨a2, b2, h2, h3, h4⟩
        simp only [List.cons.injEq, and_true] at h2
        obtain ⟨rfl, rfl⟩ := h2
        exact ⟨h3, h4⟩
  · intro hspare
    rw [hsp] at hspare
    have hnostrike : strikeOf f.throws = false := by
      simp only [spareOf, Bool.and_eq_true, decide_eq_true_eq] at hspare
      simp [strikeOf, hspare.1]
    rw [hsc]
    unfold scoreFn
    rw [← hft, ← hnt]
    simp only [hi, if_true, hnostrike, hspare, Bool.false_eq_true, if_false]
    cases hn : next.throws with
    | nil => simp
    | cons c r => simp [pinAt]

/-- The instance of C4 for the throws 5, 5, 3 and frame 1. -/
theorem spare_score_witness :
    ∃ (s : ScoringSystem) (g : Game) (f next : Frame),
      ScoringSystem.new.recordThrows [5, 5, 3] = some s ∧ s.getCurrentGame = some g ∧
      g.frames[0]? = some f ∧ g.frames[0 + 1]? = some next ∧
      (f.isSpare = true ↔ ∃ a b, f.throws = [a, b] ∧ a ≠ 10 ∧ a + b = 10) ∧
      (f.isSpare = true →
        f.score = match next.throws with
          | [] => none
          | c :: _ => some (10 + c)) :=
  spare_score.1 [5, 5, 3] 0 (by decide)

/-- C5. After any sequence of `recordThrow` calls on a fresh `ScoringSystem` (any integer
pin counts, in particular those in [0,10]) and for every frame 1-9 (index `i`, frame number
`i + 1`): the frame is a strike exactly when it holds the single throw 10, and the score of
a strike is 10 + the first two throws of the next frame when that frame has at least two
throws; 20 + the first throw of the frame after the next when the next frame is a
single-throw strike, the frame number is at most 8 and the frame after the next has a
throw; and `null` in every other case.  A strike in frame 9 followed by frame 10 = [4,4]
gives frame 9 the score 18, and a strike in frame 9 followed by one throw only in frame 10
leaves frame 9 unscored. -/
theorem strike_score :
    (∀ (ts : List Int) (i : Nat), i < 9 →
      ∃ (s : ScoringSystem) (g : Game) (f next : Frame),
        ScoringSystem.new.recordThrows ts = some s ∧ s.getCurrentGame = some g ∧
        g.frames[i]? = some f ∧ g.frames[i + 1]? = some next ∧
        (f.isStrike = true ↔ f.throws = [10]) ∧
        (f.isStrike = true →
          f.score = match next.throws with
            | a :: b :: _ => some (10 + a + b)
            | [_] =>
              if next.isStrike = true ∧ i + 1 ≤ 8 then
                match throwsAt g.frames (i + 2) with
                | c :: _ => some (20 + c)
                | [] => none
              else none
            | [] => none)) ∧
    ((ScoringSystem.new.recordThrows
        [0, 0, 0, 0, 0, 0, 0, 0, 0, 0, 0, 0, 0, 0, 0, 0, 10, 4, 4]).bind
      (fun s => s.getCurrentGame.map (fun g => g.frames.map (fun f => (f.throws, f.score)))) =
      some [([0, 0], some 0), ([0, 0], some 0), ([0, 0], some 0), ([0, 0], some 0),
        ([0, 0], some 0), ([0, 0], some 0), ([0, 0], some 0), ([0, 0], some 0),
        ([10], some 18), ([4, 4], some 8)]) ∧
    ((ScoringSystem.new.recordThrows
        [0, 0, 0, 0, 0, 0, 0, 0, 0, 0, 0, 0, 0, 0, 0, 0, 10, 4]).bind
      (fun s => s.getCurrentGame.map (fun g => g.frames.map (fun f => (f.throws, f.score)))) =
      some [([0, 0], some 0), ([0, 0], some 0), ([0, 0], some 0), ([0, 0], some 0),
        ([0, 0], some 0), ([0, 0], some 0), ([0, 0], some 0), ([0, 0], some 0),
        ([10], none), ([4], none)]) ∧
    (∀ (ts : List Int), ∃ (s : ScoringSystem) (g : Game) (f next : Frame),
        ScoringSystem.new.recordThrows ts = some s ∧ s.getCurrentGame = some g ∧
        g.frames[8]? = some f ∧ g.frames[9]? = some next ∧
        (f.isStrike = true → next.throws.length = 1 → f.score = none)) := by
  have hmain : ∀ (ts : List Int) (i : Nat), i < 9 →
      ∃ (s : ScoringSystem) (g : Game) (f next : Frame),
        ScoringSystem.new.recordThrows ts = some s ∧ s.getCurrentGame = some g ∧
        g.frames[i]? = some f ∧ g.frames[i + 1]? = some next ∧
        (f.isStrike = true ↔ f.throws = [10]) ∧
        (f.isStrike = true →
          f.score = match next.throws with
            | a :: b :: _ => some (10 + a + b)
            | [_] =>
              if next.isStrike = true ∧ i + 1 ≤ 8 then
                match throwsAt g.frames (i + 2) with
                | c :: _ => some (20 + c)
                | [] => none
              else none
            | [] => none) := by
    intro ts i hi
    obtain ⟨s, g, hrec, hg, -, -, hcan, -⟩ :=
      recordThrows_new (fun _ => True) ts (fun _ _ => trivial)
    obtain ⟨f, hf, ⟨-, hst, -, -, hshape⟩, hft, hsc⟩ := canon_get g hcan i (by omega)
    obtain ⟨next, hnext, ⟨-, hst1, -, -, -⟩, hnt, -⟩ := canon_get g hcan (i + 1) (by omega)
    refine ⟨s, g, f, next, hrec, hg, hf, hnext, ?_, ?_⟩
    · rw [hst]
      rcases regular_frame_cases i f.throws hi hshape with h | ⟨a, h⟩ | ⟨a, b, ha, h⟩
      · simp [h, strikeOf, pinAt]
      · simp [h, strikeOf, pinAt]
      · simp [h, strikeOf, pinAt, ha]
    · intro hstrike
      rw [hst] at hstrike
      rw [hsc]
      unfold scoreFn
      rw [← hft, ← hnt, hst1]
      simp only [hi, if_true, hstrike]
      match hn : next.throws with
      | [] => simp
      | [a] =>
        have h8 : i + 1 ≤ 8 ↔ i < 8 := by omega
        simp only [List.length_singleton, Nat.not_ofNat_le_one, if_false, true_and, h8]
        by_cases hc : strikeOf [a] = true ∧ i < 8
        · rw [if_pos hc]
          cases h2 : throwsAt g.frames (i + 2) with
          | nil => simp [hc.1, hc.2]
          | cons c r => simp [hc.1, hc.2, pinAt]
        · rw [if_neg hc, if_neg]
          rintro ⟨h1, h2, -⟩
          exact hc ⟨h1, h2⟩
      | a :: b :: r => simp [pinAt, add_assoc]
  refine ⟨hmain, by decide, by decide, ?_⟩
  intro ts
  obtain ⟨s, g, f, next, hrec, hg, hf, hnext, -, hscore⟩ := hmain ts 8 (by omega)
  refine ⟨s, g, f, next, hrec, hg, hf, hnext, ?_⟩
  intro hstrike hlen
  rw [hscore hstrike]
  match hn : next.throws, hlen with
  | [a], _ => simp

/-- The instance of C5 for a strike in frame 9 followed by frame 10 = [4, 4]. -/
theorem strike_score_witness :
    ∃ (s : ScoringSystem) (g : Game) (f next : Frame),
      ScoringSystem.new.recordThrows
        [0, 0, 0, 0, 0, 0, 0, 0, 0, 0, 0, 0, 0, 0, 0, 0, 10, 4, 4] = some s ∧
      s.getCurrentGame = some g ∧
      g.frames[8]? = some f ∧ g.frames[8 + 1]? = some next ∧
      (f.isStrike = true ↔ f.throws = [10]) ∧
      (f.isStrike = true →
        f.score = match next.throws with
          | a :: b :: _ => some (10 + a + b)
          | [_] =>
            if next.isStrike = true ∧ 8 + 1 ≤ 8 then
              match throwsAt g.frames (8 + 2) with
              | c :: _ => some (20 + c)
              | [] => none
            else none
          | [] => none) :=
  strike_score.1 [0, 0, 0, 0, 0, 0, 0, 0, 0, 0, 0, 0, 0, 0, 0, 0, 10, 4, 4] 8 (by decide)

/-- C6. In every state reached from a fresh `ScoringSystem` by `recordThrow` calls (any
integer pin counts), the game has the frames numbered 1..10 and a frame numbered 1-9 has
`isComplete = true` if and only if its throws are the single throw 10 or it has exactly two
throws. -/
theorem regular_frame_complete_iff (ts : List Int) :
    ∃ s g, ScoringSystem.new.recordThrows ts = some s ∧ s.games = [g] ∧
      s.getCurrentGame = some g ∧
      g.frames.map (fun f => f.frameNumber) = [1, 2, 3, 4, 5, 6, 7, 8, 9, 10] ∧
      ∀ f, f ∈ g.frames → f.frameNumber ≤ 9 →
        (f.isComplete = true ↔ (f.throws = [10] ∨ f.throws.length = 2)) := by
  obtain ⟨s, g, hrec, hg, hgames, -, hcan, -⟩ := recordThrows_new (fun _ => True) ts (fun _ _ => trivial)
  refine ⟨s, g, hrec, hgames, hg, canon_frameNumbers g hcan, ?_⟩
  intro f hf hn
  obtain ⟨i, -, -, hnum, -, -, hco, -⟩ := canon_mem g hcan f hf
  have hi : i < 9 := by omega
  rw [hco]
  simp only [completeOf, hi, if_true, Bool.or_eq_true, decide_eq_true_eq]
  exact Or.comm

/-- C7. In every state reached from a fresh `ScoringSystem` by `recordThrow` calls (any
integer pin counts, in particular those in [0,10]), frame 10 has `isComplete = true` if and
only if it has three throws and its first throw is 10 or its first two throws sum to 10, or
it has two throws whose first is not 10 and whose sum is not 10.  Frame 10 = [10,7,2] is
complete only after the third throw and frame 10 = [9,0] is complete after the second. -/
theorem tenth_frame_complete_iff :
    (∀ ts : List Int, ∃ s g f, ScoringSystem.new.recordThrows ts = some s ∧ s.games = [g] ∧
      s.getCurrentGame = some g ∧ g.frames[9]? = some f ∧ f.frameNumber = 10 ∧
      (f.isComplete = true ↔
        (f.throws.length = 3 ∧
            (pinAt f.throws 0 = 10 ∨ pinAt f.throws 0 + pinAt f.throws 1 = 10)) ∨
          (f.throws.length = 2 ∧ pinAt f.throws 0 ≠ 10 ∧
            pinAt f.throws 0 + pinAt f.throws 1 ≠ 10))) ∧
    ((ScoringSystem.new.recordThrows
        [0, 0, 0, 0, 0, 0, 0, 0, 0, 0, 0, 0, 0, 0, 0, 0, 0, 0, 10, 7]).bind
      (fun s => s.getCurrentGame.bind (fun g => g.frames[9]?.map
        (fun f => (f.throws, f.isComplete)))) = some ([10, 7], false)) ∧
    ((ScoringSystem.new.recordThrows
        [0, 0, 0, 0, 0, 0, 0, 0, 0, 0, 0, 0, 0, 0, 0, 0, 0, 0, 10, 7, 2]).bind
      (fun s => s.getCurrentGame.bind (fun g => g.frames[9]?.map
        (fun f => (f.throws, f.isComplete)))) = some ([10, 7, 2], true)) ∧
    ((ScoringSystem.new.recordThrows
        [0, 0, 0, 0, 0, 0, 0, 0, 0, 0, 0, 0, 0, 0, 0, 0, 0, 0, 9]).bind
      (fun s => s.getCurrentGame.bind (fun g => g.frames[9]?.map
        (fun f => (f.throws, f.isComplete)))) = some ([9], false)) ∧
    ((ScoringSystem.new.recordThrows
        [0, 0, 0, 0, 0, 0, 0, 0, 0, 0, 0, 0, 0, 0, 0, 0, 0, 0, 9, 0]).bind
      (fun s => s.getCurrentGame.bind (fun g => g.frames[9]?.map
        (fun f => (f.throws, f.isComplete)))) = some ([9, 0], true)) := by
  refine ⟨?_, by decide, by decide, by decide, by decide⟩
  intro ts
  obtain ⟨s, g, hrec, hg, hgames, -, hcan, -⟩ := recordThrows_new (fun _ => True) ts (fun _ _ => trivial)
  obtain ⟨f, h9⟩ : ∃ f, g.frames[9]? = some f :=
    ⟨_, List.getElem?_eq_getElem (by rw [hcan.len]; omega)⟩
  obtain ⟨⟨hnum, -, -, hco, hshape⟩, -⟩ := hcan.frame 9 f h9
  refine ⟨s, g, f, hrec, hgames, hg, h9, hnum, ?_⟩
  rw [hco]
  simp only [shapeOf, lt_irrefl, if_false] at hshape
  simp only [completeOf, lt_irrefl, if_false, Bool.or_eq_true, Bool.and_eq_true,
    decide_eq_true_eq]
  constructor
  · rintro (h | h)
    · have h3 : f.throws.length = 3 := by omega
      exact Or.inl ⟨h3, hshape.2 h3⟩
    · exact Or.inr ⟨h.1.1, h.1.2, h.2⟩
  · rintro (h | h)
    · exact Or.inl (by omega)
    · exact Or.inr ⟨⟨h.1, h.2.1⟩, h.2.2⟩

/-- C8. On every state produced by the constructor and the mutating methods,
`recordThrow` returns; it returns false if and only if the current game is already complete
(which is when its frame 10 is complete), and then the whole scoring state is unchanged;
otherwise it returns true and the pin count is appended to the throws of the first frame
whose `isComplete` is false, the throws of the other frames staying as they were. -/
theorem recordThrow_false_iff_complete (s : ScoringSystem) (p : Int) (hs : Reachable s) :
    ∃ (g : Game) (f10 : Frame) (r : Bool × ScoringSystem), s.getCurrentGame = some g ∧ g.frames[9]? = some f10 ∧
      g.isComplete = f10.isComplete ∧ s.recordThrow p = some r ∧
      (r.1 = false ↔ g.isComplete = true) ∧
      (r.1 = false → r.2 = s) ∧
      (r.1 = true → ∃ (k : Nat) (f : Frame) (g2 : Game) (f2 : Frame),
        g.frames[k]? = some f ∧ f.isComplete = false ∧
        (∀ (j : Nat) (fj : Frame), j < k → g.frames[j]? = some fj → fj.isComplete = true) ∧
        r.2.getCurrentGame = some g2 ∧ g2.frames[k]? = some f2 ∧
        f2.throws = f.throws ++ [p] ∧
        (∀ (j : Nat) (fj : Frame), j ≠ k → g.frames[j]? = some fj →
          ∃ fj2 : Frame, g2.frames[j]? = some fj2 ∧ fj2.throws = fj.throws)) := by
  obtain ⟨g, hg, hcan, hcase⟩ := recordThrow_sysCanon s p (sysCanon_reachable s hs)
  obtain ⟨f10, h10, hfl10, ht10, -⟩ := canon_get g hcan 9 (by omega)
  have hc10 : g.isComplete = f10.isComplete := by
    rw [hcan.complete, hfl10.2.2.2.1, ht10]
  rcases hcase with ⟨hc, hr⟩ | ⟨hc, k, g2, -, hk, hko, hkb, hr, hcan2, -, hg2, hT, -⟩
  · refine ⟨g, f10, (false, s), hg, h10, hc10, hr, ?_, ?_, ?_⟩
    · simp [hc]
    · intro _; rfl
    · intro h; cases h
  · refine ⟨g, f10, (true, s.setCurrentGame g2), hg, h10, hc10, hr, ?_, ?_, ?_⟩
    · simp [hc]
    · intro h; cases h
    · intro _
      obtain ⟨f, hf, hfl, hft, -⟩ := canon_get g hcan k hk
      obtain ⟨f2, hf2, -, hft2, -⟩ := canon_get g2 hcan2 k hk
      refine ⟨k, f, g2, f2, hf, ?_, ?_, hg2, hf2, ?_, ?_⟩
      · rw [hfl.2.2.2.1, hft]; exact hko
      · intro j fj hj hfj
        rw [canon_complete_get g hcan j fj hfj]
        exact hkb j hj
      · rw [hft2, hT, hft]
        simp [pushAt]
      · intro j fj hjk hfj
        have hj10 : j < 10 := by rw [← hcan.len]; exact (List.getElem?_eq_some.mp hfj).1
        obtain ⟨fj2, hfj2, -, hftj2, -⟩ := canon_get g2 hcan2 j hj10
        refine ⟨fj2, hfj2, ?_⟩
        rw [hftj2, hT, ← throwsAt_of_get _ _ _ hfj]
        simp [pushAt, hjk]

/-- The instance of C8 for the first throw on a fresh scoring system. -/
theorem recordThrow_false_iff_complete_witness :
    ∃ (g : Game) (f10 : Frame) (r : Bool × ScoringSystem), ScoringSystem.new.getCurrentGame = some g ∧ g.frames[9]? = some f10 ∧
      g.isComplete = f10.isComplete ∧ ScoringSystem.new.recordThrow 7 = some r ∧
      (r.1 = false ↔ g.isComplete = true) ∧
      (r.1 = false → r.2 = ScoringSystem.new) ∧
      (r.1 = true → ∃ (k : Nat) (f : Frame) (g2 : Game) (f2 : Frame),
        g.frames[k]? = some f ∧ f.isComplete = false ∧
        (∀ (j : Nat) (fj : Frame), j < k → g.frames[j]? = some fj → fj.isComplete = true) ∧
        r.2.getCurrentGame = some g2 ∧ g2.frames[k]? = some f2 ∧
        f2.throws = f.throws ++ [7] ∧
        (∀ (j : Nat) (fj : Frame), j ≠ k → g.frames[j]? = some fj →
          ∃ fj2 : Frame, g2.frames[j]? = some fj2 ∧ fj2.throws = fj.throws)) :=
  recordThrow_false_iff_complete ScoringSystem.new 7 Reachable.new

/-- C9. After every `recordThrow` on a state produced by the constructor and the mutating
methods, the current game's `totalScore` is the sum of the frame scores that are not `null`,
no frame is scored while an earlier frame is still unscored, and so the scored frames are the
first `n` frames for some `n` and `totalScore` is the sum of their scores. -/
theorem total_is_sum_of_scored_frames (s : ScoringSystem) (p : Int) (hs : Reachable s) :
    ∃ (r : Bool × ScoringSystem) (g : Game), s.recordThrow p = some r ∧ r.2.getCurrentGame = some g ∧ g.frames.length = 10 ∧
      g.totalScore = (g.frames.filterMap (fun f => f.score)).sum ∧
      (∀ (i j : Nat) (fi fj : Frame), i < j → g.frames[i]? = some fi → g.frames[j]? = some fj →
        fj.score ≠ none → fi.score ≠ none) ∧
      ∃ n, n ≤ 10 ∧ (∀ (i : Nat) (f : Frame), g.frames[i]? = some f → (f.score ≠ none ↔ i < n)) ∧
        g.totalScore = ((g.frames.take n).filterMap (fun f => f.score)).sum := by
  have hs1 := sysCanon_reachable s hs
  obtain ⟨g0, -, -, hcase⟩ := recordThrow_sysCanon s p hs1
  obtain ⟨r, hr, hs2⟩ : ∃ r, s.recordThrow p = some r ∧ SysCanon r.2 := by
    rcases hcase with ⟨-, hr⟩ | ⟨-, k, g2, -, -, -, -, hr, -, hs2, -⟩
    · exact ⟨_, hr, hs1⟩
    · exact ⟨_, hr, hs2⟩
  obtain ⟨g, hg, hcan⟩ := sysCanon_current r.2 hs2
  have htot : g.totalScore = (g.frames.filterMap (fun f => f.score)).sum := by
    rw [hcan.total, sum_scoreValue]
  have hinit := canon_scored_initial g hcan
  refine ⟨r, g, hr, hg, hcan.len, htot, hinit, ?_⟩
  obtain ⟨n, hn, hiff⟩ := initial_count (fun i => scoreFn (throwsAt g.frames) i ≠ none)
    (fun i j hij hj => scoreFn_initial _ (canon_shape g hcan) hcan.seq i j (by omega)
      (by
        by_contra hcon
        apply hj
        have : ¬ j < 9 := by omega
        simp [scoreFn, this, completeOf, throwsAt,
          List.getElem?_eq_none (show g.frames.length ≤ j by rw [hcan.len]; omega)]) hj) 10
  have hiff2 : ∀ i f, g.frames[i]? = some f → (f.score ≠ none ↔ i < n) := by
    intro i f hf
    have hi10 : i < 10 := by rw [← hcan.len]; exact (List.getElem?_eq_some.mp hf).1
    rw [(hcan.frame i f hf).2]
    exact hiff i hi10
  refine ⟨n, hn, hiff2, ?_⟩
  rw [htot, filterMap_take_of_initial g.frames n]
  intro i f hf hni
  by_contra hcon
  have := (hiff2 i f hf).mp hcon
  omega

/-- The instance of C9 for the throw 4 on the state after the throws 5, 5, 3: after it
frames 1 and 2 are scored 13 and 7, the later frames are not scored, and the total is
20. -/
theorem total_is_sum_of_scored_frames_witness :
    ∃ s : ScoringSystem, ScoringSystem.new.recordThrows [5, 5, 3] = some s ∧
      (s.recordThrow 4).bind (fun r => r.2.getCurrentGame.map
          (fun g => (g.frames.map (fun f => f.score), g.totalScore))) =
        some ([some 13, some 7, none, none, none, none, none, none, none, none], 20) ∧
      ∃ (r : Bool × ScoringSystem) (g : Game), s.recordThrow 4 = some r ∧
        r.2.getCurrentGame = some g ∧ g.frames.length = 10 ∧
        g.totalScore = (g.frames.filterMap (fun f => f.score)).sum ∧
        (∀ (i j : Nat) (fi fj : Frame), i < j → g.frames[i]? = some fi →
          g.frames[j]? = some fj → fj.score ≠ none → fi.score ≠ none) ∧
        ∃ n, n ≤ 10 ∧
          (∀ (i : Nat) (f : Frame), g.frames[i]? = some f → (f.score ≠ none ↔ i < n)) ∧
          g.totalScore = ((g.frames.take n).filterMap (fun f => f.score)).sum :=
  ⟨_, rfl, by decide,
    total_is_sum_of_scored_frames _ 4 (reachable_recordThrows [5, 5, 3] _ _ Reachable.new rfl)⟩

/-- C10. In every state reached from a fresh `ScoringSystem` by `recordThrow` calls with
pin counts in [0,10], every frame satisfies: `isStrike` is true if and only if the frame has
a first throw equal to 10, and `isSpare` is true if and only if the frame has at least two
throws, its first two throws sum to 10 and its first throw is less than 10. -/
theorem strike_spare_flags_iff (ts : List Int) (hts : ∀ t, t ∈ ts → 0 ≤ t ∧ t ≤ 10) :
    ∃ s g, ScoringSystem.new.recordThrows ts = some s ∧ s.games = [g] ∧
      s.getCurrentGame = some g ∧ g.frames.length = 10 ∧
      ∀ f, f ∈ g.frames →
        (f.isStrike = true ↔ ∃ rest, f.throws = 10 :: rest) ∧
        (f.isSpare = true ↔ ∃ a b rest, f.throws = a :: b :: rest ∧ a + b = 10 ∧ a < 10) := by
  obtain ⟨s, g, hrec, hg, hgames, -, hcan, hb⟩ :=
    recordThrows_new (fun t => 0 ≤ t ∧ t ≤ 10) ts hts
  refine ⟨s, g, hrec, hgames, hg, hcan.len, ?_⟩
  intro f hf
  obtain ⟨i, -, hif, -, hst, hsp, -, hshape⟩ := canon_mem g hcan f hf
  have hbf : ∀ x, x ∈ f.throws → 0 ≤ x ∧ x ≤ 10 := by
    intro x hx
    rw [← throwsAt_of_get _ _ _ hif] at hx
    exact hb i x hx
  rw [hst, hsp]
  simp only [strikeOf, spareOf, Bool.and_eq_true, decide_eq_true_eq]
  match hft : f.throws with
  | [] => simp [pinAt]
  | [a] =>
    simp only [pinAt, List.getD_cons_zero, List.getD_cons_succ, List.getD_nil]
    constructor
    · simp
    · constructor
      · rintro ⟨h1, h2⟩
        exact absurd (by omega) h1
      · rintro ⟨a, b, rest, h, -⟩
        simp at h
  | a :: b :: rest =>
    have ha := hbf a (by rw [hft]; simp)
    simp only [pinAt, List.getD_cons_zero, List.getD_cons_succ]
    constructor
    · simp
    · constructor
      · rintro ⟨h1, h2⟩
        exact ⟨a, b, rest, rfl, h2, by omega⟩
      · rintro ⟨a2, b2, rest2, h, h2, h3⟩
        simp only [List.cons.injEq] at h
        obtain ⟨rfl, rfl, -⟩ := h
        exact ⟨by omega, h2⟩

/-- The instance of C10 for the throws 10 and then 3, 7, 4. -/
theorem strike_spare_flags_iff_witness :
    ∃ s g, ScoringSystem.new.recordThrows [10, 3, 7, 4] = some s ∧ s.games = [g] ∧
      s.getCurrentGame = some g ∧ g.frames.length = 10 ∧
      ∀ f, f ∈ g.frames →
        (f.isStrike = true ↔ ∃ rest, f.throws = 10 :: rest) ∧
        (f.isSpare = true ↔ ∃ a b rest, f.throws = a :: b :: rest ∧ a + b = 10 ∧ a < 10) :=
  strike_spare_flags_iff [10, 3, 7, 4] (by decide)

/-- C11. In every state reached from a fresh `ScoringSystem` by `recordThrow` calls (any
integer pin counts), the game has exactly the ten frames numbered 1..10 in order, every
frame 1-9 has at most 2 throws, frame 10 has at most 3 throws, and a frame has throws only
if all earlier frames are complete. -/
theorem frames_filled_in_order (ts : List Int) :
    ∃ s g, ScoringSystem.new.recordThrows ts = some s ∧ s.games = [g] ∧
      g.frames.map (fun f => f.frameNumber) = [1, 2, 3, 4, 5, 6, 7, 8, 9, 10] ∧
      (∀ f, f ∈ g.frames → (f.frameNumber ≤ 9 → f.throws.length ≤ 2) ∧
        (f.frameNumber = 10 → f.throws.length ≤ 3)) ∧
      (∀ (i j : Nat) (fi fj : Frame), i < j → g.frames[i]? = some fi →
        g.frames[j]? = some fj → fj.throws ≠ [] → fi.isComplete = true) := by
  obtain ⟨s, g, hrec, -, hgames, -, hcan, -⟩ :=
    recordThrows_new (fun _ => True) ts (fun _ _ => trivial)
  refine ⟨s, g, hrec, hgames, canon_frameNumbers g hcan, ?_, ?_⟩
  · intro f hf
    obtain ⟨i, hi, -, hnum, -, -, -, hshape⟩ := canon_mem g hcan f hf
    constructor
    · intro h9
      have hi9 : i < 9 := by omega
      simp only [shapeOf, hi9, if_true] at hshape
      exact hshape.1
    · intro h10
      have hi9 : ¬ i < 9 := by omega
      simp only [shapeOf, hi9, if_false] at hshape
      exact hshape.1
  · intro i j fi fj hij hi hj hne
    have hj10 : j < 10 := by rw [← hcan.len]; exact (List.getElem?_eq_some.mp hj).1
    rw [canon_complete_get g hcan i fi hi]
    exact canon_earlier_complete g hcan j hj10 (by rw [throwsAt_of_get _ _ _ hj]; exact hne) i hij

/-- C12, as the code has it.  On every state produced by the constructor and the mutating
methods, `startNextGame` returns true if and only if fewer than three games have been
started, whether or not the current game is complete; it then appends a fresh game and
advances `currentGameIndex` by one, and otherwise it returns false and leaves the state
unchanged. -/
theorem startNextGame_iff_capacity (s : ScoringSystem) (hs : Reachable s) :
    (s.startNextGame.1 = true ↔ s.games.length < 3) ∧
    (s.startNextGame.1 = true →
      s.startNextGame.2.games = s.games ++ [newGame] ∧
      s.startNextGame.2.currentGameIndex = s.currentGameIndex + 1) ∧
    (s.startNextGame.1 = false → s.startNextGame.2 = s) := by
  have hmax := reachable_maxGames s hs
  have hcur := (sysCanon_reachable s hs).cursor
  unfold ScoringSystem.startNextGame
  rw [hmax]
  by_cases h : s.currentGameIndex < 3 - 1
  · rw [if_pos h]
    exact ⟨⟨fun _ => by omega, fun _ => rfl⟩, fun _ => ⟨rfl, rfl⟩, fun h2 => Bool.noConfusion h2⟩
  · rw [if_neg h]
    exact ⟨⟨fun h2 => Bool.noConfusion h2, fun h2 => by omega⟩,
      fun h2 => Bool.noConfusion h2, fun _ => rfl⟩

/-- The instance of the amended C12 for a fresh scoring system. -/
theorem startNextGame_iff_capacity_witness :
    (ScoringSystem.new.startNextGame.1 = true ↔ ScoringSystem.new.games.length < 3) ∧
    (ScoringSystem.new.startNextGame.1 = true →
      ScoringSystem.new.startNextGame.2.games = ScoringSystem.new.games ++ [newGame] ∧
      ScoringSystem.new.startNextGame.2.currentGameIndex =
        ScoringSystem.new.currentGameIndex + 1) ∧
    (ScoringSystem.new.startNextGame.1 = false →
      ScoringSystem.new.startNextGame.2 = ScoringSystem.new) :=
  startNextGame_iff_capacity ScoringSystem.new Reachable.new

/-- C12 fails as stated: on a fresh scoring system the current game is not complete, yet
`startNextGame` returns true, appends a second game and moves the cursor to it. -/
theorem startNextGame_on_incomplete_game :
    ScoringSystem.new.getCurrentGame.map (fun g => g.isComplete) = some false ∧
    ScoringSystem.new.startNextGame.1 = true ∧
    ScoringSystem.new.startNextGame.2.games.length = 2 ∧
    ScoringSystem.new.startNextGame.2.currentGameIndex = 1 := by
  decide

/-- C13. `get3GameAverage` returns 0 when no game of the series is complete, and otherwise
the arithmetic mean of `totalScore` over the completed games only, rounded to the nearest
integer with halves rounded up: `floor(sum / n + 1/2)` for the `n` completed games with
score sum `sum`.  A series with completed games of 0 and 1 and a third, incomplete game has
the average 1. -/
theorem get3GameAverage_rounded_mean :
    (∀ s : ScoringSystem,
      s.get3GameAverage =
        if (s.games.filter (fun g => g.isComplete)).length = 0 then 0
        else ⌊((((s.games.filter (fun g => g.isComplete)).map (fun g => g.totalScore)).sum : Int) : ℚ) /
            (((s.games.filter (fun g => g.isComplete)).length : Nat) : ℚ) + 1 / 2⌋) ∧
    ((ScoringSystem.new.recordThrows
        [0, 0, 0, 0, 0, 0, 0, 0, 0, 0, 0, 0, 0, 0, 0, 0, 0, 0, 0, 0]).bind (fun s1 =>
      (s1.startNextGame.2.recordThrows
        [1, 0, 0, 0, 0, 0, 0, 0, 0, 0, 0, 0, 0, 0, 0, 0, 0, 0, 0, 0]).bind (fun s2 =>
      (s2.startNextGame.2.recordThrows [5, 2, 7]).map (fun s3 =>
        (s3.games.map (fun g => (g.isComplete, g.totalScore)), s3.get3GameAverage)))) =
      some ([(true, 0), (true, 1), (false, 7)], 1)) := by
  refine ⟨?_, by decide⟩
  intro s
  unfold ScoringSystem.get3GameAverage
  by_cases h0 : s.games.length = 0
  · have : s.games = [] := List.length_eq_zero.mp h0
    simp [this]
  · simp only [h0, if_false]
    by_cases hc : (s.games.filter (fun g => g.isComplete)).length = 0
    · simp only [hc, if_true]
    · simp only [hc, if_false]
      rw [foldl_totalScore, zero_add]
      exact mathRound_eq_floor _ _ (Nat.pos_of_ne_zero hc)

/-- C14 on the code.  In a fresh two-player scorekeeper the cursor is still 0 after the two
non-strike throws 3 and 4 of player A, and the next throw, 5, is added to frame 2 of player
A while the frames of player B stay empty: after a throw `getCurrentFrame` is the next,
open frame, so the completion test of `recordThrow` fails.  The cursor moves to player B
only when the whole game of player A is complete (here after twenty throws of 0). -/
theorem doubles_cursor_stays_on_first_player :
    ((MultiPlayerScoring.new Mode.doubles).recordThrows [3, 4]).map
        (fun m => m.currentPlayerIndex) = some 0 ∧
    ((MultiPlayerScoring.new Mode.doubles).recordThrows [3, 4, 5]).map
        (fun m => (m.currentPlayerIndex,
          m.players.map (fun p => p.scoringSystem.games.map
            (fun g => g.frames.map (fun f => f.throws))))) =
      some (0, [[[[3, 4], [5], [], [], [], [], [], [], [], []]],
        [[[], [], [], [], [], [], [], [], [], []]]]) ∧
    ((MultiPlayerScoring.new Mode.doubles).recordThrows
        [0, 0, 0, 0, 0, 0, 0, 0, 0, 0, 0, 0, 0, 0, 0, 0, 0, 0, 0, 0]).map
        (fun m => m.currentPlayerIndex) = some 1 := by
  refine ⟨by decide, by decide, by decide⟩

/-- C15. Round trip through `reset`: on every state produced by the constructor and the
mutating methods, `reset()` gives the state of a freshly constructed `ScoringSystem`, and on
every `MultiPlayerScoring` it gives the state of a freshly constructed scorekeeper of the
same mode; so recording any throw sequence after `reset()` returns, and returns exactly the
state (games, frames, throws, flags, scores, totals, cursors) that recording it on a fresh
instance returns. -/
theorem reset_then_replay :
    (∀ (s : ScoringSystem) (ts : List Int), Reachable s →
      s.reset = ScoringSystem.new ∧
      s.reset.recordThrows ts = ScoringSystem.new.recordThrows ts ∧
      ∃ s2, s.reset.recordThrows ts = some s2) ∧
    (∀ (m : MultiPlayerScoring) (ts : List Int),
      m.reset = MultiPlayerScoring.new m.mode ∧
      m.reset.recordThrows ts = (MultiPlayerScoring.new m.mode).recordThrows ts ∧
      ∃ m2, m.reset.recordThrows ts = some m2) := by
  constructor
  · intro s ts hs
    have hmax := reachable_maxGames s hs
    have hreset : s.reset = ScoringSystem.new := by
      unfold ScoringSystem.reset ScoringSystem.new
      rw [hmax]
    obtain ⟨s2, g, h2, -⟩ := recordThrows_new (fun _ => True) ts (fun _ _ => trivial)
    exact ⟨hreset, by rw [hreset], s2, by rw [hreset]; exact h2⟩
  · intro m ts
    have hreset : m.reset = MultiPlayerScoring.new m.mode := rfl
    obtain ⟨m2, h2, -⟩ := multi_recordThrows_canon (fun _ => True) ts
      (MultiPlayerScoring.new m.mode) (multiCanon_new _ _) (fun _ _ => trivial)
    exact ⟨hreset, by rw [hreset], m2, by rw [hreset]; exact h2⟩

/-- C16. `throwBall` returns false and returns the controller (with its scoring state)
unchanged whenever one of `state.isThrowing`, `state.ballInMotion`, `state.waitingForReset`
and `isResetting` is true or there is no ball body; when all four flags are false and a
ball body is present it returns true and changes the controller only by setting
`isThrowing` and `ballInMotion` to true, the throw start time to the clock and the stopped
timer to 0.  A controller that has been started accepts a throw; one that has not, and so
has no ball, rejects it. -/
theorem throwBall_accepts_iff_idle (c : GameController) (now : Int) :
    ((c.state.isThrowing = true ∨ c.state.ballInMotion = true ∨
        c.state.waitingForReset = true ∨ c.isResetting = true ∨ c.ballBody = none) →
      c.throwBall now = (false, c)) ∧
    ((c.state.isThrowing = false ∧ c.state.ballInMotion = false ∧
        c.state.waitingForReset = false ∧ c.isResetting = false ∧ c.ballBody ≠ none) →
      c.throwBall now =
        (true, { c with state := { c.state with isThrowing := true, ballInMotion := true },
                        throwStartTime := now, ballStoppedTime := 0 })) ∧
    ((GameController.new (MultiPlayerScoring.new Mode.singles)).startGame.throwBall 5).1 = true ∧
    ((GameController.new (MultiPlayerScoring.new Mode.singles)).throwBall 5).1 = false := by
  refine ⟨?_, ?_, by decide, by decide⟩
  · intro h
    unfold GameController.throwBall
    rcases h with h | h | h | h | h
    · simp [h]
    · simp [h]
    · simp [h]
    · simp [h]
    · rw [h]
      split <;> rfl
  · rintro ⟨h1, h2, h3, h4, h5⟩
    unfold GameController.throwBall
    simp only [h1, h2, h3, h4, Bool.or_self, Bool.false_eq_true, if_false]
    cases hb : c.ballBody with
    | none => exact absurd hb h5
    | some b => rfl

/-- C17. Completion is idempotent per throw: for every controller state, calling
`handleThrowComplete` twice gives the same result as calling it once, so the second call
records no throw, schedules no callback and changes neither `currentBall` nor any flag.
After a throw that knocked down pins 1-3 in frame 1 the first call records the throw 3,
sets `currentBall` to 2 and schedules `resetForSecondBall`, and the second call returns
that state unchanged. -/
theorem handleThrowComplete_idempotent :
    (∀ c : GameController,
      c.handleThrowComplete.bind GameController.handleThrowComplete = c.handleThrowComplete) ∧
    (∃ c c1 : GameController,
      ((GameController.new (MultiPlayerScoring.new Mode.singles)).startGame.throwBall 1000).2.update
          { now := 1100, ballExited := false, ballStopped := false,
            isPinKnockedDown := fun pinBody => decide (pinBody.pinNumber ≤ 3),
            isPinMoving := fun _ => false } = some c ∧
      c.knockedPins = [0, 1, 2] ∧
      c.handleThrowComplete = some c1 ∧
      c1.scoring.players.map (fun p => p.scoringSystem.games.map
          (fun g => g.frames.map (fun f => f.throws))) =
        [[[[3], [], [], [], [], [], [], [], [], []]]] ∧
      c1.state.currentBall = 2 ∧
      c1.timers = [{ delay := 1500, callback := Callback.resetForSecondBall }] ∧
      c1.handleThrowComplete = some c1) := by
  constructor
  · intro c
    cases h : c.handleThrowComplete with
    | none => rfl
    | some c1 =>
      exact handleThrowComplete_guarded c1 (handleThrowComplete_sets_guard c c1 h)
  · refine ⟨_, _, rfl, by decide, rfl, by decide, by decide, by decide, ?_⟩
    exact handleThrowComplete_guarded _ (Or.inl rfl)

/-- C18 fails as stated.  A throw is made on a started single-player controller; on the
next tick three pins are down and the ball has left the lane, so the 800 ms settle callback
is pending.  After `reset()` the flag `isThrowing` is still true, the callback is still
pending, and when it fires `handleThrowComplete` passes its guard: it records the throw 3
in frame 1, sets `waitingForReset` and `isResetting` and schedules `resetForSecondBall`. -/
theorem reset_keeps_settle_callback_live :
    ∃ c c1 : GameController,
      ((GameController.new (MultiPlayerScoring.new Mode.singles)).startGame.throwBall 1000).2.update
          { now := 1500, ballExited := true, ballStopped := false,
            isPinKnockedDown := fun pinBody => decide (pinBody.pinNumber ≤ 3),
            isPinMoving := fun _ => false } = some c ∧
      c.timers = [{ delay := 800, callback := Callback.handleThrowComplete }] ∧
      c.reset.state.isThrowing = true ∧
      c.reset.timers = [{ delay := 800, callback := Callback.handleThrowComplete }] ∧
      c.reset.scoring.players.map (fun p => p.scoringSystem.games.map
          (fun g => g.frames.map (fun f => f.throws))) =
        [[[[], [], [], [], [], [], [], [], [], []]]] ∧
      c.reset.fire 0 = some c1 ∧
      c1.scoring.players.map (fun p => p.scoringSystem.games.map
          (fun g => g.frames.map (fun f => f.throws))) =
        [[[[3], [], [], [], [], [], [], [], [], []]]] ∧
      c1.state.waitingForReset = true ∧ c1.isResetting = true ∧
      c1.timers = [{ delay := 1500, callback := Callback.resetForSecondBall }] := by
  refine ⟨_, _, rfl, ?_, ?_, ?_, ?_, rfl, ?_, ?_, ?_, ?_⟩ <;> decide

/-- C18, as the code has it.  After `reset()` the flags `isPlaying`, `ballInMotion` and
`waitingForReset` are false and `currentBall` is 1, the scoring state is unchanged and
`update` does nothing.  `reset()` cancels no deferred callback: the callbacks scheduled
before it stay pending, and a pending `handleThrowComplete` callback that fires afterwards is
a no-op (it only leaves the list of pending callbacks) when `isResetting` is true. -/
theorem reset_flags_and_pending_callbacks (c : GameController) :
    c.reset.state.isPlaying = false ∧ c.reset.state.ballInMotion = false ∧
    c.reset.state.waitingForReset = false ∧ c.reset.state.currentBall = 1 ∧
    c.reset.scoring = c.scoring ∧ c.reset.timers = c.timers ∧
    (∀ tick : Tick, c.reset.update tick = some c.reset) ∧
    (∀ (i : Nat) (timer : Timer), c.timers[i]? = some timer →
      timer.callback = Callback.handleThrowComplete → c.isResetting = true →
      c.reset.fire i = some { c.reset with timers := c.timers.eraseIdx i }) := by
  refine ⟨rfl, rfl, rfl, rfl, rfl, rfl, ?_, ?_⟩
  · intro tick
    unfold GameController.update
    simp [GameController.reset]
  · intro i timer hi hcb hres
    unfold GameController.fire
    have ht : c.reset.timers = c.timers := rfl
    rw [ht, hi]
    simp only [hcb, GameController.runCallback]
    exact handleThrowComplete_guarded _ (Or.inl hres)

/-- C19. Scoring never mutates past games: whenever `ScoringSystem.recordThrow` returns,
the cursor and the number of games are unchanged and every game other than
`games[currentGameIndex]` is identical before and after the call; whenever
`MultiPlayerScoring.recordThrow` returns, every player other than the one at the cursor is
identical before and after the call.  Both calls return on the states that the constructors
and the mutating methods produce. -/
theorem recordThrow_changes_current_only :
    (∀ (s : ScoringSystem) (p : Int) (r : Bool × ScoringSystem), s.recordThrow p = some r →
      r.2.currentGameIndex = s.currentGameIndex ∧ r.2.games.length = s.games.length ∧
      ∀ i, i ≠ s.currentGameIndex → r.2.games[i]? = s.games[i]?) ∧
    (∀ (m : MultiPlayerScoring) (p : Int) (r : Bool × MultiPlayerScoring),
      m.recordThrow p = some r →
      r.2.players.length = m.players.length ∧
      ∀ i, i ≠ m.currentPlayerIndex → r.2.players[i]? = m.players[i]?) ∧
    (∀ (s : ScoringSystem) (p : Int), Reachable s → ∃ r, s.recordThrow p = some r) ∧
    (∀ (mode : Mode) (ts : List Int) (p : Int),
      ∃ m r, (MultiPlayerScoring.new mode).recordThrows ts = some m ∧
        m.recordThrow p = some r) := by
  refine ⟨?_, ?_, ?_, ?_⟩
  · intro s p r h
    obtain ⟨h1, -, h2, h3⟩ := recordThrow_frame s p r h
    exact ⟨h1, h2, h3⟩
  · intro m p r h
    obtain ⟨player, q, -, -, -, hpl, -, -⟩ := multi_recordThrow_result m p r h
    rw [hpl]
    refine ⟨setScoringSystem_length _ _ _, ?_⟩
    intro i hi
    rw [setScoringSystem_get]
    have hne : ¬ m.currentPlayerIndex = i := fun e => hi e.symm
    cases m.players[i]? with
    | none => rfl
    | some pl => simp [hne]
  · intro s p hs
    obtain ⟨r, hr, -⟩ := recordThrow_pinsIn (fun _ => True) s p (sysCanon_reachable s hs)
      (fun _ _ _ _ _ => trivial) trivial
    exact ⟨r, hr⟩
  · intro mode ts p
    obtain ⟨m, hm, hcan, -⟩ := multi_recordThrows_canon (fun _ => True) ts
      (MultiPlayerScoring.new mode) (multiCanon_new _ _) (fun _ _ => trivial)
    obtain ⟨r, hr, -⟩ := multi_recordThrow_canon (fun _ => True) m p hcan trivial
    exact ⟨m, r, hm, hr⟩

/-- The instance of C19 for a throw in the second game of a series whose first game is a
complete gutter game. -/
theorem recordThrow_changes_current_only_witness :
    ∃ (s : ScoringSystem) (r : Bool × ScoringSystem),
      (ScoringSystem.new.recordThrows
        [0, 0, 0, 0, 0, 0, 0, 0, 0, 0, 0, 0, 0, 0, 0, 0, 0, 0, 0, 0]).map
        (fun s1 => s1.startNextGame.2) = some s ∧
      s.recordThrow 7 = some r ∧
      r.2.currentGameIndex = s.currentGameIndex ∧ r.2.games.length = s.games.length ∧
      ∀ i, i ≠ s.currentGameIndex → r.2.games[i]? = s.games[i]? :=
  ⟨_, _, rfl, rfl, recordThrow_changes_current_only.1 _ 7 _ rfl⟩

/-- C20. 300 is the maximum possible game score: after every sequence of `recordThrow`
calls on a fresh `ScoringSystem` with every pin count in [0,10], every frame score is at most
30, the game's `totalScore` is at most 300 and `get3GameAverage` is at most 300; after every
such sequence on a fresh scorekeeper `getCombined3GameAverage` is at most 300 times the
roster size, which is 600 for doubles and 1200 for team.  Twelve strikes reach 300. -/
theorem score_at_most_300 :
    (∀ ts : List Int, (∀ t, t ∈ ts → 0 ≤ t ∧ t ≤ 10) →
      ∃ s g, ScoringSystem.new.recordThrows ts = some s ∧ s.games = [g] ∧
        (∀ f, f ∈ g.frames → ∀ v, f.score = some v → v ≤ 30) ∧
        g.totalScore ≤ 300 ∧ s.get3GameAverage ≤ 300) ∧
    (∀ (mode : Mode) (ts : List Int), (∀ t, t ∈ ts → 0 ≤ t ∧ t ≤ 10) →
      ∃ m, (MultiPlayerScoring.new mode).recordThrows ts = some m ∧
        m.players.length = MultiPlayerScoring.playerCount mode ∧
        m.getCombined3GameAverage ≤ 300 * MultiPlayerScoring.playerCount mode) ∧
    (300 * MultiPlayerScoring.playerCount Mode.doubles = 600 ∧
      300 * MultiPlayerScoring.playerCount Mode.team = 1200) ∧
    ((ScoringSystem.new.recordThrows [10, 10, 10, 10, 10, 10, 10, 10, 10, 10, 10, 10]).map
      (fun s => (s.games.map (fun g => g.totalScore), s.get3GameAverage)) =
      some ([300], 300)) := by
  refine ⟨?_, ?_, ⟨rfl, rfl⟩, by decide⟩
  · intro ts hts
    obtain ⟨s, g, hrec, -, hgames, -, hcan, hb⟩ :=
      recordThrows_new (fun t => 0 ≤ t ∧ t ≤ 10) ts hts
    obtain ⟨hscores, htotal⟩ := canon_scores_le g hcan hb
    refine ⟨s, g, hrec, hgames, hscores, htotal, ?_⟩
    apply get3GameAverage_le
    intro g1 hg1
    rw [hgames] at hg1
    simp only [List.mem_singleton] at hg1
    rw [hg1]; exact htotal
  · intro mode ts hts
    obtain ⟨m, hm, hcan, hlen, -⟩ := multi_recordThrows_canon (fun t => 0 ≤ t ∧ t ≤ 10) ts
      (MultiPlayerScoring.new mode) (multiCanon_new _ _) hts
    have hlen2 : m.players.length = MultiPlayerScoring.playerCount mode := by
      rw [hlen, multi_new_players]
      simp
    refine ⟨m, hm, hlen2, ?_⟩
    have := multiCanon_combined_le m hcan
    rw [hlen2] at this
    exact this

/-- The instance of C20 for the throws 10, 3, 7, 4 on a fresh scoring system. -/
theorem score_at_most_300_witness :
    ∃ s g, ScoringSystem.new.recordThrows [10, 3, 7, 4] = some s ∧ s.games = [g] ∧
      (∀ f, f ∈ g.frames → ∀ v, f.score = some v → v ≤ 30) ∧
      g.totalScore ≤ 300 ∧ s.get3GameAverage ≤ 300 :=
  score_at_most_300.1 [10, 3, 7, 4] (by decide)

/-- C21. What the controller does after a first ball of 7 in the tenth frame.  In a
single-player game nine strikes are played and then 7 pins fall in the tenth frame: the
settle callback runs `handleThrowComplete`, which records `[7]` in frame 10, sets
`waitingForReset` and `isResetting`, and `handle10thFrameReset` schedules nothing, so no
callback is pending; from then on `throwBall` is rejected, `update` changes nothing and
there is no timer to fire.  The same first ball in frame 1 schedules the keep-standing
reset. -/
theorem tenth_frame_first_ball_schedules_nothing :
    (∃ c : GameController,
      (GameController.new (MultiPlayerScoring.new Mode.singles)).startGame.playThrows
        [10, 10, 10, 10, 10, 10, 10, 10, 10, 7] = some c ∧
      c.scoring.players.map (fun p => p.scoringSystem.games.map
          (fun g => g.frames.map (fun f => f.throws))) =
        [[[[10], [10], [10], [10], [10], [10], [10], [10], [10], [7]]]] ∧
      c.state.waitingForReset = true ∧ c.isResetting = true ∧ c.timers = [] ∧
      (∀ now, c.throwBall now = (false, c)) ∧
      (∀ tick, c.update tick = some c) ∧
      (∀ i, c.fire i = none)) ∧
    (∃ c1 c2 : GameController,
      ((GameController.new (MultiPlayerScoring.new Mode.singles)).startGame.throwBall 0).2.update
          { now := 100, ballExited := true, ballStopped := false,
            isPinKnockedDown := fun pinBody => decide (pinBody.pinNumber ≤ 7),
            isPinMoving := fun _ => false } = some c1 ∧
      c1.fire 0 = some c2 ∧
      c2.state.waitingForReset = true ∧ c2.isResetting = true ∧
      c2.timers = [{ delay := 1500, callback := Callback.resetForSecondBall }]) := by
  constructor
  · refine ⟨_, rfl, by decide, by decide, by decide, by decide, ?_, ?_, ?_⟩
    · intro now; rfl
    · intro tick; rfl
    · intro i; rfl
  · exact ⟨_, _, rfl, rfl, by decide, by decide, by decide⟩

/-- C22. The ball number after a first-ball strike in the tenth frame.  In a single-player
game ten strikes are played.  When `handleThrowComplete` has run for the tenth,
`currentBall` is 2 and `resetFrame` is pending; when that reset has run the controller
accepts a throw, the current frame is frame 10 with the one throw `[10]`, and
`getGameState` reports ball number 1. -/
theorem ballNumber_after_tenth_frame_strike :
    ∃ c c1 c2 c3 c4 : GameController,
      (GameController.new (MultiPlayerScoring.new Mode.singles)).startGame.playThrows
        [10, 10, 10, 10, 10, 10, 10, 10, 10] = some c ∧
      (c.throwBall 0).2.update ((c.throwBall 0).2.tickWithPinsDown 10 100 true) = some c1 ∧
      c1.fire 0 = some c2 ∧
      c2.state.currentBall = 2 ∧
      c2.timers = [{ delay := 1500, callback := Callback.resetFrame }] ∧
      c2.fire 0 = some c3 ∧
      c3.scoring.players.map (fun p => p.scoringSystem.games.map
          (fun g => g.frames.map (fun f => f.throws))) =
        [[[[10], [10], [10], [10], [10], [10], [10], [10], [10], [10]]]] ∧
      c3.getGameState.map (fun s => (s.frameNumber, s.ballNumber, s.canThrow)) =
        some (10, 1, true) ∧
      c3.throwBall 200 = (true, c4) := by
  refine ⟨_, _, _, _, _, rfl, rfl, rfl, by decide, by decide, rfl, by decide, by decide, rfl⟩

/-- C23. The keep-standing reset removes exactly the knocked pins.  When `knockedPins` has
no repetition and holds only indices of the pin lists, `resetForSecondBall` leaves in the
list of pin meshes and in the list of pin bodies exactly the entries whose original index
is not in `knockedPins`, in their original order; afterwards `pinsRemaining` is the
original number of pin bodies minus the number of knocked pins and `knockedPins` is
empty. -/
theorem resetForSecondBall_removes_knocked (c : GameController)
    (hnodup : c.knockedPins.Nodup)
    (hpins : ∀ i, i ∈ c.knockedPins → i < c.pins.length)
    (hbodies : ∀ i, i ∈ c.knockedPins → i < c.pinBodies.length) :
    c.resetForSecondBall.pins =
      (c.pins.enum.filter (fun entry => !c.knockedPins.contains entry.1)).map
        (fun entry => entry.2) ∧
    c.resetForSecondBall.pinBodies =
      (c.pinBodies.enum.filter (fun entry => !c.knockedPins.contains entry.1)).map
        (fun entry => entry.2) ∧
    c.resetForSecondBall.pins.length = c.pins.length - c.knockedPins.length ∧
    c.resetForSecondBall.state.pinsRemaining = c.pinBodies.length - c.knockedPins.length ∧
    c.resetForSecondBall.knockedPins = [] := by
  obtain ⟨h1, h2, h3, h4, h5⟩ := resetForSecondBall_standing c hnodup
  have h6 := h5 hbodies
  refine ⟨h1, h2, ?_, by rw [h4]; omega, h3⟩
  obtain ⟨hdesc, hmem⟩ := sort_descending c.knockedPins hnodup
  have h := foldl_eraseIdx_length _ hdesc c.pins (fun i hi => hpins i ((hmem i).mp hi))
  have hlen : (c.knockedPins.insertionSort (fun a b => b ≤ a)).length = c.knockedPins.length :=
    List.length_insertionSort _ _
  have hp : c.resetForSecondBall.pins =
      (c.knockedPins.insertionSort (fun a b => b ≤ a)).foldl GameController.spliceOne c.pins := by
    rw [resetForSecondBall_fields]
  rw [hp]
  omega

theorem resetForSecondBall_removes_knocked_witness :
    ({ (GameController.new (MultiPlayerScoring.new Mode.singles)).startGame with
        knockedPins := [2, 0, 5] }).resetForSecondBall.pinBodies.map (fun b : PinBody => b.pinNumber) =
      [2, 4, 5, 7, 8, 9, 10] ∧
    ({ (GameController.new (MultiPlayerScoring.new Mode.singles)).startGame with
        knockedPins := [2, 0, 5] }).resetForSecondBall.state.pinsRemaining = 10 - 3 := by
  have h := resetForSecondBall_removes_knocked
    { (GameController.new (MultiPlayerScoring.new Mode.singles)).startGame with
        knockedPins := [2, 0, 5] } (by decide) (by decide) (by decide)
  refine ⟨?_, h.2.2.2.1⟩
  rw [h.2.1]
  decide

/-- C24. The knocked-pin tally is a monotonic set.  One call of `checkKnockedPins` changes
nothing but `knockedPins`, which becomes the old list followed by a list `added` without
repetition that holds exactly the indices of pin bodies that are not in the old list and
whose pin reports down; so every index already listed stays, whatever its pin reports now,
and the length does not decrease.  When the old list has no repetition and holds only
indices of pin bodies, so does the new one, and its length is at most the number of pin
bodies; this holds for the empty list a reset leaves, and then over any number of calls,
one per tick. -/
theorem checkKnockedPins_monotonic_set (c : GameController)
    (isPinKnockedDown : PinBody → Bool) :
    (∃ added : List Nat,
      c.checkKnockedPins isPinKnockedDown = { c with knockedPins := c.knockedPins ++ added } ∧
      added.Nodup ∧
      ∀ i, i ∈ added ↔
        (i ∉ c.knockedPins ∧ ∃ b, c.pinBodies[i]? = some b ∧ isPinKnockedDown b = true)) ∧
    c.knockedPins.length ≤ (c.checkKnockedPins isPinKnockedDown).knockedPins.length ∧
    (c.knockedPins.Nodup → (∀ i, i ∈ c.knockedPins → i < c.pinBodies.length) →
      (c.checkKnockedPins isPinKnockedDown).knockedPins.Nodup ∧
      (∀ i, i ∈ (c.checkKnockedPins isPinKnockedDown).knockedPins → i < c.pinBodies.length) ∧
      (c.checkKnockedPins isPinKnockedDown).knockedPins.length ≤ c.pinBodies.length) ∧
    (∀ sensors : List (PinBody → Bool), c.knockedPins.Nodup →
      (∀ i, i ∈ c.knockedPins → i < c.pinBodies.length) →
      (∃ added, (sensors.foldl GameController.checkKnockedPins c).knockedPins =
        c.knockedPins ++ added) ∧
      (sensors.foldl GameController.checkKnockedPins c).pinBodies = c.pinBodies ∧
      (sensors.foldl GameController.checkKnockedPins c).knockedPins.Nodup ∧
      (sensors.foldl GameController.checkKnockedPins c).knockedPins.length ≤
        c.pinBodies.length) ∧
    ((([fun pinBody => decide (pinBody.pinNumber ≤ 3), fun _ => false,
        fun pinBody => decide (pinBody.pinNumber = 2 ∨ pinBody.pinNumber = 7)] :
          List (PinBody → Bool)).foldl GameController.checkKnockedPins
        (GameController.new (MultiPlayerScoring.new Mode.singles)).startGame).knockedPins =
      [0, 1, 2, 6]) := by
  refine ⟨checkKnockedPins_spec c isPinKnockedDown, ?_,
    checkKnockedPins_keeps c isPinKnockedDown, fun sensors => checkKnockedPins_ticks sensors c,
    by decide⟩
  obtain ⟨added, h, -, -⟩ := checkKnockedPins_spec c isPinKnockedDown
  rw [h]
  simp

/-- C25. What is counted when a pin falls during the settle period.  A ball is thrown in
frame 1 of a single-player game; on the tick that detects the exit pins 1-3 report down;
on the next tick, before the settle callback fires, pin 4 reports down as well.  That tick
does not run `checkKnockedPins` (`ballInMotion` is already false), `knockedPins` stays
`[0, 1, 2]` and the settle callback records the throw 3.  When the ball instead stops on
the lane, the tick that ends the wait runs `checkKnockedPins` first and the throw 4 is
recorded. -/
theorem pin_falling_during_settle_not_counted :
    (∃ c1 c2 c3 : GameController,
      ((GameController.new (MultiPlayerScoring.new Mode.singles)).startGame.throwBall 0).2.update
          { now := 100, ballExited := true, ballStopped := false,
            isPinKnockedDown := fun pinBody => decide (pinBody.pinNumber ≤ 3),
            isPinMoving := fun _ => false } = some c1 ∧
      c1.timers = [{ delay := 800, callback := Callback.handleThrowComplete }] ∧
      c1.update
          { now := 500, ballExited := false, ballStopped := false,
            isPinKnockedDown := fun pinBody => decide (pinBody.pinNumber ≤ 4),
            isPinMoving := fun _ => false } = some c2 ∧
      c2 = c1 ∧ c2.knockedPins = [0, 1, 2] ∧
      c2.fire 0 = some c3 ∧
      c3.scoring.players.map (fun p => p.scoringSystem.games.map
          (fun g => g.frames.map (fun f => f.throws))) =
        [[[[3], [], [], [], [], [], [], [], [], []]]]) ∧
    (∃ c1 c2 : GameController,
      ((GameController.new (MultiPlayerScoring.new Mode.singles)).startGame.throwBall 0).2.update
          { now := 100, ballExited := false, ballStopped := true,
            isPinKnockedDown := fun pinBody => decide (pinBody.pinNumber ≤ 3),
            isPinMoving := fun _ => false } = some c1 ∧
      c1.knockedPins = [0, 1, 2] ∧ c1.timers = [] ∧
      c1.update
          { now := 1000, ballExited := false, ballStopped := true,
            isPinKnockedDown := fun pinBody => decide (pinBody.pinNumber ≤ 4),
            isPinMoving := fun _ => false } = some c2 ∧
      c2.scoring.players.map (fun p => p.scoringSystem.games.map
          (fun g => g.frames.map (fun f => f.throws))) =
        [[[[4], [], [], [], [], [], [], [], [], []]]]) := by
  constructor
  · exact ⟨_, _, _, rfl, by decide, rfl, by decide, by decide, rfl, by decide⟩
  · exact ⟨_, _, rfl, by decide, by decide, rfl, by decide⟩

/-- C26. Frame scores are stable.  From every state `s` that the scoring system can reach,
every list `us` of further integer pin counts is recorded without error, in the same game,
and every frame of the current game whose score is not `null` in `s` has the same score
after the throws.  When the pin counts already in the game and the pin counts of `us` are
non-negative, `totalScore` after the throws is at least `totalScore` before them. -/
theorem frame_scores_stable (s : ScoringSystem) (us : List Int) (hs : Reachable s) :
    ∃ (g : Game) (s2 : ScoringSystem) (g2 : Game), s.getCurrentGame = some g ∧
      s.recordThrows us = some s2 ∧ s2.getCurrentGame = some g2 ∧
      s2.currentGameIndex = s.currentGameIndex ∧
      (∀ (i : Nat) (f : Frame) (v : Int), g.frames[i]? = some f → f.score = some v →
        ∃ f2 : Frame, g2.frames[i]? = some f2 ∧ f2.score = some v) ∧
      ((∀ x, x ∈ us → 0 ≤ x) → (∀ f, f ∈ g.frames → ∀ x, x ∈ f.throws → 0 ≤ x) →
        g.totalScore ≤ g2.totalScore) := by
  obtain ⟨g, s2, g2, hg, hrec, -, hg2, hcan, hcan2, hidx, hkeep, hmem⟩ :=
    recordThrows_scores_kept us s (sysCanon_reachable s hs)
  refine ⟨g, s2, g2, hg, hrec, hg2, hidx, ?_, ?_⟩
  · intro i f v hif hv
    have hi : i < 10 := by
      have := (List.getElem?_eq_some.mp hif).1
      rw [hcan.len] at this
      exact this
    obtain ⟨f2, hf2, -, -, hscore2⟩ := canon_get g2 hcan2 i hi
    refine ⟨f2, hf2, ?_⟩
    rw [hscore2]
    apply hkeep
    rw [← (hcan.frame i f hif).2]
    exact hv
  · intro hus hold
    rw [canon_total_sumFrom g hcan, canon_total_sumFrom g2 hcan2]
    apply sumFrom_mono _ _ hkeep
    intro j x hx
    rcases hmem j x hx with h | h
    · unfold throwsAt at h
      cases hj : g.frames[j]? with
      | none => rw [hj] at h; simp at h
      | some f =>
        rw [hj] at h
        have hf : f ∈ g.frames := by
          obtain ⟨hlt, hx⟩ := List.getElem?_eq_some.mp hj
          rw [← hx]; exact List.getElem_mem _
        exact hold f hf x h
    · exact hus x h

/-- The instance of C26 for the throws 4, 10 on the state after the throws 5, 5, 3: frame
1 is scored 13 before and after them, and the total goes from 13 to 20. -/
theorem frame_scores_stable_witness :
    ∃ s : ScoringSystem, ScoringSystem.new.recordThrows [5, 5, 3] = some s ∧
      s.getCurrentGame.map (fun g => (g.frames.map (fun f => f.score), g.totalScore)) =
        some ([some 13, none, none, none, none, none, none, none, none, none], 13) ∧
      (s.recordThrows [4, 10]).bind (fun s2 => s2.getCurrentGame.map
          (fun g => (g.frames.map (fun f => f.score), g.totalScore))) =
        some ([some 13, some 7, none, none, none, none, none, none, none, none], 20) ∧
      ∃ (g : Game) (s2 : ScoringSystem) (g2 : Game), s.getCurrentGame = some g ∧
        s.recordThrows [4, 10] = some s2 ∧ s2.getCurrentGame = some g2 ∧
        s2.currentGameIndex = s.currentGameIndex ∧
        (∀ (i : Nat) (f : Frame) (v : Int), g.frames[i]? = some f → f.score = some v →
          ∃ f2 : Frame, g2.frames[i]? = some f2 ∧ f2.score = some v) ∧
        ((∀ x : Int, x ∈ [4, 10] → 0 ≤ x) →
          (∀ f, f ∈ g.frames → ∀ x, x ∈ f.throws → 0 ≤ x) →
          g.totalScore ≤ g2.totalScore) :=
  ⟨_, rfl, by decide, by decide,
    frame_scores_stable _ [4, 10] (reachable_recordThrows [5, 5, 3] _ _ Reachable.new rfl)⟩

/-- C27. The flag `canThrow` during the settle period.  A ball is thrown on a started
single-player controller and the next tick detects that it left the lane: the settle
callback is pending, `getGameState` reports `canThrow` true, and `throwBall` returns false
and changes nothing.  In every state `canThrow` is the conjunction of `ballInMotion` false
and `waitingForReset` false, which every state that accepts a throw satisfies. -/
theorem canThrow_true_while_throwBall_rejects :
    (∃ c : GameController,
      ((GameController.new (MultiPlayerScoring.new Mode.singles)).startGame.throwBall 0).2.update
          { now := 100, ballExited := true, ballStopped := false,
            isPinKnockedDown := fun pinBody => decide (pinBody.pinNumber ≤ 3),
            isPinMoving := fun _ => false } = some c ∧
      c.timers = [{ delay := 800, callback := Callback.handleThrowComplete }] ∧
      c.getGameState.map (fun s => s.canThrow) = some true ∧
      c.throwBall 200 = (false, c)) ∧
    (∀ (c : GameController) (s : GameState), c.getGameState = some s →
      s.canThrow = (!c.state.ballInMotion && !c.state.waitingForReset)) ∧
    (∀ (c : GameController) (now : Int), (c.throwBall now).1 = true →
      (!c.state.ballInMotion && !c.state.waitingForReset) = true) := by
  refine ⟨⟨_, rfl, by decide, by decide, rfl⟩, ?_, ?_⟩
  · intro c s h
    unfold GameController.getGameState at h
    split at h
    · exact Option.noConfusion h
    · split at h
      · exact Option.noConfusion h
      · exact Option.noConfusion h
      · split at h
        · exact Option.noConfusion h
        · split at h
          · exact Option.noConfusion h
          · rw [← Option.some.inj h]
  · intro c now h
    unfold GameController.throwBall at h
    split at h
    · exact Bool.noConfusion h
    · rename_i hflags
      simp only [Bool.or_eq_true, not_or, Bool.not_eq_true] at hflags
      simp [hflags.1.1.2, hflags.1.2]

/-- C28 fails as stated.  In a single-player game a strike is recorded in frame 1, which
schedules `resetFrame`; the start button is pressed while that callback is pending, so the
scores start afresh and the rack is full; a ball knocks down 7 pins and its settle callback
records 7 in frame 1 and schedules `resetForSecondBall`; the `resetFrame` callback of the
earlier game then fires and sets up a full rack of 10; the next ball knocks down all 10 and
its settle callback records them.  Frame 1 is not a strike and holds the two throws 7 and
10. -/
theorem restart_with_pending_reset_records_seven_then_ten :
    ∃ c1 c2 c3 c4 c5 c6 c7 : GameController,
      ((GameController.new (MultiPlayerScoring.new Mode.singles)).startGame.throwBall 0).2.update
          { now := 100, ballExited := true, ballStopped := false,
            isPinKnockedDown := fun _ => true, isPinMoving := fun _ => false } = some c1 ∧
      c1.fire 0 = some c2 ∧
      c2.timers = [{ delay := 1500, callback := Callback.resetFrame }] ∧
      ((UIManager.startNewGame c2 Mode.singles).throwBall 1000).2.update
          { now := 1100, ballExited := true, ballStopped := false,
            isPinKnockedDown := fun pinBody => decide (pinBody.pinNumber ≤ 7),
            isPinMoving := fun _ => false } = some c3 ∧
      c3.timers = [{ delay := 1500, callback := Callback.resetFrame },
        { delay := 800, callback := Callback.handleThrowComplete }] ∧
      c3.fire 1 = some c4 ∧
      c4.timers = [{ delay := 1500, callback := Callback.resetFrame },
        { delay := 1500, callback := Callback.resetForSecondBall }] ∧
      c4.fire 0 = some c5 ∧
      c5.state.pinsRemaining = 10 ∧
      (c5.throwBall 2500).2.update
          { now := 2600, ballExited := true, ballStopped := false,
            isPinKnockedDown := fun _ => true, isPinMoving := fun _ => false } = some c6 ∧
      c6.fire 1 = some c7 ∧
      GameController.Run c7 ∧
      c7.scoring.players.map (fun p => p.scoringSystem.games.map
          (fun g => g.frames.map (fun f => (f.frameNumber, f.isStrike, f.throws)))) =
        [[[(1, false, [7, 10]), (2, false, []), (3, false, []), (4, false, []), (5, false, []),
          (6, false, []), (7, false, []), (8, false, []), (9, false, []), (10, false, [])]]] := by
  have r1 := GameController.Run.throwBall _ 0 (GameController.Run.start Mode.singles)
  have r2 := GameController.Run.update _ _
    { now := 100, ballExited := true, ballStopped := false,
      isPinKnockedDown := fun _ => true, isPinMoving := fun _ => false } r1 rfl
  have r3 := GameController.Run.fire _ _ 0 r2 rfl
  have r4 := GameController.Run.throwBall _ 1000 (GameController.Run.restart _ Mode.singles r3)
  have r5 := GameController.Run.update _ _
    { now := 1100, ballExited := true, ballStopped := false,
      isPinKnockedDown := fun pinBody => decide (pinBody.pinNumber ≤ 7),
      isPinMoving := fun _ => false } r4 rfl
  have r6 := GameController.Run.fire _ _ 1 r5 rfl
  have r7 := GameController.Run.fire _ _ 0 r6 rfl
  have r8 := GameController.Run.throwBall _ 2500 r7
  have r9 := GameController.Run.update _ _
    { now := 2600, ballExited := true, ballStopped := false,
      isPinKnockedDown := fun _ => true, isPinMoving := fun _ => false } r8 rfl
  have r10 := GameController.Run.fire _ _ 1 r9 rfl
  exact ⟨_, _, _, _, _, _, _, rfl, rfl, by decide, rfl, by decide, rfl, by decide, rfl,
    by decide, rfl, rfl, r10, by decide⟩

/-- C28, amended.  `createPins` yields 10 pins.  In every state of a run of the
application (a game is started, then balls are thrown, ticks pass with any sensor readings,
pending callbacks fire and the start button starts a new game, in any order):
`pinsRemaining` is the number of pin bodies and at most 10; the number of knocked pins,
before and after any further `checkKnockedPins`, is at most `pinsRemaining`;
`handleThrowComplete` either leaves the scorekeeper as it is or records exactly that number;
every tick and every pending callback runs without error; and all recorded throws are
between 0 and 10.  When the start button has been pressed only while no callback was
pending, in every frame 1-9 that holds two throws they sum to at most 10. -/
theorem controller_feeds_legal_counts (c : GameController) (hrun : GameController.Run c) :
    createPins.length = 10 ∧
    c.state.pinsRemaining = c.pinBodies.length ∧ c.state.pinsRemaining ≤ 10 ∧
    c.knockedPins.length ≤ c.state.pinsRemaining ∧
    (∀ sensor : PinBody → Bool,
      (c.checkKnockedPins sensor).knockedPins.length ≤ c.state.pinsRemaining) ∧
    (∀ c1 : GameController, c.handleThrowComplete = some c1 →
      c1.scoring = c.scoring ∨
        ∃ r, c.scoring.recordThrow (c.knockedPins.length : Int) = some r ∧ c1.scoring = r.2) ∧
    (∀ tick : Tick, ∃ c1, c.update tick = some c1) ∧
    (∀ (i : Nat) (t : Timer), c.timers[i]? = some t → ∃ c1, c.fire i = some c1) ∧
    (∀ (pl : Player) (g : Game) (f : Frame), pl ∈ c.scoring.players →
      g ∈ pl.scoringSystem.games → f ∈ g.frames → ∀ x, x ∈ f.throws → 0 ≤ x ∧ x ≤ 10) ∧
    (GameController.CalmRun c →
      ∀ (pl : Player) (g : Game) (f : Frame), pl ∈ c.scoring.players →
        g ∈ pl.scoringSystem.games → f ∈ g.frames → f.frameNumber ≤ 9 →
        ∀ a b, f.throws = [a, b] → a + b ≤ 10) := by
  have h := ctlBase_run c hrun
  have hlen := nodup_length_le _ _ h.nodup h.inRange
  refine ⟨rfl, h.remaining, by rw [h.remaining]; exact h.bodies, by rw [h.remaining]; exact hlen,
    ?_, handleThrowComplete_records c, ?_, ?_, ?_, ?_⟩
  · intro sensor
    rw [h.remaining]
    exact (checkKnockedPins_keeps c sensor h.nodup h.inRange).2.2
  · intro tick
    obtain ⟨c1, h1, -⟩ := ctlBase_update c tick h
    exact ⟨c1, h1⟩
  · intro i t ht
    obtain ⟨c1, h1, -⟩ := ctlBase_fire c i t h ht
    exact ⟨c1, h1⟩
  · intro pl g f hpl hg hf x hx
    obtain ⟨hsys, hpins⟩ := h.canon.players pl hpl
    obtain ⟨i, hi, hif, hflags⟩ := canon_mem g (hsys.games g hg) f hf
    have ht := throwsAt_of_get g.frames i f hif
    exact hpins g hg i x (by rw [ht]; exact hx)
  · intro hcalm pl g f hpl hg hf h9 a b hab
    have hinv := ctlInv_run c hcalm
    obtain ⟨hsys, -⟩ := h.canon.players pl hpl
    obtain ⟨i, hi, hif, hflags⟩ := canon_mem g (hsys.games g hg) f hf
    have ht := throwsAt_of_get g.frames i f hif
    have hnum := hflags.1
    exact hinv.sums pl hpl g hg i a b (by omega) (by rw [ht]; exact hab)

theorem controller_feeds_legal_counts_witness :
    ∃ c : GameController,
      (UIManager.startNewGame
        (GameController.new (MultiPlayerScoring.new Mode.singles)).startGame
        Mode.singles).playThrows [7, 3, 10] = some c ∧
      c.scoring.players.map (fun p => p.scoringSystem.games.map
          (fun g => g.frames.map (fun f => f.throws))) =
        [[[[7, 3], [10], [], [], [], [], [], [], [], []]]] ∧
      c.knockedPins.length ≤ c.state.pinsRemaining ∧
      (∀ (pl : Player) (g : Game) (f : Frame), pl ∈ c.scoring.players →
        g ∈ pl.scoringSystem.games → f ∈ g.frames → ∀ x, x ∈ f.throws → 0 ≤ x ∧ x ≤ 10) ∧
      (∀ (pl : Player) (g : Game) (f : Frame), pl ∈ c.scoring.players →
        g ∈ pl.scoringSystem.games → f ∈ g.frames → f.frameNumber ≤ 9 →
        ∀ a b, f.throws = [a, b] → a + b ≤ 10) := by
  have hcalm := calm_playThrows [7, 3, 10] _ _
    (GameController.CalmRun.restart _ Mode.singles (GameController.CalmRun.start Mode.singles)
      rfl) rfl
  have h := controller_feeds_legal_counts _ (run_of_calm _ hcalm)
  exact ⟨_, rfl, by decide, h.2.2.2.1, h.2.2.2.2.2.2.2.2.1, h.2.2.2.2.2.2.2.2.2 hcalm⟩

/-- C29. The rack for the third ball after two strikes in the tenth frame.  In a
single-player game eleven strikes are played.  After the second strike of the tenth frame
`handle10thFrameReset` schedules `resetForSecondBall`, which removes all ten knocked pins:
the controller accepts a throw with `pinsRemaining` 0 and no pin body.  On the third ball
no pin can be counted, whatever the sensors report, so the throw 0 is recorded and the game
ends with `[10, 10, 0]` in frame 10 and the total 290. -/
theorem third_ball_after_two_strikes_has_no_pins :
    ∃ c c1 c2 c3 : GameController,
      (GameController.new (MultiPlayerScoring.new Mode.singles)).startGame.playThrows
        [10, 10, 10, 10, 10, 10, 10, 10, 10, 10, 10] = some c ∧
      c.state.pinsRemaining = 0 ∧ c.pinBodies = [] ∧ c.pins = [] ∧ c.state.currentBall = 3 ∧
      c.getGameState.map (fun s => (s.frameNumber, s.pinsRemaining, s.canThrow)) =
        some (10, 0, true) ∧
      c.throwBall 0 = (true, c1) ∧
      c1.update { now := 100, ballExited := true, ballStopped := false,
                  isPinKnockedDown := fun _ => true, isPinMoving := fun _ => false } = some c2 ∧
      c2.fire 0 = some c3 ∧
      c3.scoring.players.map (fun p => p.scoringSystem.games.map
          (fun g => (g.frames.map (fun f => f.throws), g.isComplete, g.totalScore))) =
        [[([[10], [10], [10], [10], [10], [10], [10], [10], [10], [10, 10, 0]], true, 290)]] := by
  refine ⟨_, _, _, _, rfl, by decide, by decide, by decide, by decide, by decide, rfl, rfl, rfl,
    by decide⟩

/-- C30. What `getFrameDisplay` shows for a tenth frame: after eighteen gutter balls and the
throws 10, 0, 5 the tenth frame holds `[10, 0, 5]` and is displayed as `X`, `/`, `5` (the 0
thrown at a fresh rack after the strike is marked as a spare, not as `-`); after the throws
5, 5, 5 it holds `[5, 5, 5]` and is displayed as `5`, `/`, `/` (the bonus ball after the
spare is marked as a spare, not as its pin count).  The mark of a throw other than 10 is
`/` whenever it and the throw before it sum to 10, whatever rack the earlier throw was
made at. -/
theorem getFrameDisplay_tenth_frame_marks :
    ((ScoringSystem.new.recordThrows
        [0, 0, 0, 0, 0, 0, 0, 0, 0, 0, 0, 0, 0, 0, 0, 0, 0, 0, 10, 0, 5]).bind
      (fun s => s.getCurrentGame.bind (fun g => g.frames[9]?.map
        (fun f => (f.throws, ScoringSystem.getFrameDisplay f)))) =
      some ([10, 0, 5], [Mark.strike, Mark.spare, Mark.pins 5])) ∧
    ((ScoringSystem.new.recordThrows
        [0, 0, 0, 0, 0, 0, 0, 0, 0, 0, 0, 0, 0, 0, 0, 0, 0, 0, 5, 5, 5]).bind
      (fun s => s.getCurrentGame.bind (fun g => g.frames[9]?.map
        (fun f => (f.throws, ScoringSystem.getFrameDisplay f)))) =
      some ([5, 5, 5], [Mark.pins 5, Mark.spare, Mark.spare])) ∧
    (∀ (throws : List Int) (idx : Nat) (pins previous : Int), pins ≠ 10 → 0 < idx →
      throws[idx - 1]? = some previous → pins + previous = 10 →
      tenthMark throws idx pins = Mark.spare) := by
  refine ⟨by decide, by decide, ?_⟩
  intro throws idx pins previous hp hidx hprev hsum
  simp [tenthMark, hp, hidx, hprev, hsum]
